import Mathlib

/-!
# wasm-utils: marshalling between Go values and JavaScript values

A shallow embedding of `gotojs.go` (`JsValueOf`, the encoder) and `jstogo.go`
(`GoValueOf`, the decoder), with the parts of `reflect`, `strings` and
`syscall/js` that the two files call.

Conventions of the embedding

* A Go string is a Lean `String` (valid UTF-8 only).
* A struct tag is represented by the value it holds under the key `js`
  (`none` when the tag has no such key), so `Tag.Get("js")` is `StructTag.Get`.
* A run-time fault (a Go panic) is an explicit outcome: `none` on the encoder
  side, `Res.panic` on the decoder side.
* A finite `float64` is represented by its exact rational value; NaN, the
  infinities and the negative zero are outside the model.
* `int`, `uint` and `uintptr` are 64 bits wide, as on `GOARCH=wasm`.
* Go types are finite trees (no recursive type), named types, channels,
  functions, complex numbers and interfaces with methods are outside the model.
* JavaScript values are `undefined`, `null`, booleans, numbers, strings, arrays
  and plain objects, an object is the list of its own properties in insertion
  order (symbols, functions, inherited properties and the reordering of
  integer-like keys are outside the model).
* The limits of an allocation (`reflect.MakeSlice`, `reflect.MakeMapWithSize`)
  are outside the model.
* The decoder writes through pointers and into maps that are already there, so
  every decoder function returns, next to what the source returns, the content
  of the location it was given after the call.

The definitions come first, with the size bounds their termination proofs use,
then the unfolding rules of the two recursive families, then the properties.
-/

namespace WasmUtils

/-! ## strings -/

/-- The pieces of a character list between the occurrences of `sep`. -/
def splitChars (sep : Char) : List Char → List (List Char)
  | [] => [[]]
  | c :: cs =>
    if c = sep then [] :: splitChars sep cs
    else
      match splitChars sep cs with
      | [] => [[c]]
      | t :: ts => (c :: t) :: ts

/-- Go `strings.Split(s, sep)` for a separator of one character. -/
def Split (s : String) (sep : Char) : List String :=
  (splitChars sep s.data).map String.mk

/-! ## reflect: struct fields -/

/-- Go `reflect.StructField`: the declared name, the `js` entry of the tag and
the package path, which is empty exactly for an exported field. -/
structure StructField where
  Name : String
  Tag : Option String
  PkgPath : String

/-- Go `sf.Tag.Get("js")`: the value under the key, the empty string when the
key is absent. -/
def StructTag.Get (tag : Option String) : String :=
  tag.getD ""

/-- Whether a value read through this field may be turned into an
`interface{}`: `f.CanInterface()` for `f := v.Field(i)`. -/
def StructField.CanInterface (sf : StructField) : Bool :=
  sf.PkgPath == ""

/-! ## gotojs.go: field metadata -/

/-- Source `nameOf` (gotojs.go 88-100). -/
def nameOf (sf : StructField) : String :=
  let jstag := StructTag.Get sf.Tag
  if jstag == "" then sf.Name
  else
    let tokens := Split jstag ','
    if tokens.length == 1 then jstag
    else tokens.headD ""

/-- Source `canOmitEmpty` (gotojs.go 120-136). -/
def canOmitEmpty (sf : StructField) : Bool :=
  let jstag := StructTag.Get sf.Tag
  if jstag == "" then false
  else
    let tokens := Split jstag ','
    if tokens.length == 1 then false
    else
      match tokens.tail.head? with
      | some param => param == "omitempty"
      | none => false

/-! ## reflect: kinds, types and values -/

/-- Go `reflect.Kind`, restricted to the kinds of the model (and `Invalid`). -/
inductive Kind where
  | Invalid | Bool
  | Int | Int8 | Int16 | Int32 | Int64
  | Uint | Uint8 | Uint16 | Uint32 | Uint64 | Uintptr
  | Float32 | Float64
  | Array | Interface | Map | Ptr | Slice | String | Struct
deriving DecidableEq, Repr

/-- The signed integer kinds. -/
inductive IntKind where
  | Int | Int8 | Int16 | Int32 | Int64
deriving DecidableEq, Repr

/-- The unsigned integer kinds. -/
inductive UintKind where
  | Uint | Uint8 | Uint16 | Uint32 | Uint64 | Uintptr
deriving DecidableEq, Repr

/-- The floating-point kinds. -/
inductive FloatKind where
  | Float32 | Float64
deriving DecidableEq, Repr

/-- The `reflect.Kind` of a signed integer kind. -/
def IntKind.toKind : IntKind → Kind
  | .Int => .Int | .Int8 => .Int8 | .Int16 => .Int16 | .Int32 => .Int32 | .Int64 => .Int64

/-- The `reflect.Kind` of an unsigned integer kind. -/
def UintKind.toKind : UintKind → Kind
  | .Uint => .Uint | .Uint8 => .Uint8 | .Uint16 => .Uint16 | .Uint32 => .Uint32
  | .Uint64 => .Uint64 | .Uintptr => .Uintptr

/-- The `reflect.Kind` of a floating-point kind. -/
def FloatKind.toKind : FloatKind → Kind
  | .Float32 => .Float32 | .Float64 => .Float64

/-- Width in bits of a signed integer kind. -/
def IntKind.bits : IntKind → Nat
  | .Int => 64 | .Int8 => 8 | .Int16 => 16 | .Int32 => 32 | .Int64 => 64

/-- Width in bits of an unsigned integer kind. -/
def UintKind.bits : UintKind → Nat
  | .Uint => 64 | .Uint8 => 8 | .Uint16 => 16 | .Uint32 => 32 | .Uint64 => 64 | .Uintptr => 64

/-- Go `reflect.Type`: the static shape of a value. -/
inductive GoType where
  | bool
  | int (k : IntKind)
  | uint (k : UintKind)
  | float (k : FloatKind)
  | string
  | ptr (elem : GoType)
  | iface
  | slice (elem : GoType)
  | array (len : Nat) (elem : GoType)
  | map (key elem : GoType)
  | struct (fields : List (StructField × GoType))

/-- A Go value as `reflect.Value` sees it. A pointer owns its pointee and a map
owns its entries (the destination graph is a tree, nothing is shared), nil
pointers, slices and maps carry their static element types. -/
inductive GoValue where
  | bool (b : Bool)
  | int (k : IntKind) (n : Int)
  | uint (k : UintKind) (n : Nat)
  | float (k : FloatKind) (q : ℚ)
  | string (s : String)
  | ptrNil (elem : GoType)
  | ptr (v : GoValue)
  | ifaceNil
  | iface (v : GoValue)
  | sliceNil (elem : GoType)
  | slice (elem : GoType) (xs : List GoValue)
  | array (elem : GoType) (xs : List GoValue)
  | mapNil (key elem : GoType)
  | map (key elem : GoType) (es : List (GoValue × GoValue))
  | struct (fs : List (StructField × GoValue))

mutual
/-- Go `v.Type()`. -/
def GoValue.Type : GoValue → GoType
  | .bool _ => .bool
  | .int k _ => .int k
  | .uint k _ => .uint k
  | .float k _ => .float k
  | .string _ => .string
  | .ptrNil t => .ptr t
  | .ptr v => .ptr v.Type
  | .ifaceNil => .iface
  | .iface _ => .iface
  | .sliceNil t => .slice t
  | .slice t _ => .slice t
  | .array t xs => .array xs.length t
  | .mapNil kt vt => .map kt vt
  | .map kt vt _ => .map kt vt
  | .struct fs => .struct (fieldTypes fs)
/-- The field list of the type of a struct value. -/
def fieldTypes : List (StructField × GoValue) → List (StructField × GoType)
  | [] => []
  | (sf, v) :: rest => (sf, v.Type) :: fieldTypes rest
end

mutual
/-- The zero value of a type: `reflect.New(t).Elem()` of a fresh allocation. -/
def zeroOf : GoType → GoValue
  | .bool => .bool false
  | .int k => .int k 0
  | .uint k => .uint k 0
  | .float k => .float k 0
  | .string => .string ""
  | .ptr t => .ptrNil t
  | .iface => .ifaceNil
  | .slice t => .sliceNil t
  | .array n t => .array t (List.replicate n (zeroOf t))
  | .map kt vt => .mapNil kt vt
  | .struct fs => .struct (zeroFields fs)
/-- The fields of the zero value of a struct type. -/
def zeroFields : List (StructField × GoType) → List (StructField × GoValue)
  | [] => []
  | (sf, t) :: rest => (sf, zeroOf t) :: zeroFields rest
end

/-- Go `v.Kind()`. -/
def GoValue.Kind : GoValue → Kind
  | .bool _ => .Bool
  | .int k _ => k.toKind
  | .uint k _ => k.toKind
  | .float k _ => k.toKind
  | .string _ => .String
  | .ptrNil _ => .Ptr
  | .ptr _ => .Ptr
  | .ifaceNil => .Interface
  | .iface _ => .Interface
  | .sliceNil _ => .Slice
  | .slice _ _ => .Slice
  | .array _ _ => .Array
  | .mapNil _ _ => .Map
  | .map _ _ _ => .Map
  | .struct _ => .Struct

/-- Go `v.IsNil()`: defined for pointers, interfaces, slices and maps, a fault
(`none`) for every other kind, arrays included. -/
def GoValue.IsNil : GoValue → Option Bool
  | .ptrNil _ => some true
  | .ptr _ => some false
  | .ifaceNil => some true
  | .iface _ => some false
  | .sliceNil _ => some true
  | .slice _ _ => some false
  | .mapNil _ _ => some true
  | .map _ _ _ => some false
  | _ => none

/-- Go `v.Len()` for strings (bytes), slices, arrays and maps, 0 elsewhere
(where Go faults and the sources never call it). -/
def GoValue.Len : GoValue → Nat
  | .string s => s.utf8ByteSize
  | .sliceNil _ => 0
  | .slice _ xs => xs.length
  | .array _ xs => xs.length
  | .mapNil _ _ => 0
  | .map _ _ es => es.length
  | _ => 0

/-- Go `v.Bool()`. -/
def GoValue.asBool : GoValue → Bool
  | .bool b => b
  | _ => false

/-- Go `v.Int()`. -/
def GoValue.asInt : GoValue → Int
  | .int _ n => n
  | _ => 0

/-- Go `v.Uint()`. -/
def GoValue.asUint : GoValue → Nat
  | .uint _ n => n
  | _ => 0

/-- Go `v.Float()`. -/
def GoValue.asFloat : GoValue → ℚ
  | .float _ q => q
  | _ => 0

/-- Source `isEmptyValue` (gotojs.go 102-118). -/
def isEmptyValue (v : GoValue) : Bool :=
  match v.Kind with
  | .Array | .Map | .Slice | .String => v.Len == 0
  | .Bool => !v.asBool
  | .Int | .Int8 | .Int16 | .Int32 | .Int64 => v.asInt == 0
  | .Uint | .Uint8 | .Uint16 | .Uint32 | .Uint64 | .Uintptr => v.asUint == 0
  | .Float32 | .Float64 => v.asFloat == 0
  | .Interface | .Ptr => v.IsNil == some true
  | _ => false

/-! ## syscall/js: values -/

/-- A JavaScript value as `js.Value` holds it. -/
inductive JsValue where
  | undefined
  | null
  | bool (b : Bool)
  | number (q : ℚ)
  | string (s : String)
  | array (xs : List JsValue)
  | object (es : List (String × JsValue))

/-- Go `js.Type`. -/
inductive JsType where
  | Undefined | Null | Boolean | Number | String | Symbol | Object | Function
deriving DecidableEq, Repr

/-- Go `v.Type()` of a `js.Value`: an array is an object. -/
def JsValue.Type : JsValue → JsType
  | .undefined => .Undefined
  | .null => .Null
  | .bool _ => .Boolean
  | .number _ => .Number
  | .string _ => .String
  | .array _ => .Object
  | .object _ => .Object

/-- Go `v.IsNull()`. -/
def JsValue.IsNull : JsValue → Bool
  | .null => true
  | _ => false

/-- Go `v.IsUndefined()`. -/
def JsValue.IsUndefined : JsValue → Bool
  | .undefined => true
  | _ => false

/-- JavaScript property assignment on the property list of an object: an
existing key keeps its place and takes the new value, a new key goes last.
The list keeps the order of insertion: that JavaScript enumerates the keys
that are array indices first is not modelled, and the statements on objects
are about their keys as a set and about the value under a key. -/
def objSet : List (String × JsValue) → String → JsValue → List (String × JsValue)
  | [], k, v => [(k, v)]
  | (k0, v0) :: rest, k, v =>
    if k0 = k then (k, v) :: rest else (k0, v0) :: objSet rest k v

/-- Own property lookup in the property list of an object, `undefined` when
the key is absent. -/
def objGet : List (String × JsValue) → String → JsValue
  | [], _ => .undefined
  | (k0, v0) :: rest, k => if k0 = k then v0 else objGet rest k

/-- Round-to-nearest-even of a natural number to `p` significant bits. -/
def roundBits (p n : Nat) : Nat :=
  if n < 2 ^ p then n
  else
    let e := (Nat.log2 n + 1) - p
    let m := n / 2 ^ e
    let r := n % 2 ^ e
    let up := decide (2 ^ e < 2 * r) || (decide (2 * r = 2 ^ e) && m % 2 == 1)
    (if up then m + 1 else m) * 2 ^ e

/-- Go `float64(x)` for an integer `x` of at most 64 bits. -/
def float64OfInt (n : Int) : ℚ :=
  if n < 0 then -((roundBits 53 n.natAbs : Nat) : ℚ) else ((roundBits 53 n.natAbs : Nat) : ℚ)

/-- Go `js.ValueOf(v.Interface())` as `toJs` calls it, on a value that is not a
pointer, interface, slice, array, map or struct: booleans, numbers and strings
have a JavaScript value, every other argument is the fault
`ValueOf: invalid value`. -/
def ValueOf : GoValue → Option JsValue
  | .bool b => some (.bool b)
  | .int _ n => some (.number (float64OfInt n))
  | .uint _ n => some (.number (float64OfInt n))
  | .float _ q => some (.number q)
  | .string s => some (.string s)
  | _ => none

/-- The Go string a map key holds, for the assertion
`i.Key().Interface().(string)`: a string key, or an interface key whose
dynamic value is a string, every other key fails the assertion. -/
def GoValue.assertString : GoValue → Option String
  | .string s => some s
  | .iface (.string s) => some s
  | _ => none

/-! ## gotojs.go: the encoder -/

/-- Go `v.Elem()`: the pointee of a non-nil pointer, the value a non-nil
interface holds, the zero `reflect.Value` (`none`) otherwise. -/
def GoValue.Elem : GoValue → Option GoValue
  | .ptr e => some e
  | .iface e => some e
  | _ => none

/-- The values `v.Index(i)` for `i` from 0 to `v.Len()`, of a slice or an
array. -/
def GoValue.elems : GoValue → List GoValue
  | .slice _ xs => xs
  | .array _ xs => xs
  | _ => []

/-- The entries `v.MapRange()` visits, in the order it visits them. -/
def GoValue.MapRange : GoValue → List (GoValue × GoValue)
  | .map _ _ es => es
  | _ => []

/-- The pairs of `v.Type().Field(i)` and `v.Field(i)` for `i` from 0 to
`v.NumField()`, of a struct. -/
def GoValue.fields : GoValue → List (StructField × GoValue)
  | .struct fs => fs
  | _ => []

theorem Elem_sizeOf {v e : GoValue} (h : v.Elem = some e) : sizeOf e < sizeOf v := by
  cases v <;> simp [GoValue.Elem] at h <;> subst h <;> simp

theorem elems_sizeOf (v : GoValue) : sizeOf v.elems ≤ sizeOf v := by
  cases v <;> simp [GoValue.elems] <;> omega

theorem MapRange_sizeOf (v : GoValue) : sizeOf v.MapRange ≤ sizeOf v := by
  cases v <;> simp [GoValue.MapRange] <;> omega

theorem fields_sizeOf (v : GoValue) : sizeOf v.fields ≤ sizeOf v := by
  cases v <;> simp [GoValue.fields] <;> omega

mutual
/-- Source `toJs` (gotojs.go 27-40). -/
def toJs (v : GoValue) : Option JsValue :=
  match v.Kind with
  | .Ptr | .Interface => jsPointerOrInterface v
  | .Slice | .Array => jsSliceOrArray v
  | .Map => jsMap v
  | .Struct => jsStruct v
  | _ => ValueOf v
termination_by (sizeOf v, 2)
decreasing_by
  all_goals (apply Prod.Lex.right; omega)
/-- Source `jsPointerOrInterface` (gotojs.go 42-47). -/
def jsPointerOrInterface (v : GoValue) : Option JsValue :=
  match v.IsNil with
  | none => none
  | some true => some .null
  | some false =>
    match he : v.Elem with
    | none => none
    | some e => toJs e
termination_by (sizeOf v, 1)
decreasing_by
  all_goals (apply Prod.Lex.left; exact Elem_sizeOf he)
/-- Source `jsSliceOrArray` (gotojs.go 49-59), the loop is `jsElems`. -/
def jsSliceOrArray (v : GoValue) : Option JsValue :=
  match v.IsNil with
  | none => none
  | some true => some .null
  | some false => (jsElems v.elems).map JsValue.array
termination_by (sizeOf v, 1)
decreasing_by
  all_goals rcases Nat.lt_or_eq_of_le (elems_sizeOf v) with h | h
  all_goals first
    | (apply Prod.Lex.left; exact h)
    | (rw [h]; apply Prod.Lex.right; omega)
/-- The loop of `jsSliceOrArray` (gotojs.go 54-57): the encodings of the
elements, in order. -/
def jsElems (xs : List GoValue) : Option (List JsValue) :=
  match xs with
  | [] => some []
  | e :: rest =>
    match toJs e with
    | none => none
    | some j =>
      match jsElems rest with
      | none => none
      | some js => some (j :: js)
termination_by (sizeOf xs, 0)
decreasing_by
  all_goals simp_wf
  all_goals (apply Prod.Lex.left; omega)
/-- Source `jsMap` (gotojs.go 61-71), the loop is `jsEntries`. -/
def jsMap (v : GoValue) : Option JsValue :=
  match v.IsNil with
  | none => none
  | some true => some .null
  | some false => (jsEntries v.MapRange []).map JsValue.object
termination_by (sizeOf v, 1)
decreasing_by
  all_goals rcases Nat.lt_or_eq_of_le (MapRange_sizeOf v) with h | h
  all_goals first
    | (apply Prod.Lex.left; exact h)
    | (rw [h]; apply Prod.Lex.right; omega)
/-- The loop of `jsMap` (gotojs.go 66-69) over the entries of the map, `m` is
the object built so far. -/
def jsEntries (es : List (GoValue × GoValue)) (m : List (String × JsValue)) :
    Option (List (String × JsValue)) :=
  match es with
  | [] => some m
  | (key, x) :: rest =>
    match key.assertString with
    | none => none
    | some k =>
      match toJs x with
      | none => none
      | some j => jsEntries rest (objSet m k j)
termination_by (sizeOf es, 0)
decreasing_by
  all_goals simp_wf
  all_goals (apply Prod.Lex.left; omega)
/-- Source `jsStruct` (gotojs.go 73-86), the loop is `jsFields`. -/
def jsStruct (v : GoValue) : Option JsValue :=
  (jsFields v.fields []).map JsValue.object
termination_by (sizeOf v, 1)
decreasing_by
  all_goals rcases Nat.lt_or_eq_of_le (fields_sizeOf v) with h | h
  all_goals first
    | (apply Prod.Lex.left; exact h)
    | (rw [h]; apply Prod.Lex.right; omega)
/-- The loop of `jsStruct` (gotojs.go 75-84) over the fields in declaration
order, `s` is the object built so far. -/
def jsFields (fs : List (StructField × GoValue)) (s : List (String × JsValue)) :
    Option (List (String × JsValue)) :=
  match fs with
  | [] => some s
  | (sf, f) :: rest =>
    if sf.CanInterface then
      if isEmptyValue f && canOmitEmpty sf then jsFields rest s
      else
        match toJs f with
        | none => none
        | some j => jsFields rest (objSet s (nameOf sf) j)
    else jsFields rest s
termination_by (sizeOf fs, 0)
decreasing_by
  all_goals simp_wf
  all_goals (apply Prod.Lex.left; omega)
end

/-- Source `JsValueOf` (gotojs.go 17-25): `none` as argument is the nil
interface. -/
def JsValueOf (i : Option GoValue) : Option JsValue :=
  match i with
  | none => some .null
  | some v => toJs v

/-! ## syscall/js: properties of a value -/

mutual
/-- Structural size of a JavaScript value: 0 for a primitive, positive for an
array or an object. -/
def JsValue.size : JsValue → Nat
  | .array xs => JsValue.sizeList xs + 1
  | .object es => JsValue.sizeProps es + 1
  | _ => 0
/-- Size of a list of values. -/
def JsValue.sizeList : List JsValue → Nat
  | [] => 0
  | x :: xs => x.size + 1 + JsValue.sizeList xs
/-- Size of a property list. -/
def JsValue.sizeProps : List (String × JsValue) → Nat
  | [] => 0
  | (_, x) :: es => x.size + 1 + JsValue.sizeProps es
end

/-- The index properties of an array, from index `i` on: key `i` holds the
first element, key `i + 1` the next one, and so on. -/
def indexProps : Nat → List JsValue → List (String × JsValue)
  | _, [] => []
  | i, x :: xs => (toString i, x) :: indexProps (i + 1) xs

/-- Go `v.Get(k)`: the property `k` of an object, or of an array (an index or
`length`), `undefined` when it has none, a fault on a value that is not an
object. -/
def JsValue.Get : JsValue → String → Option JsValue
  | .object es, k => some (objGet es k)
  | .array xs, k =>
    some (objGet (indexProps 0 xs ++ [("length", .number (xs.length : ℚ))]) k)
  | _, _ => none

/-- Go `v.Index(i)`: the element `i` of an array (`undefined` past its end),
the property of an object whose key is the decimal form of `i`, a fault on a
value that is not an object. -/
def JsValue.Index : JsValue → Nat → Option JsValue
  | .array xs, i => some (xs.getD i .undefined)
  | .object es, i => some (objGet es (toString i))
  | _, _ => none

/-- Go `v.Bool()` of a `js.Value`. -/
def JsValue.asBool : JsValue → Bool
  | .bool b => b
  | _ => false

/-- Go `v.Float()` of a `js.Value`. -/
def JsValue.asFloat : JsValue → ℚ
  | .number q => q
  | _ => 0

/-- Go `v.String()` of a `js.Value` that is a string. -/
def JsValue.asString : JsValue → String
  | .string s => s
  | _ => ""

/-- The signed integer of `bits` bits that has the low `bits` bits of `z`. -/
def wrapInt (bits : Nat) (z : Int) : Int :=
  (z + 2 ^ (bits - 1)) % 2 ^ bits - 2 ^ (bits - 1)

/-- Whether a character is white space or a line terminator of JavaScript,
which `parseInt` skips at the head of its argument. -/
def isJsSpace (c : Char) : Bool :=
  let n := c.toNat
  n == 9 || n == 10 || n == 11 || n == 12 || n == 13 || n == 32 || n == 160 || n == 5760 ||
    (8192 ≤ n && n ≤ 8202) || n == 8232 || n == 8233 || n == 8239 || n == 8287 ||
    n == 12288 || n == 65279

/-- The value of a character as a digit of the radix, when it is one. -/
def digitOf (radix : Nat) (c : Char) : Option Nat :=
  let n := c.toNat
  let v :=
    if 48 ≤ n ∧ n ≤ 57 then some (n - 48)
    else if 97 ≤ n ∧ n ≤ 122 then some (n - 87)
    else if 65 ≤ n ∧ n ≤ 90 then some (n - 55)
    else none
  match v with
  | some d => if d < radix then some d else none
  | none => none

/-- The digits of the radix at the head of a character list. -/
def leadingDigits (radix : Nat) : List Char → List Nat
  | [] => []
  | c :: cs =>
    match digitOf radix c with
    | some d => d :: leadingDigits radix cs
    | none => []

/-- JavaScript `parseInt(s)` of a string, without a radix: white space is
skipped, then come an optional sign, an optional `0x` or `0X` (which makes the
radix 16) and the longest run of digits; `none` is `NaN`, the result when
there is no digit. -/
def parseIntChars (cs : List Char) : Option Int :=
  let s := cs.dropWhile isJsSpace
  let neg := s.head? == some '-'
  let s1 :=
    match s with
    | '-' :: r => r
    | '+' :: r => r
    | _ => s
  let hex :=
    match s1 with
    | '0' :: 'x' :: _ => true
    | '0' :: 'X' :: _ => true
    | _ => false
  let radix := if hex then 16 else 10
  let ds := leadingDigits radix (if hex then s1.drop 2 else s1)
  if ds.isEmpty then none
  else
    let m : Nat := ds.foldl (fun a d => a * radix + d) 0
    some (if neg then -(m : Int) else (m : Int))

/-- JavaScript `parseInt(x)` of a number, which reads the string form of `x`:
the integer part for a magnitude from 10^-6 up to 10^21, where the string is a
decimal, and the leading digit for the other magnitudes, where the string has
an exponent. For the exponent form the model takes the leading digit of the
exact value; the shortest digits that JavaScript prints can round it up to the
next digit. -/
def parseIntNumber (q : ℚ) : Int :=
  let n := q.num.natAbs
  let d := q.den
  let m : Nat :=
    if n = 0 then 0
    else if n < 10 ^ 21 * d then
      if d ≤ n * 10 ^ 6 then n / d
      else
        let j := Nat.log 10 (d / n)
        if n * 10 ^ j = d then 1 else n * 10 ^ (j + 1) / d
    else (n / d) / 10 ^ Nat.log 10 (n / d)
  if q.num < 0 then -(m : Int) else (m : Int)

mutual
/-- JavaScript `parseInt(v)`, `none` is `NaN`. The argument is turned into a
string first: the string of an array is the strings of its elements joined by
commas, so that `parseInt` reads the first element alone, and the strings of
`null`, `undefined`, a boolean and an object start with no digit. -/
def JsValue.parseInt : JsValue → Option Int
  | .number q => some (parseIntNumber q)
  | .string s => parseIntChars s.data
  | .array xs => parseIntHead xs
  | _ => none
/-- The result of `parseInt` on the first element of a list, `NaN` on the
empty list. -/
def parseIntHead : List JsValue → Option Int
  | [] => none
  | x :: _ => x.parseInt
end

/-- The Go `int` that `valueLength` stores for the number `parseInt` returned:
0 for `NaN` and for an infinity (a magnitude of 2^1024 or more after
rounding), otherwise the integer rounded to a `float64` and wrapped to 64
bits. -/
def lengthOfParseInt : Option Int → Int
  | none => 0
  | some z =>
    let m := roundBits 53 z.natAbs
    if (2 ^ 256) ^ 4 ≤ m then 0
    else wrapInt 64 (if z < 0 then -(m : Int) else (m : Int))

/-- Go `v.Length()`, which is `parseInt(v.length)`: the number of elements of
an array, for an object what `parseInt` makes of its `length` property (0
when it has none), a fault on a value that is not an object. -/
def JsValue.Length : JsValue → Option Int
  | .array xs => some (xs.length : Int)
  | .object es => some (lengthOfParseInt (objGet es "length").parseInt)
  | _ => none

/-- The result of `Object.keys(v)` as a list of Go strings: the own enumerable
keys of an object, the indices of an array, a fault on the primitives (where
`goMap` never calls it). -/
def JsValue.keys : JsValue → Option (List String)
  | .object es => some (es.map Prod.fst)
  | .array xs => some ((indexProps 0 xs).map Prod.fst)
  | _ => none

/-! ## reflect: conversion -/

/-- Go `int64(f)` on wasm: truncation toward zero, saturated to the range of
`int64` when the result does not fit (the non-trapping conversion of wasm; Go
leaves the result of such a conversion to the implementation). -/
def int64OfFloat64 (q : ℚ) : Int :=
  let z := Int.tdiv q.num q.den
  if -(2 ^ 63) ≤ z ∧ z < 2 ^ 63 then z
  else if z < 0 then -(2 ^ 63) else 2 ^ 63 - 1

/-- Go `uint64(f)` on wasm: truncation toward zero, saturated to the range of
`uint64` when the result does not fit (the non-trapping conversion of wasm; Go
leaves the result of such a conversion to the implementation). -/
def uint64OfFloat64 (q : ℚ) : Nat :=
  let z := Int.tdiv q.num q.den
  if 0 ≤ z ∧ z < 2 ^ 64 then z.toNat
  else if z < 0 then 0 else 2 ^ 64 - 1

/-- Go `float32(f)`: rounding to 24 significant bits, to nearest and to even
on a tie, and to a multiple of 2^-149 below the smallest normal `float32`. A
result beyond the largest `float32` is an infinity in Go, which the numbers of
the model (all finite) do not have: the model keeps the rounded value. -/
def float32OfFloat64 (q : ℚ) : ℚ :=
  if q = 0 then 0
  else
    let a := |q|
    let d : Int := (Nat.log2 a.num.natAbs : Int) - (Nat.log2 a.den : Int)
    let e : Int := max ((if (2 : ℚ) ^ d ≤ a then d else d - 1) - 23) (-149)
    let scaled := a / (2 : ℚ) ^ e
    let m : Int := ⌊scaled⌋
    let r := scaled - (m : ℚ)
    let up := decide (1 / 2 < r) || (decide (r = 1 / 2) && decide (m % 2 = 1))
    (if q < 0 then -1 else 1) * (((if up then m + 1 else m : Int) : ℚ)) * (2 : ℚ) ^ e

/-- Go `v.Convert(t)` for a source `v` that is a `bool`, a `float64` or a
`string` (the three arguments `goBasic` receives): `none` is the fault of a
conversion that does not exist. -/
def Convert (v : GoValue) (t : GoType) : Option GoValue :=
  match v, t with
  | .bool b, .bool => some (.bool b)
  | .float .Float64 q, .int k => some (.int k (wrapInt k.bits (int64OfFloat64 q)))
  | .float .Float64 q, .uint k => some (.uint k (uint64OfFloat64 q % 2 ^ k.bits))
  | .float .Float64 q, .float .Float32 => some (.float .Float32 (float32OfFloat64 q))
  | .float .Float64 q, .float .Float64 => some (.float .Float64 q)
  | .string s, .string => some (.string s)
  | .string s, .slice (.uint .Uint8) =>
    some (.slice (.uint .Uint8) (s.toUTF8.toList.map fun b => .uint .Uint8 b.toNat))
  | .string s, .slice (.int .Int32) =>
    some (.slice (.int .Int32) (s.data.map fun c => .int .Int32 (c.toNat : Int)))
  | .bool b, .iface => some (.iface (.bool b))
  | .float .Float64 q, .iface => some (.iface (.float .Float64 q))
  | .string s, .iface => some (.iface (.string s))
  | _, _ => none

/-- Equality of two map keys of the same key type (Go `==` on the comparable
values the model uses as keys: booleans, numbers, strings, and interfaces
holding one of them). -/
def GoValue.keyEq : GoValue → GoValue → Bool
  | .bool a, .bool b => a == b
  | .int k a, .int l b => k == l && a == b
  | .uint k a, .uint l b => k == l && a == b
  | .float k a, .float l b => k == l && a == b
  | .string a, .string b => a == b
  | .ifaceNil, .ifaceNil => true
  | .iface a, .iface b => GoValue.keyEq a b
  | _, _ => false

/-- Go `m.SetMapIndex(k, v)` on the entries of a map: the entry of an existing
key takes the new value, a new key adds an entry. -/
def SetMapIndex : List (GoValue × GoValue) → GoValue → GoValue → List (GoValue × GoValue)
  | [], k, v => [(k, v)]
  | (k0, v0) :: rest, k, v =>
    if GoValue.keyEq k0 k then (k0, v) :: rest else (k0, v0) :: SetMapIndex rest k v

/-! ## jstogo.go: the decoder -/

/-- Source `InvalidAssignmentError` (jstogo.go 189-193), `recovered` tells whether the
field `rec` holds a recovered fault. The fields a Go literal leaves out are zero:
`Typ` (the field `Type` of the source) is `Undefined`, `Kind` is `Invalid`, `rec` is nil. -/
structure InvalidAssignmentError where
  Typ : JsType
  Kind : WasmUtils.Kind
  recovered : Bool
deriving DecidableEq, Repr

/-- The three messages of `InvalidAssignmentError.Error`. -/
inductive ErrorText where
  | unexpectedPanic
  | mustBeNonNilPointer (k : Kind)
  | invalidAssignment (t : JsType) (k : Kind)
deriving DecidableEq, Repr

/-- Source `InvalidAssignmentError.Error` (jstogo.go 195-203), the message
without its formatting. -/
def InvalidAssignmentError.Error (e : InvalidAssignmentError) : ErrorText :=
  if e.recovered then .unexpectedPanic
  else if e.Typ = .Undefined then .mustBeNonNilPointer e.Kind
  else .invalidAssignment e.Typ e.Kind

/-- Outcome of a decoder function: a result and a nil error, the zero
`reflect.Value` and an error, or a fault. -/
inductive Res (α : Type) where
  | ok (a : α)
  | err (e : InvalidAssignmentError)
  | panic

/-- Number of pointer levels at the head of a type. -/
def GoType.depth : GoType → Nat
  | .ptr t => t.depth + 1
  | _ => 0

/-- Number of pointer and interface levels at the head of a value. -/
def GoValue.depth : GoValue → Nat
  | .ptrNil t => t.depth + 1
  | .ptr v => v.depth + 1
  | .iface v => v.depth + 1
  | _ => 0

/-- Source `goBasic` (jstogo.go 88-98): `i` is the Go value read from the
JavaScript value, a fault of `Convert` is recovered as an error. -/
def goBasic (b : GoValue) (i : GoValue) (t : JsType) : Res (Option GoValue) :=
  match Convert i b.Type with
  | some val => .ok (some val)
  | none => .err ⟨t, b.Kind, false⟩

theorem depth_zeroOf (t : GoType) : (zeroOf t).depth = t.depth := by
  cases t <;> simp [zeroOf, GoValue.depth, GoType.depth]

theorem objGet_size (es : List (String × JsValue)) (k : String) :
    (objGet es k).size = 0 ∨ (objGet es k).size < JsValue.sizeProps es := by
  induction es with
  | nil => simp [objGet, JsValue.size]
  | cons p rest ih =>
    obtain ⟨k0, v0⟩ := p
    simp only [objGet, JsValue.sizeProps]
    split <;> omega

theorem indexProps_size (xs : List JsValue) (i : Nat) :
    JsValue.sizeProps (indexProps i xs) = JsValue.sizeList xs := by
  induction xs generalizing i with
  | nil => simp [indexProps, JsValue.sizeProps, JsValue.sizeList]
  | cons x rest ih => simp [indexProps, JsValue.sizeProps, JsValue.sizeList, ih]

theorem sizeProps_append (a b : List (String × JsValue)) :
    JsValue.sizeProps (a ++ b) = JsValue.sizeProps a + JsValue.sizeProps b := by
  induction a with
  | nil => simp [JsValue.sizeProps]
  | cons p rest ih =>
    obtain ⟨k0, v0⟩ := p
    have h : JsValue.sizeProps ((k0, v0) :: (rest ++ b)) =
        v0.size + 1 + JsValue.sizeProps (rest ++ b) := rfl
    rw [List.cons_append, h, ih]
    simp only [JsValue.sizeProps]; omega

theorem getD_size (xs : List JsValue) (i : Nat) :
    (xs.getD i .undefined).size = 0 ∨ (xs.getD i .undefined).size < JsValue.sizeList xs := by
  induction xs generalizing i with
  | nil => simp [JsValue.size]
  | cons x rest ih =>
    cases i with
    | zero => simp only [List.getD_cons_zero, JsValue.sizeList]; omega
    | succ i =>
      simp only [List.getD_cons_succ, JsValue.sizeList]
      rcases ih i with h | h <;> omega

theorem Index_size {jv : JsValue} {i : Nat} {je : JsValue} (h : jv.Index i = some je) :
    je.size < jv.size := by
  cases jv with
  | object es =>
    simp only [JsValue.Index, Option.some.injEq] at h
    subst h
    have := objGet_size es (toString i)
    simp only [JsValue.size]; omega
  | array xs =>
    simp only [JsValue.Index, Option.some.injEq] at h
    subst h
    have := getD_size xs i
    simp only [JsValue.size]; omega
  | _ => simp [JsValue.Index] at h

theorem Get_size {jv : JsValue} {k : String} {jf : JsValue} (h : jv.Get k = some jf) :
    jf.size < jv.size := by
  cases jv with
  | object es =>
    simp only [JsValue.Get, Option.some.injEq] at h
    subst h
    have := objGet_size es k
    simp only [JsValue.size]; omega
  | array xs =>
    simp only [JsValue.Get, Option.some.injEq] at h
    subst h
    have h1 := objGet_size (indexProps 0 xs ++ [("length", .number (xs.length : ℚ))]) k
    rw [sizeProps_append, indexProps_size] at h1
    simp only [JsValue.sizeProps, JsValue.size] at h1
    simp only [JsValue.size]
    omega
  | _ => simp [JsValue.Get] at h

mutual
/-- Source `toGo` (jstogo.go 33-60). The first component of the result is the
content of the location `rv` after the call (a pointee or a map that is
already there is written in place), the second is what the source returns. -/
def toGo (rv : GoValue) (jv : JsValue) : GoValue × Res (Option GoValue) :=
  if jv.IsNull || jv.IsUndefined then (rv, .ok none)
  else
    match rv with
    | .ptrNil t => goPointer (.ptrNil t) jv
    | .ptr x => goPointer (.ptr x) jv
    | .iface e => goInterface (.iface e) e jv
    | _ =>
      match jv.Type with
      | .Boolean => (rv, goBasic rv (.bool jv.asBool) .Boolean)
      | .Number => (rv, goBasic rv (.float .Float64 jv.asFloat) .Number)
      | .String => (rv, goBasic rv (.string jv.asString) .String)
      | .Object => goValue rv jv
      | t => (rv, .err ⟨t, rv.Kind, false⟩)
termination_by (jv.size, 2 * rv.depth + 3, 0)
decreasing_by
  all_goals first
    | (apply Prod.Lex.right; apply Prod.Lex.left; (try simp only [GoValue.depth]); omega)
/-- Source `goPointer` (jstogo.go 62-75). A nil `p` is replaced by a fresh
pointer, which the location `p` itself does not see. -/
def goPointer (p : GoValue) (jv : JsValue) : GoValue × Res (Option GoValue) :=
  match p with
  | .ptrNil t =>
    match toGo (zeroOf t) jv with
    | (_, .err e) => (p, .err e)
    | (_, .panic) => (p, .panic)
    | (x, .ok none) => (p, .ok (some (.ptr x)))
    | (_, .ok (some v)) => (p, .ok (some (.ptr v)))
  | .ptr x0 =>
    match toGo x0 jv with
    | (x, .err e) => (.ptr x, .err e)
    | (x, .panic) => (.ptr x, .panic)
    | (x, .ok none) => (.ptr x, .ok (some (.ptr x)))
    | (_, .ok (some v)) => (.ptr v, .ok (some (.ptr v)))
  | _ => (p, .panic)
termination_by (jv.size, 2 * p.depth + 2, 0)
decreasing_by
  all_goals first
    | (apply Prod.Lex.right; apply Prod.Lex.left; simp only [GoValue.depth, depth_zeroOf]; omega)
/-- Source `goInterface` (jstogo.go 77-86): `e` is the concrete value the
interface `_i` (the argument `i` of the source) holds. -/
def goInterface (_i e : GoValue) (jv : JsValue) : GoValue × Res (Option GoValue) :=
  match toGo e jv with
  | (x, .err er) => (.iface x, .err er)
  | (x, .panic) => (.iface x, .panic)
  | (x, .ok none) => (.iface x, .ok (some (.iface x)))
  | (_, .ok (some v)) => (.iface v, .ok (some (.iface v)))
termination_by (jv.size, 2 * e.depth + 4, 0)
decreasing_by
  all_goals first
    | (apply Prod.Lex.right; apply Prod.Lex.left; omega)
/-- Source `goValue` (jstogo.go 100-111). -/
def goValue (rv : GoValue) (jv : JsValue) : GoValue × Res (Option GoValue) :=
  match rv.Kind with
  | .Struct => goStruct rv jv
  | .Map => goMap rv jv
  | .Slice => goSlice rv jv
  | k => (rv, .err ⟨jv.Type, k, false⟩)
termination_by (jv.size, 2, 0)
decreasing_by
  all_goals first
    | (apply Prod.Lex.right; apply Prod.Lex.left; omega)
/-- Source `goStruct` (jstogo.go 113-132), the loop is `goStructFields`. The
fields are those of a fresh zero value of the type of `s`. -/
def goStruct (s : GoValue) (val : JsValue) : GoValue × Res (Option GoValue) :=
  match zeroOf s.Type with
  | .struct fs =>
    match goStructFields val fs with
    | .ok fs1 => (s, .ok (some (.struct fs1)))
    | .err e => (s, .err e)
    | .panic => (s, .panic)
  | _ => (s, .panic)
termination_by (val.size, 1, 0)
decreasing_by
  all_goals first
    | (apply Prod.Lex.right; apply Prod.Lex.left; omega)
/-- The loop of `goStruct` (jstogo.go 117-130) over the fields of the fresh
struct, in declaration order: the fields after the loop. -/
def goStructFields (val : JsValue) (fs : List (StructField × GoValue)) :
    Res (List (StructField × GoValue)) :=
  match fs with
  | [] => .ok []
  | (sf, f) :: rest =>
    if sf.CanInterface then
      match hget : val.Get (nameOf sf) with
      | none => .panic
      | some jf =>
        match toGo f jf with
        | (_, .err e) => .err e
        | (_, .panic) => .panic
        | (f1, .ok none) =>
          match goStructFields val rest with
          | .ok fs1 => .ok ((sf, f1) :: fs1)
          | .err e => .err e
          | .panic => .panic
        | (_, .ok (some v)) =>
          match goStructFields val rest with
          | .ok fs1 => .ok ((sf, v) :: fs1)
          | .err e => .err e
          | .panic => .panic
    else
      match goStructFields val rest with
      | .ok fs1 => .ok ((sf, f) :: fs1)
      | .err e => .err e
      | .panic => .panic
termination_by (val.size, 0, fs.length)
decreasing_by
  all_goals simp_wf
  all_goals first
    | (apply Prod.Lex.left; exact Get_size hget)
    | (apply Prod.Lex.right; apply Prod.Lex.right; omega)
/-- Source `goMap` (jstogo.go 134-165), the loop is `goMapEntries`. A map that
is already there is written in place, a nil map is replaced by a fresh one. -/
def goMap (m : GoValue) (jv : JsValue) : GoValue × Res (Option GoValue) :=
  match jv.keys with
  | none => (m, .panic)
  | some keys =>
    match m with
    | .mapNil kt vt =>
      match goMapEntries kt vt jv keys [] with
      | (es, .ok _) => (m, .ok (some (.map kt vt es)))
      | (_, .err e) => (m, .err e)
      | (_, .panic) => (m, .panic)
    | .map kt vt es0 =>
      match goMapEntries kt vt jv keys es0 with
      | (es, .ok _) => (.map kt vt es, .ok (some (.map kt vt es)))
      | (es, .err e) => (.map kt vt es, .err e)
      | (es, .panic) => (.map kt vt es, .panic)
    | _ => (m, .panic)
termination_by (jv.size, 1, 0)
decreasing_by
  all_goals first
    | (apply Prod.Lex.right; apply Prod.Lex.left; omega)
/-- The loop of `goMap` (jstogo.go 143-163) over the keys still to visit, `es`
are the entries of the map so far: the entries when the loop stops, and how it
stopped. The property is read before the key is converted (reading has no
effect and cannot fail on a key that `Object.keys` listed). -/
def goMapEntries (kt vt : GoType) (jv : JsValue) (keys : List String)
    (es : List (GoValue × GoValue)) : List (GoValue × GoValue) × Res Unit :=
  match keys with
  | [] => (es, .ok ())
  | jk :: rest =>
    match hget : jv.Get jk with
    | none => (es, .panic)
    | some jv1 =>
      match toGo (zeroOf kt) (.string jk) with
      | (_, .err e) => (es, .err e)
      | (_, .panic) => (es, .panic)
      | (_, .ok none) => goMapEntries kt vt jv rest es
      | (_, .ok (some k)) =>
        match toGo (zeroOf vt) jv1 with
        | (_, .err e) => (es, .err e)
        | (_, .panic) => (es, .panic)
        | (_, .ok none) => goMapEntries kt vt jv rest es
        | (_, .ok (some v)) => goMapEntries kt vt jv rest (SetMapIndex es k v)
termination_by (jv.size, 0, keys.length)
decreasing_by
  all_goals simp_wf
  all_goals first
    | (apply Prod.Lex.left; exact Get_size hget)
    | (apply Prod.Lex.left; have := Get_size hget; simp only [JsValue.size]; omega)
    | (apply Prod.Lex.right; apply Prod.Lex.right; omega)
/-- Source `goSlice` (jstogo.go 167-187), the loop is `goSliceElems`. On a nil
slice `reflect.MakeSlice` faults when the length read from the source is
negative; the limits of allocation are not modelled. -/
def goSlice (s : GoValue) (jv : JsValue) : GoValue × Res (Option GoValue) :=
  match jv.Length with
  | none => (s, .panic)
  | some n =>
    match s with
    | .sliceNil et =>
      if n < 0 then (s, .panic)
      else
        match goSliceElems et jv 0 n.toNat [] with
        | .ok xs => (s, .ok (some (.slice et xs)))
        | .err e => (s, .err e)
        | .panic => (s, .panic)
    | .slice et xs0 =>
      match goSliceElems et jv 0 n.toNat xs0 with
      | .ok xs => (s, .ok (some (.slice et xs)))
      | .err e => (s, .err e)
      | .panic => (s, .panic)
    | _ => (s, .panic)
termination_by (jv.size, 1, 0)
decreasing_by
  all_goals first
    | (apply Prod.Lex.right; apply Prod.Lex.left; omega)
/-- The loop of `goSlice` (jstogo.go 174-185) from index `i` up to `n`, `s`
are the elements of the slice so far. -/
def goSliceElems (et : GoType) (jv : JsValue) (i n : Nat) (s : List GoValue) :
    Res (List GoValue) :=
  if i < n then
    match hidx : jv.Index i with
    | none => .panic
    | some je =>
      match toGo (zeroOf et) je with
      | (_, .err e) => .err e
      | (_, .panic) => .panic
      | (_, .ok none) => goSliceElems et jv (i + 1) n s
      | (_, .ok (some e)) => goSliceElems et jv (i + 1) n (s ++ [e])
  else .ok s
termination_by (jv.size, 0, n - i)
decreasing_by
  all_goals first
    | (apply Prod.Lex.left; exact Index_size hidx)
    | (apply Prod.Lex.right; apply Prod.Lex.right; omega)
end

/-- Source `recoverToGo` (jstogo.go 22-31): the content of the location `rv`
after the call and the error returned, a fault becomes an error holding it. -/
def recoverToGo (rv : GoValue) (jv : JsValue) : GoValue × Option InvalidAssignmentError :=
  match toGo rv jv with
  | (d, .ok _) => (d, none)
  | (d, .err e) => (d, some e)
  | (d, .panic) => (d, some ⟨.Undefined, .Invalid, true⟩)

/-- Source `GoValueOf` (jstogo.go 13-20): `i` is the destination (`none` is the
nil interface), the result is the destination after the call and the error
returned. -/
def GoValueOf (v : JsValue) (i : Option GoValue) :
    Option GoValue × Option InvalidAssignmentError :=
  match i with
  | none => (none, some ⟨.Undefined, .Invalid, false⟩)
  | some rv =>
    if rv.Kind != .Ptr || rv.IsNil == some true then (some rv, some ⟨.Undefined, rv.Kind, false⟩)
    else
      match recoverToGo rv v with
      | (d, e) => (some d, e)

/-! ## Predicates and helper functions of the statements -/

/-- A JavaScript value other than `null` and `undefined`. -/
def JsValue.present : JsValue → Bool
  | .null => false
  | .undefined => false
  | _ => true

/-- The emptiness test as the specification words it: a string, sequence or
mapping of length 0, the boolean `false`, a number equal to zero, a nil pointer
or a nil interface, and nothing else. -/
def EmptySpec : GoValue → Prop
  | .string s => s.length = 0
  | .sliceNil _ => True
  | .slice _ xs => xs.length = 0
  | .array _ xs => xs.length = 0
  | .mapNil _ _ => True
  | .map _ _ es => es.length = 0
  | .bool b => b = false
  | .int _ n => n = 0
  | .uint _ n => n = 0
  | .float _ q => q = 0
  | .ptrNil _ => True
  | .ptr _ => False
  | .ifaceNil => True
  | .iface _ => False
  | .struct _ => False

/-- Whether the loop of `jsStruct` gives the field a key: the field is
exported and is not both empty and omittable. -/
def kept (p : StructField × GoValue) : Bool :=
  p.1.CanInterface && !(isEmptyValue p.2 && canOmitEmpty p.1)

/-- The fields of a struct that `jsStruct` gives a key, in declaration order. -/
def keptFields (fs : List (StructField × GoValue)) : List (StructField × GoValue) :=
  fs.filter kept

/-- The exported fields of a struct, in declaration order. -/
def exportedFields (fs : List (StructField × GoValue)) : List (StructField × GoValue) :=
  fs.filter fun p => p.1.CanInterface

/-- The scalar values: booleans, numbers and strings. -/
def GoValue.isScalar : GoValue → Bool
  | .bool _ => true
  | .int _ _ => true
  | .uint _ _ => true
  | .float _ _ => true
  | .string _ => true
  | _ => false

/-- Compatibility of a source kind with a scalar destination kind as the
specification words it: a boolean goes into a `bool`, a number into any
numeric kind, a string into a `string`. -/
def compatibleSpec : JsType → Kind → Bool
  | .Boolean, .Bool => true
  | .Number, .Int => true
  | .Number, .Int8 => true
  | .Number, .Int16 => true
  | .Number, .Int32 => true
  | .Number, .Int64 => true
  | .Number, .Uint => true
  | .Number, .Uint8 => true
  | .Number, .Uint16 => true
  | .Number, .Uint32 => true
  | .Number, .Uint64 => true
  | .Number, .Uintptr => true
  | .Number, .Float32 => true
  | .Number, .Float64 => true
  | .String, .String => true
  | _, _ => false

/-- What the body of the loop of `goStruct` (jstogo.go 118-129) makes of one
field `f` of the fresh struct when it raises no error: `f1` is the field
afterwards. A field that is not exported is left alone, an exported field is
left alone when `toGo` produces no value and takes the produced value
otherwise. -/
def FieldDecoded (val : JsValue) (sf : StructField) (f f1 : GoValue) : Prop :=
  (sf.CanInterface = false ∧ f1 = f) ∨
  (sf.CanInterface = true ∧ ∃ jf, val.Get (nameOf sf) = some jf ∧
    (toGo f jf = (f1, .ok none) ∨ ∃ x, toGo f jf = (x, .ok (some f1))))

/-- An outcome whose error, if it is one, was raised for a source value: its
`Type` field is not `Undefined` and it holds no recovered fault. -/
def ErrOk {α : Type} (r : Res α) : Prop :=
  ∀ e, r = .err e → e.Typ ≠ .Undefined ∧ e.recovered = false

/-- A valid destination as the specification words it: a non-nil pointer. -/
def validDestination : Option GoValue → Bool
  | some (.ptr _) => true
  | _ => false

/-- The kind of the destination argument: `reflect.ValueOf(i).Kind()`, which is
`Invalid` for the nil interface. -/
def destinationKind : Option GoValue → Kind
  | none => .Invalid
  | some rv => rv.Kind

/-- The integers that pass through a JavaScript number and back into a signed
kind: of magnitude below 2^53 and within the range of the kind. -/
def intHolds (k : IntKind) (n : ℤ) : Prop :=
  n.natAbs < 2 ^ 53 ∧ -(2 ^ (k.bits - 1)) ≤ n ∧ n < 2 ^ (k.bits - 1)

/-- The naturals that pass through a JavaScript number and back into an
unsigned kind: below 2^53 and within the range of the kind. -/
def uintHolds (k : UintKind) (n : ℕ) : Prop :=
  n < 2 ^ 53 ∧ n < 2 ^ k.bits

/-- Whether the encoding of a value is not `null`: the value is not a nil
pointer, interface, slice or map, and neither is what a pointer or an
interface leads to. -/
def GoValue.nonNull : GoValue → Bool
  | .ptrNil _ => false
  | .ptr x => x.nonNull
  | .ifaceNil => false
  | .iface x => x.nonNull
  | .sliceNil _ => false
  | .mapNil _ _ => false
  | _ => true

/-- The values for which encoding and then decoding into a zero value of the
same type gives the value back. -/
inductive RoundTrips : GoValue → Prop where
  | bool (b : Bool) : RoundTrips (.bool b)
  | int (k : IntKind) (n : ℤ) (h : intHolds k n) : RoundTrips (.int k n)
  | uint (k : UintKind) (n : ℕ) (h : uintHolds k n) : RoundTrips (.uint k n)
  | float64 (q : ℚ) : RoundTrips (.float .Float64 q)
  | float32 (q : ℚ) (h : float32OfFloat64 q = q) : RoundTrips (.float .Float32 q)
  | string (s : String) : RoundTrips (.string s)
  | ptrNil (t : GoType) : RoundTrips (.ptrNil t)
  | ptr (x : GoValue) (hx : RoundTrips x) (hn : x.nonNull = true) : RoundTrips (.ptr x)
  | ifaceNil : RoundTrips .ifaceNil
  | ifaceBool (b : Bool) : RoundTrips (.iface (.bool b))
  | ifaceFloat64 (q : ℚ) : RoundTrips (.iface (.float .Float64 q))
  | ifaceString (s : String) : RoundTrips (.iface (.string s))
  | sliceNil (t : GoType) : RoundTrips (.sliceNil t)
  | slice (t : GoType) (xs : List GoValue) (hx : ∀ x ∈ xs, RoundTrips x)
      (hn : ∀ x ∈ xs, x.nonNull = true) (ht : ∀ x ∈ xs, x.Type = t) :
      RoundTrips (.slice t xs)
  | mapNil (kt vt : GoType) : RoundTrips (.mapNil kt vt)
  | map (vt : GoType) (es : List (String × GoValue)) (hk : (es.map Prod.fst).Nodup)
      (hx : ∀ p ∈ es, RoundTrips p.2) (hn : ∀ p ∈ es, p.2.nonNull = true)
      (ht : ∀ p ∈ es, p.2.Type = vt) :
      RoundTrips (.map .string vt (es.map fun p => (.string p.1, p.2)))
  | struct (fs : List (StructField × GoValue)) (hx : ∀ p ∈ fs, RoundTrips p.2)
      (hz : ∀ p ∈ fs, p.1.CanInterface = false → p.2 = zeroOf p.2.Type)
      (ho : ∀ p ∈ fs, (isEmptyValue p.2 && canOmitEmpty p.1) = false)
      (hd : ((exportedFields fs).map fun p => nameOf p.1).Nodup) :
      RoundTrips (.struct fs)

/-- What the round trip of one value amounts to: it has an encoding, and
decoding that into the zero value of its type produces the value, or the
encoding is `null` and the value is the zero value. -/
def Trip (v : GoValue) : Prop :=
  ∃ j, toJs v = some j ∧
    (v.nonNull = true →
      j.present = true ∧ toGo (zeroOf v.Type) j = (zeroOf v.Type, .ok (some v))) ∧
    (v.nonNull = false → j = .null ∧ v = zeroOf v.Type)

/-- The entry of a `map[string]T` with the given key and value. -/
def stringEntry (p : String × GoValue) : GoValue × GoValue :=
  (.string p.1, p.2)

/-- The content of a struct field after the body of the loop of `goStruct`
(jstogo.go 118-129) ran on it without error, from the outcome of `toGo` on the
field: the produced value when there is one, the field as `toGo` left it
otherwise. -/
def decodedField : GoValue × Res (Option GoValue) → GoValue
  | (_, .ok (some v)) => v
  | (x, _) => x

/-- The error that `GoValueOf` returns for an outcome that is a failure: the
error raised, or the error that holds the recovered fault. -/
def Res.failure {α : Type} : Res α → Option InvalidAssignmentError
  | .ok _ => none
  | .err e => some e
  | .panic => some ⟨.Undefined, .Invalid, true⟩

/-- The failure, if any, of decoding the entry of the object `es` looked up
under the external name of a field into the field: none for a field that is
not exported. -/
def fieldFailure (es : List (String × JsValue)) (p : StructField × GoValue) :
    Option InvalidAssignmentError :=
  if p.1.CanInterface then (toGo (zeroOf p.2.Type) (objGet es (nameOf p.1))).2.failure
  else none

/-- What the body of the loop of `goSlice` (jstogo.go 175-184) appends for one
element of the source: the value `toGo` produces from a zero value of the
element type, nothing when it produces none. -/
def produced (et : GoType) (je : JsValue) : Option GoValue :=
  match (toGo (zeroOf et) je).2 with
  | .ok (some v) => some v
  | _ => none

/-- The values of the restricted round trip: booleans, strings, integers
within the range of their kind that a JavaScript number holds exactly, and
records whose exported fields have pairwise distinct external names and hold
such values, and whose other fields are zero. -/
inductive Restricted : GoValue → Prop where
  | bool (b : Bool) : Restricted (.bool b)
  | string (s : String) : Restricted (.string s)
  | int (k : IntKind) (n : ℤ) (hr : -(2 ^ (k.bits - 1)) ≤ n ∧ n < 2 ^ (k.bits - 1))
      (he : float64OfInt n = (n : ℚ)) : Restricted (.int k n)
  | uint (k : UintKind) (n : ℕ) (hr : n < 2 ^ k.bits)
      (he : float64OfInt (n : ℤ) = ((n : ℤ) : ℚ)) : Restricted (.uint k n)
  | struct (fs : List (StructField × GoValue))
      (hx : ∀ p ∈ fs, p.1.CanInterface = true → Restricted p.2)
      (hz : ∀ p ∈ fs, p.1.CanInterface = false → p.2 = zeroOf p.2.Type)
      (hd : ((exportedFields fs).map fun p => nameOf p.1).Nodup) :
      Restricted (.struct fs)

/-! ## Unfolding rules of the encoder -/

theorem toJs_ptrNil (t : GoType) : toJs (.ptrNil t) = some .null := by
  rw [toJs.eq_def]; simp only [GoValue.Kind]; rw [jsPointerOrInterface.eq_def]; simp [GoValue.IsNil, GoValue.Elem]

theorem toJs_ptr (e : GoValue) : toJs (.ptr e) = toJs e := by
  rw [toJs.eq_def]; simp only [GoValue.Kind]; rw [jsPointerOrInterface.eq_def]; simp [GoValue.IsNil, GoValue.Elem]

theorem toJs_ifaceNil : toJs .ifaceNil = some .null := by
  rw [toJs.eq_def]; simp only [GoValue.Kind]; rw [jsPointerOrInterface.eq_def]; simp [GoValue.IsNil, GoValue.Elem]

theorem toJs_iface (e : GoValue) : toJs (.iface e) = toJs e := by
  rw [toJs.eq_def]; simp only [GoValue.Kind]; rw [jsPointerOrInterface.eq_def]; simp [GoValue.IsNil, GoValue.Elem]

theorem toJs_sliceNil (t : GoType) : toJs (.sliceNil t) = some .null := by
  rw [toJs.eq_def]; simp only [GoValue.Kind]; rw [jsSliceOrArray.eq_def]; rfl

theorem toJs_slice (t : GoType) (xs : List GoValue) :
    toJs (.slice t xs) = (jsElems xs).map JsValue.array := by
  rw [toJs.eq_def]; simp only [GoValue.Kind]; rw [jsSliceOrArray.eq_def]; rfl

theorem toJs_array (t : GoType) (xs : List GoValue) : toJs (.array t xs) = none := by
  rw [toJs.eq_def]; simp only [GoValue.Kind]; rw [jsSliceOrArray.eq_def]; rfl

theorem toJs_mapNil (kt vt : GoType) : toJs (.mapNil kt vt) = some .null := by
  rw [toJs.eq_def]; simp only [GoValue.Kind]; rw [jsMap.eq_def]; rfl

theorem toJs_map (kt vt : GoType) (es : List (GoValue × GoValue)) :
    toJs (.map kt vt es) = (jsEntries es []).map JsValue.object := by
  rw [toJs.eq_def]; simp only [GoValue.Kind]; rw [jsMap.eq_def]; rfl

theorem toJs_struct (fs : List (StructField × GoValue)) :
    toJs (.struct fs) = (jsFields fs []).map JsValue.object := by
  rw [toJs.eq_def]; simp only [GoValue.Kind]; rw [jsStruct.eq_def]; rfl

theorem toJs_bool (b : Bool) : toJs (.bool b) = some (.bool b) := by
  rw [toJs.eq_def]; rfl

theorem toJs_int (k : IntKind) (n : Int) : toJs (.int k n) = some (.number (float64OfInt n)) := by
  rw [toJs.eq_def]; cases k <;> rfl

theorem toJs_uint (k : UintKind) (n : Nat) :
    toJs (.uint k n) = some (.number (float64OfInt n)) := by
  rw [toJs.eq_def]; cases k <;> rfl

theorem toJs_float (k : FloatKind) (q : ℚ) : toJs (.float k q) = some (.number q) := by
  rw [toJs.eq_def]; cases k <;> rfl

theorem toJs_string (s : String) : toJs (.string s) = some (.string s) := by
  rw [toJs.eq_def]; rfl

theorem jsElems_nil : jsElems [] = some [] := by
  rw [jsElems.eq_def]

theorem jsElems_cons (e : GoValue) (rest : List GoValue) :
    ∀ r, toJs e = r → ∀ rs, jsElems rest = rs →
      jsElems (e :: rest) =
        match r with
        | none => none
        | some j =>
          match rs with
          | none => none
          | some js => some (j :: js) := by
  intro r h rs hs; subst h hs; rw [jsElems.eq_def]

theorem jsEntries_nil (m : List (String × JsValue)) : jsEntries [] m = some m := by
  rw [jsEntries.eq_def]

theorem jsEntries_cons (key x : GoValue) (rest : List (GoValue × GoValue))
    (m : List (String × JsValue)) :
    ∀ r, toJs x = r →
      jsEntries ((key, x) :: rest) m =
        match key.assertString with
        | none => none
        | some k =>
          match r with
          | none => none
          | some j => jsEntries rest (objSet m k j) := by
  intro r h; subst h; rw [jsEntries.eq_def]

theorem jsFields_nil (s : List (String × JsValue)) : jsFields [] s = some s := by
  rw [jsFields.eq_def]

theorem jsFields_skip (sf : StructField) (f : GoValue) (rest : List (StructField × GoValue))
    (s : List (String × JsValue)) (hc : sf.CanInterface = false) :
    jsFields ((sf, f) :: rest) s = jsFields rest s := by
  rw [jsFields.eq_def]; simp [hc]

theorem jsFields_omit (sf : StructField) (f : GoValue) (rest : List (StructField × GoValue))
    (s : List (String × JsValue)) (hc : sf.CanInterface = true)
    (ho : (isEmptyValue f && canOmitEmpty sf) = true) :
    jsFields ((sf, f) :: rest) s = jsFields rest s := by
  rw [jsFields.eq_def]; simp only [hc, ho, if_true]

theorem jsFields_keep (sf : StructField) (f : GoValue) (rest : List (StructField × GoValue))
    (s : List (String × JsValue)) (hc : sf.CanInterface = true)
    (ho : (isEmptyValue f && canOmitEmpty sf) = false) :
    ∀ r, toJs f = r →
      jsFields ((sf, f) :: rest) s =
        match r with
        | none => none
        | some j => jsFields rest (objSet s (nameOf sf) j) := by
  intro r h; subst h; rw [jsFields.eq_def]; simp only [hc, ho, if_true]; rfl

/-! ## Unfolding rules of the decoder -/

theorem toGo_null (rv : GoValue) : toGo rv .null = (rv, .ok none) := by
  rw [toGo.eq_def]; simp [JsValue.IsNull]

theorem toGo_undefined (rv : GoValue) : toGo rv .undefined = (rv, .ok none) := by
  rw [toGo.eq_def]; simp [JsValue.IsUndefined]

theorem toGo_absent (rv : GoValue) (jv : JsValue) (h : jv.present = false) :
    toGo rv jv = (rv, .ok none) := by
  cases jv <;> simp_all [JsValue.present, toGo_null, toGo_undefined]

theorem toGo_ptrNil (t : GoType) (jv : JsValue) (h : jv.present = true) :
    toGo (.ptrNil t) jv = goPointer (.ptrNil t) jv := by
  rw [toGo.eq_def]; cases jv <;> simp_all [JsValue.present, JsValue.IsNull, JsValue.IsUndefined]

theorem toGo_ptr (x : GoValue) (jv : JsValue) (h : jv.present = true) :
    toGo (.ptr x) jv = goPointer (.ptr x) jv := by
  rw [toGo.eq_def]; cases jv <;> simp_all [JsValue.present, JsValue.IsNull, JsValue.IsUndefined]

theorem toGo_iface (e : GoValue) (jv : JsValue) (h : jv.present = true) :
    toGo (.iface e) jv = goInterface (.iface e) e jv := by
  rw [toGo.eq_def]; cases jv <;> simp_all [JsValue.present, JsValue.IsNull, JsValue.IsUndefined]

theorem toGo_bool (rv : GoValue) (b : Bool) (h : rv.depth = 0) :
    toGo rv (.bool b) = (rv, goBasic rv (.bool b) .Boolean) := by
  rw [toGo.eq_def]
  cases rv <;> simp_all [GoValue.depth, JsValue.IsNull, JsValue.IsUndefined, JsValue.Type, JsValue.asBool]

theorem toGo_number (rv : GoValue) (q : ℚ) (h : rv.depth = 0) :
    toGo rv (.number q) = (rv, goBasic rv (.float .Float64 q) .Number) := by
  rw [toGo.eq_def]
  cases rv <;> simp_all [GoValue.depth, JsValue.IsNull, JsValue.IsUndefined, JsValue.Type, JsValue.asFloat]

theorem toGo_string (rv : GoValue) (s : String) (h : rv.depth = 0) :
    toGo rv (.string s) = (rv, goBasic rv (.string s) .String) := by
  rw [toGo.eq_def]
  cases rv <;> simp_all [GoValue.depth, JsValue.IsNull, JsValue.IsUndefined, JsValue.Type, JsValue.asString]

theorem toGo_array (rv : GoValue) (xs : List JsValue) (h : rv.depth = 0) :
    toGo rv (.array xs) = goValue rv (.array xs) := by
  rw [toGo.eq_def]
  cases rv <;> simp_all [GoValue.depth, JsValue.IsNull, JsValue.IsUndefined, JsValue.Type]

theorem toGo_object (rv : GoValue) (es : List (String × JsValue)) (h : rv.depth = 0) :
    toGo rv (.object es) = goValue rv (.object es) := by
  rw [toGo.eq_def]
  cases rv <;> simp_all [GoValue.depth, JsValue.IsNull, JsValue.IsUndefined, JsValue.Type]

theorem goPointer_ptrNil (t : GoType) (jv : JsValue) :
    ∀ r, toGo (zeroOf t) jv = r →
      goPointer (.ptrNil t) jv =
        match r with
        | (_, .err e) => (.ptrNil t, .err e)
        | (_, .panic) => (.ptrNil t, .panic)
        | (x, .ok none) => (.ptrNil t, .ok (some (.ptr x)))
        | (_, .ok (some v)) => (.ptrNil t, .ok (some (.ptr v))) := by
  intro r h; subst h; rw [goPointer.eq_def]

theorem goPointer_ptr (x0 : GoValue) (jv : JsValue) :
    ∀ r, toGo x0 jv = r →
      goPointer (.ptr x0) jv =
        match r with
        | (x, .err e) => (.ptr x, .err e)
        | (x, .panic) => (.ptr x, .panic)
        | (x, .ok none) => (.ptr x, .ok (some (.ptr x)))
        | (_, .ok (some v)) => (.ptr v, .ok (some (.ptr v))) := by
  intro r h; subst h; rw [goPointer.eq_def]

theorem goInterface_eq (i e : GoValue) (jv : JsValue) :
    ∀ r, toGo e jv = r →
      goInterface i e jv =
        match r with
        | (x, .err er) => (.iface x, .err er)
        | (x, .panic) => (.iface x, .panic)
        | (x, .ok none) => (.iface x, .ok (some (.iface x)))
        | (_, .ok (some v)) => (.iface v, .ok (some (.iface v))) := by
  intro r h; subst h; rw [goInterface.eq_def]

theorem goValue_struct (rv : GoValue) (jv : JsValue) (h : rv.Kind = .Struct) :
    goValue rv jv = goStruct rv jv := by
  rw [goValue.eq_def, h]

theorem goValue_map (rv : GoValue) (jv : JsValue) (h : rv.Kind = .Map) :
    goValue rv jv = goMap rv jv := by
  rw [goValue.eq_def, h]

theorem goValue_slice (rv : GoValue) (jv : JsValue) (h : rv.Kind = .Slice) :
    goValue rv jv = goSlice rv jv := by
  rw [goValue.eq_def, h]

theorem goValue_other (rv : GoValue) (jv : JsValue) (h1 : rv.Kind ≠ .Struct)
    (h2 : rv.Kind ≠ .Map) (h3 : rv.Kind ≠ .Slice) :
    goValue rv jv = (rv, .err ⟨jv.Type, rv.Kind, false⟩) := by
  rw [goValue.eq_def]; split <;> simp_all

theorem goStruct_struct (fs0 : List (StructField × GoValue)) (val : JsValue) :
    ∀ r, goStructFields val (zeroFields (fieldTypes fs0)) = r →
      goStruct (.struct fs0) val =
        match r with
        | .ok fs1 => (.struct fs0, .ok (some (.struct fs1)))
        | .err e => (.struct fs0, .err e)
        | .panic => (.struct fs0, .panic) := by
  intro r h; subst h; rw [goStruct.eq_def]; simp only [GoValue.Type, zeroOf]

theorem goStructFields_nil (val : JsValue) : goStructFields val [] = .ok [] := by
  rw [goStructFields.eq_def]

theorem goStructFields_skip (val : JsValue) (sf : StructField) (f : GoValue)
    (rest : List (StructField × GoValue)) (hc : sf.CanInterface = false) :
    ∀ r, goStructFields val rest = r →
      goStructFields val ((sf, f) :: rest) =
        match r with
        | .ok fs1 => .ok ((sf, f) :: fs1)
        | .err e => .err e
        | .panic => .panic := by
  intro r h; subst h; rw [goStructFields.eq_def]; simp only [hc]; rfl

theorem goStructFields_fault (val : JsValue) (sf : StructField) (f : GoValue)
    (rest : List (StructField × GoValue)) (hc : sf.CanInterface = true)
    (hg : val.Get (nameOf sf) = none) :
    goStructFields val ((sf, f) :: rest) = .panic := by
  rw [goStructFields.eq_def]; simp only [hc, if_true]
  split
  · rfl
  · simp_all

theorem goStructFields_field (val : JsValue) (sf : StructField) (f : GoValue)
    (rest : List (StructField × GoValue)) (jf : JsValue)
    (hc : sf.CanInterface = true) (hg : val.Get (nameOf sf) = some jf) :
    ∀ t, toGo f jf = t → ∀ r, goStructFields val rest = r →
      goStructFields val ((sf, f) :: rest) =
        match t with
        | (_, .err e) => .err e
        | (_, .panic) => .panic
        | (f1, .ok none) =>
          match r with
          | .ok fs1 => .ok ((sf, f1) :: fs1)
          | .err e => .err e
          | .panic => .panic
        | (_, .ok (some v)) =>
          match r with
          | .ok fs1 => .ok ((sf, v) :: fs1)
          | .err e => .err e
          | .panic => .panic := by
  intro t ht r hr; subst hr ht; rw [goStructFields.eq_def]; simp only [hc, if_true]
  split
  · simp_all
  · rename_i jf1 h1
    rw [hg] at h1; cases h1; rfl


theorem goMap_fault (m : GoValue) (jv : JsValue) (hk : jv.keys = none) :
    goMap m jv = (m, .panic) := by
  rw [goMap.eq_def, hk]

theorem goMap_mapNil (kt vt : GoType) (jv : JsValue) (keys : List String)
    (hk : jv.keys = some keys) :
    ∀ r, goMapEntries kt vt jv keys [] = r →
      goMap (.mapNil kt vt) jv =
        match r with
        | (es, .ok _) => (.mapNil kt vt, .ok (some (.map kt vt es)))
        | (_, .err e) => (.mapNil kt vt, .err e)
        | (_, .panic) => (.mapNil kt vt, .panic) := by
  intro r h; subst h; rw [goMap.eq_def, hk]

theorem goMap_map (kt vt : GoType) (es0 : List (GoValue × GoValue)) (jv : JsValue)
    (keys : List String) (hk : jv.keys = some keys) :
    ∀ r, goMapEntries kt vt jv keys es0 = r →
      goMap (.map kt vt es0) jv =
        match r with
        | (es, .ok _) => (.map kt vt es, .ok (some (.map kt vt es)))
        | (es, .err e) => (.map kt vt es, .err e)
        | (es, .panic) => (.map kt vt es, .panic) := by
  intro r h; subst h; rw [goMap.eq_def, hk]

theorem goMapEntries_nil (kt vt : GoType) (jv : JsValue) (es : List (GoValue × GoValue)) :
    goMapEntries kt vt jv [] es = (es, .ok ()) := by
  rw [goMapEntries.eq_def]

theorem goMapEntries_fault (kt vt : GoType) (jv : JsValue) (jk : String) (rest : List String)
    (es : List (GoValue × GoValue)) (hg : jv.Get jk = none) :
    goMapEntries kt vt jv (jk :: rest) es = (es, .panic) := by
  rw [goMapEntries.eq_def]; simp only
  split
  · rfl
  · simp_all

theorem goMapEntries_cons (kt vt : GoType) (jv : JsValue) (jk : String) (rest : List String)
    (es : List (GoValue × GoValue)) (jv1 : JsValue) (hg : jv.Get jk = some jv1) :
    ∀ rk, toGo (zeroOf kt) (.string jk) = rk → ∀ rv, toGo (zeroOf vt) jv1 = rv →
      goMapEntries kt vt jv (jk :: rest) es =
        match rk with
        | (_, .err e) => (es, .err e)
        | (_, .panic) => (es, .panic)
        | (_, .ok none) => goMapEntries kt vt jv rest es
        | (_, .ok (some k)) =>
          match rv with
          | (_, .err e) => (es, .err e)
          | (_, .panic) => (es, .panic)
          | (_, .ok none) => goMapEntries kt vt jv rest es
          | (_, .ok (some v)) => goMapEntries kt vt jv rest (SetMapIndex es k v) := by
  intro rk hk rv hv; subst hk hv; rw [goMapEntries.eq_def]; simp only
  split
  · simp_all
  · rename_i jf1 h1
    rw [hg] at h1; cases h1; rfl

theorem goSlice_fault (s : GoValue) (jv : JsValue) (hn : jv.Length = none) :
    goSlice s jv = (s, .panic) := by
  rw [goSlice.eq_def, hn]

theorem goSlice_sliceNil (et : GoType) (jv : JsValue) (n : Nat)
    (hn : jv.Length = some (n : ℤ)) :
    ∀ r, goSliceElems et jv 0 n [] = r →
      goSlice (.sliceNil et) jv =
        match r with
        | .ok xs => (.sliceNil et, .ok (some (.slice et xs)))
        | .err e => (.sliceNil et, .err e)
        | .panic => (.sliceNil et, .panic) := by
  intro r h; subst h; rw [goSlice.eq_def, hn]
  have h0 : ¬ ((n : ℤ) < 0) := by omega
  simp only [h0, if_false, Int.toNat_ofNat]

theorem goSlice_sliceNil_neg (et : GoType) (jv : JsValue) (n : ℤ) (hn : jv.Length = some n)
    (h : n < 0) : goSlice (.sliceNil et) jv = (.sliceNil et, .panic) := by
  rw [goSlice.eq_def, hn]
  simp only [h, if_true]

theorem goSlice_slice (et : GoType) (xs0 : List GoValue) (jv : JsValue) (n : Nat)
    (hn : jv.Length = some (n : ℤ)) :
    ∀ r, goSliceElems et jv 0 n xs0 = r →
      goSlice (.slice et xs0) jv =
        match r with
        | .ok xs => (.slice et xs0, .ok (some (.slice et xs)))
        | .err e => (.slice et xs0, .err e)
        | .panic => (.slice et xs0, .panic) := by
  intro r h; subst h; rw [goSlice.eq_def, hn]
  simp only [Int.toNat_ofNat]

/-- The length of a source as the loop of `goSlice` uses it: a negative length
runs no iteration. -/
theorem Length_toNat (jv : JsValue) (n : ℤ) (hn : jv.Length = some n) (h : 0 ≤ n) :
    jv.Length = some ((n.toNat : ℕ) : ℤ) := by
  rw [hn, Int.toNat_of_nonneg h]

theorem goSlice_slice_neg (et : GoType) (xs0 : List GoValue) (jv : JsValue) (n : ℤ)
    (hn : jv.Length = some n) (h : n < 0) :
    goSlice (.slice et xs0) jv = (.slice et xs0, .ok (some (.slice et xs0))) := by
  have h0 : n.toNat = 0 := Int.toNat_eq_zero.2 (le_of_lt h)
  rw [goSlice.eq_def, hn]
  simp only [h0]
  rw [goSliceElems.eq_def]
  simp

theorem goSliceElems_done (et : GoType) (jv : JsValue) (i n : Nat) (s : List GoValue)
    (h : ¬ i < n) : goSliceElems et jv i n s = .ok s := by
  rw [goSliceElems.eq_def]; simp [h]

theorem goSliceElems_fault (et : GoType) (jv : JsValue) (i n : Nat) (s : List GoValue)
    (h : i < n) (hi : jv.Index i = none) : goSliceElems et jv i n s = .panic := by
  rw [goSliceElems.eq_def]; simp only [h, if_true]
  split
  · rfl
  · simp_all

theorem goSliceElems_step (et : GoType) (jv : JsValue) (i n : Nat) (s : List GoValue)
    (je : JsValue) (h : i < n) (hi : jv.Index i = some je) :
    ∀ r, toGo (zeroOf et) je = r →
      goSliceElems et jv i n s =
        match r with
        | (_, .err e) => .err e
        | (_, .panic) => .panic
        | (_, .ok none) => goSliceElems et jv (i + 1) n s
        | (_, .ok (some e)) => goSliceElems et jv (i + 1) n (s ++ [e]) := by
  intro r hr; subst hr; rw [goSliceElems.eq_def]; simp only [h, if_true]
  split
  · simp_all
  · rename_i je1 h1
    rw [hi] at h1; cases h1; rfl

/-! ## Field metadata -/

theorem splitChars_ne_nil (sep : Char) (s : List Char) : splitChars sep s ≠ [] := by
  induction s with
  | nil => simp [splitChars]
  | cons c cs ih =>
    simp only [splitChars]
    split
    · simp
    · split <;> simp

theorem splitChars_of_not_mem (sep : Char) (s : List Char) (h : sep ∉ s) :
    splitChars sep s = [s] := by
  induction s with
  | nil => simp [splitChars]
  | cons c cs ih =>
    simp only [List.mem_cons, not_or] at h
    have hc : ¬ c = sep := fun e => h.1 e.symm
    simp [splitChars, hc, ih h.2]

theorem splitChars_append (sep : Char) (name rest : List Char) (h : sep ∉ name) :
    splitChars sep (name ++ sep :: rest) = name :: splitChars sep rest := by
  induction name with
  | nil => simp [splitChars]
  | cons c cs ih =>
    simp only [List.mem_cons, not_or] at h
    have hc : ¬ c = sep := fun e => h.1 e.symm
    simp [splitChars, hc, ih h.2]

/-- Every string either has no separator, or splits at its first separator. -/
theorem splitChars_cases (sep : Char) (s : List Char) :
    (sep ∉ s ∧ splitChars sep s = [s]) ∨
    ∃ name rest, s = name ++ sep :: rest ∧ sep ∉ name ∧
      splitChars sep s = name :: splitChars sep rest := by
  induction s with
  | nil => left; simp [splitChars]
  | cons c cs ih =>
    by_cases hc : c = sep
    · right
      refine ⟨[], cs, by simp [hc], by simp, ?_⟩
      simp [splitChars, hc]
    · rcases ih with ⟨h1, h2⟩ | ⟨name, rest, h1, h2, h3⟩
      · left
        refine ⟨?_, splitChars_of_not_mem sep _ ?_⟩
        · simp only [List.mem_cons, not_or]; exact ⟨fun e => hc e.symm, h1⟩
        · simp only [List.mem_cons, not_or]; exact ⟨fun e => hc e.symm, h1⟩
      · right
        refine ⟨c :: name, rest, by simp [h1], ?_, ?_⟩
        · simp only [List.mem_cons, not_or]; exact ⟨fun e => hc e.symm, h2⟩
        · simp [splitChars, hc, h3]

theorem string_beq_iff (a b : String) : (a == b) = true ↔ a.data = b.data := by
  rw [beq_iff_eq]
  constructor
  · intro h; rw [h]
  · intro h; cases a; cases b; simp_all

theorem append_sep_inj (sep : Char) (a b c d : List Char) (ha : sep ∉ a) (hc : sep ∉ c)
    (h : a ++ sep :: b = c ++ sep :: d) : a = c ∧ b = d := by
  induction a generalizing c with
  | nil =>
    cases c with
    | nil => simpa using h
    | cons x xs =>
      simp only [List.nil_append, List.cons_append, List.cons.injEq] at h
      simp only [List.mem_cons, not_or] at hc
      exact absurd h.1 hc.1
  | cons y ys ih =>
    cases c with
    | nil =>
      simp only [List.nil_append, List.cons_append, List.cons.injEq] at h
      simp only [List.mem_cons, not_or] at ha
      exact absurd h.1.symm ha.1
    | cons x xs =>
      simp only [List.cons_append, List.cons.injEq] at h
      simp only [List.mem_cons, not_or] at ha hc
      obtain ⟨h1, h2⟩ := ih xs ha.2 hc.2 h.2
      exact ⟨by rw [h.1, h1], h2⟩

theorem omitempty_no_comma : ',' ∉ "omitempty".data := by decide

/-- The second token of a tag is `omitempty` exactly when the tag has the form
`name,omitempty` or `name,omitempty,...`. -/
theorem second_token_iff (s : List Char) :
    (∃ t ts, splitChars ',' s = t :: "omitempty".data :: ts) ↔
      ∃ name rest, s = name ++ ',' :: ("omitempty".data ++ rest) ∧ ',' ∉ name ∧
        (rest = [] ∨ ∃ r, rest = ',' :: r) := by
  constructor
  · rintro ⟨t, ts, h⟩
    rcases splitChars_cases ',' s with ⟨_, h2⟩ | ⟨n1, r1, h1, hn1, h2⟩
    · rw [h2] at h; simp at h
    · rw [h2] at h
      simp only [List.cons.injEq] at h
      obtain ⟨_, h3⟩ := h
      rcases splitChars_cases ',' r1 with ⟨_, h4⟩ | ⟨n2, r2, h5, hn2, h4⟩
      · rw [h4] at h3
        simp only [List.cons.injEq] at h3
        exact ⟨n1, [], by rw [h1, h3.1]; simp, hn1, Or.inl rfl⟩
      · rw [h4] at h3
        simp only [List.cons.injEq] at h3
        exact ⟨n1, ',' :: r2, by rw [h1, h5, h3.1], hn1, Or.inr ⟨r2, rfl⟩⟩
  · rintro ⟨name, rest, h1, hn, hr⟩
    rw [h1, splitChars_append ',' name _ hn]
    rcases hr with hr | ⟨r, hr⟩
    · subst hr
      rw [List.append_nil, splitChars_of_not_mem ',' _ omitempty_no_comma]
      exact ⟨_, _, rfl⟩
    · subst hr
      rw [splitChars_append ',' _ _ omitempty_no_comma]
      exact ⟨_, _, rfl⟩

theorem canOmitEmpty_some (name : String) (tag : String) (pkg : String) :
    canOmitEmpty ⟨name, some tag, pkg⟩ = true ↔
      ∃ t ts, splitChars ',' tag.data = t :: "omitempty".data :: ts := by
  simp only [canOmitEmpty, StructTag.Get, Option.getD_some, Split]
  by_cases he : (tag == "") = true
  · have hd : tag.data = [] := (string_beq_iff _ _).1 he
    simp [he, hd, splitChars]
  · simp only [he, Bool.false_eq_true, if_false]
    rcases hs : splitChars ',' tag.data with _ | ⟨t, _ | ⟨u, ts⟩⟩
    · exact absurd hs (splitChars_ne_nil _ _)
    · simp
    · simp only [List.map_cons, List.length_cons, List.tail_cons, List.head?_cons]
      have hlen : ¬ ((List.map String.mk ts).length + 1 + 1 == 1) = true := by simp
      simp only [hlen, Bool.false_eq_true, if_false, List.cons.injEq, true_and, exists_eq_left']
      rw [string_beq_iff]
      constructor
      · intro h; exact ⟨t, ts, rfl, h, rfl⟩
      · rintro ⟨_, _, _, h, _⟩; exact h

/-- C7 (evaluation): on the annotation `,omitempty` the source `nameOf` returns
the empty string, not the declared name of the field. -/
theorem nameOf_comma_omitempty :
    nameOf ⟨"Name", some ",omitempty", ""⟩ = "" := by
  decide

/-- C8: `canOmitEmpty` is true exactly when the field carries a `js` annotation
`name,option` in which `name` has no comma and the option, the text between the
first comma and the next comma or the end, is `omitempty`. An absent
annotation, an annotation without a comma and every other option give
`false`. -/
theorem canOmitEmpty_iff (sf : StructField) :
    canOmitEmpty sf = true ↔
      ∃ (tag : String) (name rest : List Char),
        sf.Tag = some tag ∧ tag.data = name ++ ',' :: ("omitempty".data ++ rest) ∧
        ',' ∉ name ∧ (rest = [] ∨ ∃ r, rest = ',' :: r) := by
  obtain ⟨name, tag, pkg⟩ := sf
  cases tag with
  | none => simp [canOmitEmpty, StructTag.Get]
  | some tag =>
    rw [canOmitEmpty_some, second_token_iff]
    constructor
    · rintro ⟨n, r, h⟩; exact ⟨tag, n, r, rfl, h⟩
    · rintro ⟨tag1, n, r, h0, h⟩
      simp only [Option.some.injEq] at h0
      subst h0; exact ⟨n, r, h⟩

/-! ## The emptiness test -/

theorem utf8ByteSize_eq_zero (s : String) : s.utf8ByteSize = 0 ↔ s.length = 0 := by
  obtain ⟨cs⟩ := s
  cases cs with
  | nil => simp [String.utf8ByteSize, String.utf8ByteSize.go, String.length]
  | cons c cs =>
    have := Char.utf8Size_pos c
    simp only [String.utf8ByteSize, String.utf8ByteSize.go, String.length, List.length_cons]
    omega

/-- C10: `isEmptyValue` is true exactly on the values the specification calls
empty: a string, slice, array or map of length 0, `false`, a signed, unsigned
or floating number equal to zero, a nil pointer and a nil interface. On every
other value, every struct included, it is false. -/
theorem isEmptyValue_iff (v : GoValue) : isEmptyValue v = true ↔ EmptySpec v := by
  cases v with
  | string s => simp [isEmptyValue, GoValue.Kind, GoValue.Len, EmptySpec, utf8ByteSize_eq_zero]
  | int k n => cases k <;> simp [isEmptyValue, GoValue.Kind, IntKind.toKind, GoValue.asInt, EmptySpec]
  | uint k n =>
    cases k <;> simp [isEmptyValue, GoValue.Kind, UintKind.toKind, GoValue.asUint, EmptySpec]
  | float k q =>
    cases k <;> simp [isEmptyValue, GoValue.Kind, FloatKind.toKind, GoValue.asFloat, EmptySpec]
  | _ => simp [isEmptyValue, GoValue.Kind, GoValue.Len, GoValue.asBool, GoValue.IsNil, EmptySpec]

/-! ## The encoder -/

theorem objSet_of_not_mem (s : List (String × JsValue)) (k : String) (j : JsValue)
    (h : k ∉ s.map Prod.fst) : objSet s k j = s ++ [(k, j)] := by
  induction s with
  | nil => rfl
  | cons p rest ih =>
    obtain ⟨k0, v0⟩ := p
    simp only [List.map_cons, List.mem_cons, not_or] at h
    have hk : ¬ k0 = k := fun e => h.1 e.symm
    simp [objSet, hk, ih h.2]

theorem objGet_append_of_not_mem (s es : List (String × JsValue)) (k : String)
    (h : k ∉ s.map Prod.fst) : objGet (s ++ es) k = objGet es k := by
  induction s with
  | nil => rfl
  | cons p rest ih =>
    obtain ⟨k0, v0⟩ := p
    simp only [List.map_cons, List.mem_cons, not_or] at h
    have hk : ¬ k0 = k := fun e => h.1 e.symm
    simp [objGet, hk, ih h.2]

theorem objGet_of_not_mem (s : List (String × JsValue)) (k : String)
    (h : k ∉ s.map Prod.fst) : objGet s k = .undefined := by
  induction s with
  | nil => rfl
  | cons p rest ih =>
    obtain ⟨k0, v0⟩ := p
    simp only [List.map_cons, List.mem_cons, not_or] at h
    have hk : ¬ k0 = k := fun e => h.1 e.symm
    simp [objGet, hk, ih h.2]

theorem keptFields_cons_of_kept (p : StructField × GoValue)
    (rest : List (StructField × GoValue)) (h : kept p = true) :
    keptFields (p :: rest) = p :: keptFields rest := by
  simp [keptFields, List.filter_cons, h]

theorem keptFields_cons_of_not_kept (p : StructField × GoValue)
    (rest : List (StructField × GoValue)) (h : kept p = false) :
    keptFields (p :: rest) = keptFields rest := by
  simp [keptFields, List.filter_cons, h]

/-- The loop of `jsStruct` adds, after the properties already set, one
property for each kept field, in declaration order, when the keys are new and
pairwise distinct and the kept fields have an encoding. -/
theorem jsFields_spec (fs : List (StructField × GoValue)) :
    ∀ s : List (String × JsValue),
      (∀ p ∈ fs, kept p = true → ∃ j, toJs p.2 = some j) →
      ((keptFields fs).map fun p => nameOf p.1).Nodup →
      (∀ p ∈ keptFields fs, nameOf p.1 ∉ s.map Prod.fst) →
      ∃ es, jsFields fs s = some (s ++ es) ∧
        List.Forall₂ (fun p e => e.1 = nameOf p.1 ∧ toJs p.2 = some e.2) (keptFields fs) es := by
  induction fs with
  | nil =>
    intro s _ _ _
    exact ⟨[], by rw [jsFields_nil]; simp, by simp [keptFields]⟩
  | cons p rest ih =>
    obtain ⟨sf, f⟩ := p
    intro s henc hnd hnew
    have henc1 : ∀ p ∈ rest, kept p = true → ∃ j, toJs p.2 = some j :=
      fun p hp => henc p (List.mem_cons_of_mem _ hp)
    by_cases hc : sf.CanInterface = true
    · by_cases ho : (isEmptyValue f && canOmitEmpty sf) = true
      · have hk : kept (sf, f) = false := by simp [kept, hc, ho]
        rw [keptFields_cons_of_not_kept _ _ hk] at hnd hnew ⊢
        rw [jsFields_omit _ _ _ _ hc ho]
        exact ih s henc1 hnd hnew
      · have ho1 : (isEmptyValue f && canOmitEmpty sf) = false := by
          simpa using ho
        have hk : kept (sf, f) = true := by simp [kept, hc, ho1]
        rw [keptFields_cons_of_kept _ _ hk] at hnd hnew ⊢
        obtain ⟨j, hj⟩ := henc (sf, f) (List.mem_cons_self _ _) hk
        have hnew0 : nameOf sf ∉ s.map Prod.fst := hnew (sf, f) (List.mem_cons_self _ _)
        rw [jsFields_keep _ _ _ _ hc ho1 _ hj]
        simp only []
        rw [objSet_of_not_mem _ _ _ hnew0]
        simp only [List.map_cons, List.nodup_cons] at hnd
        have hnew1 : ∀ p ∈ keptFields rest, nameOf p.1 ∉ (s ++ [(nameOf sf, j)]).map Prod.fst := by
          intro p hp
          simp only [List.map_append, List.map_cons, List.map_nil, List.mem_append,
            List.mem_singleton, not_or]
          refine ⟨hnew p (List.mem_cons_of_mem _ hp), ?_⟩
          intro e
          exact hnd.1 (List.mem_map.2 ⟨p, hp, e⟩)
        obtain ⟨es, h1, h2⟩ := ih (s ++ [(nameOf sf, j)]) henc1 hnd.2 hnew1
        refine ⟨(nameOf sf, j) :: es, ?_, ?_⟩
        · rw [h1]; simp
        · exact List.Forall₂.cons ⟨rfl, hj⟩ h2
    · have hc1 : sf.CanInterface = false := by simpa using hc
      have hk : kept (sf, f) = false := by simp [kept, hc1]
      rw [keptFields_cons_of_not_kept _ _ hk] at hnd hnew ⊢
      rw [jsFields_skip _ _ _ _ hc1]
      exact ih s henc1 hnd hnew

theorem forall₂_keys (ps : List (StructField × GoValue)) (es : List (String × JsValue))
    (h : List.Forall₂ (fun p e => e.1 = nameOf p.1 ∧ toJs p.2 = some e.2) ps es) :
    es.map Prod.fst = ps.map fun p => nameOf p.1 := by
  induction h with
  | nil => rfl
  | cons h1 _ ih => simp [h1.1, ih]

theorem forall₂_objGet (ps : List (StructField × GoValue)) (es : List (String × JsValue))
    (h : List.Forall₂ (fun p e => e.1 = nameOf p.1 ∧ toJs p.2 = some e.2) ps es)
    (hnd : (ps.map fun p => nameOf p.1).Nodup) :
    ∀ p ∈ ps, toJs p.2 = some (objGet es (nameOf p.1)) := by
  induction h with
  | nil => intro p hp; cases hp
  | @cons p0 e0 ps0 es0 h1 h2 ih =>
    obtain ⟨k0, j0⟩ := e0
    simp only [List.map_cons, List.nodup_cons] at hnd
    intro p hp
    rcases List.mem_cons.1 hp with hp | hp
    · subst hp
      simp only at h1
      simp [objGet, h1.1, h1.2]
    · have hne : ¬ k0 = nameOf p.1 := by
        intro e
        apply hnd.1
        simp only at h1
        rw [← h1.1, e]
        exact List.mem_map.2 ⟨p, hp, rfl⟩
      simp only [objGet, hne, if_false]
      exact ih hnd.2 p hp

theorem keptFields_sublist (fs : List (StructField × GoValue)) :
    List.Sublist (keptFields fs) (exportedFields fs) := by
  induction fs with
  | nil => simp [keptFields, exportedFields]
  | cons p rest ih =>
    by_cases hc : p.1.CanInterface = true
    · by_cases hk : kept p = true
      · simp only [keptFields, exportedFields, List.filter_cons, hk, hc, if_true]
        exact List.Sublist.cons₂ _ ih
      · simp only [keptFields, exportedFields, List.filter_cons, hk, hc, if_true]
        exact List.Sublist.cons _ ih
    · have hk : ¬ kept p = true := by simp [kept, hc]
      simp only [keptFields, exportedFields, List.filter_cons, hk, hc]
      exact ih

/-- C6 (evaluation): `JsValueOf` faults on every array, whatever its element
type and elements, because `jsSliceOrArray` calls `IsNil` on it. -/
theorem JsValueOf_array (t : GoType) (xs : List GoValue) :
    JsValueOf (some (.array t xs)) = none := by
  simp only [JsValueOf]
  exact toJs_array t xs

/-- The loop of `jsStruct` faults when a kept field has no encoding, whatever
the other fields are. -/
theorem jsFields_none (fs : List (StructField × GoValue)) :
    ∀ (s : List (String × JsValue)) (p : StructField × GoValue),
      p ∈ fs → kept p = true → toJs p.2 = none → jsFields fs s = none := by
  induction fs with
  | nil => intro s p hp; cases hp
  | cons q rest ih =>
    obtain ⟨sf, f⟩ := q
    intro s p hp hk hn
    by_cases hq : kept (sf, f) = true
    · have hc : sf.CanInterface = true := by
        simp only [kept, Bool.and_eq_true] at hq
        exact hq.1
      have ho : (isEmptyValue f && canOmitEmpty sf) = false := by
        simp only [kept, hc, Bool.true_and, Bool.not_eq_true'] at hq
        exact hq
      cases hf : toJs f with
      | none => rw [jsFields_keep _ _ _ _ hc ho _ hf]
      | some j =>
        rw [jsFields_keep _ _ _ _ hc ho _ hf]
        rcases List.mem_cons.1 hp with hp | hp
        · subst hp
          rw [hf] at hn
          cases hn
        · exact ih _ p hp hk hn
    · have hp1 : p ∈ rest := by
        rcases List.mem_cons.1 hp with hp | hp
        · subst hp; exact absurd hk hq
        · exact hp
      by_cases hc : sf.CanInterface = true
      · have ho : (isEmptyValue f && canOmitEmpty sf) = true := by
          simp only [kept, hc, Bool.true_and, Bool.not_eq_true', Bool.not_eq_false] at hq
          exact hq
        rw [jsFields_omit _ _ _ _ hc ho]
        exact ih _ p hp1 hk hn
      · have hc1 : sf.CanInterface = false := by simpa using hc
        rw [jsFields_skip _ _ _ _ hc1]
        exact ih _ p hp1 hk hn

/-- C9 (evaluation): the record with the fields `Name`, holding `x`, and `A`,
holding the array of the `int` 1, has pairwise distinct external names and no
field that is empty and omittable, and `JsValueOf` yields no object for it:
it faults on the array, as `jsSliceOrArray` does on every array. -/
theorem JsValueOf_record_array :
    ((exportedFields [(⟨"Name", none, ""⟩, GoValue.string "x"),
        (⟨"A", none, ""⟩, GoValue.array (.int .Int) [.int .Int 1])]).map
          fun p => nameOf p.1).Nodup ∧
    keptFields [(⟨"Name", none, ""⟩, GoValue.string "x"),
        (⟨"A", none, ""⟩, GoValue.array (.int .Int) [.int .Int 1])] =
      [(⟨"Name", none, ""⟩, GoValue.string "x"),
        (⟨"A", none, ""⟩, GoValue.array (.int .Int) [.int .Int 1])] ∧
    JsValueOf (some (.struct [(⟨"Name", none, ""⟩, .string "x"),
        (⟨"A", none, ""⟩, .array (.int .Int) [.int .Int 1])])) = none := by
  refine ⟨by decide, by rfl, ?_⟩
  simp only [JsValueOf]
  rw [toJs_struct, jsFields_none _ [] (⟨"A", none, ""⟩, .array (.int .Int) [.int .Int 1])
    (by simp) (by rfl) (toJs_array _ _)]
  rfl

/-- Record encoding and the omission law, on the records whose kept fields
(exported, not both empty and omittable) all have an encoding: when the
exported fields have pairwise distinct external names, `JsValueOf` yields an
object whose key set is exactly the set of the external names of the kept
fields, each key holding the encoding of its field. A field that is empty and
omittable is not kept, so it gives no key. -/
theorem JsValueOf_record (fs : List (StructField × GoValue))
    (hd : ((exportedFields fs).map fun p => nameOf p.1).Nodup)
    (henc : ∀ p ∈ fs, kept p = true → toJs p.2 ≠ none) :
    ∃ es, JsValueOf (some (.struct fs)) = some (.object es) ∧
      (∀ k, k ∈ es.map Prod.fst ↔ k ∈ (keptFields fs).map (fun p => nameOf p.1)) ∧
      ∀ p ∈ keptFields fs, toJs p.2 = some (objGet es (nameOf p.1)) := by
  have hnd : ((keptFields fs).map fun p => nameOf p.1).Nodup :=
    List.Nodup.sublist ((keptFields_sublist fs).map _) hd
  have henc1 : ∀ p ∈ fs, kept p = true → ∃ j, toJs p.2 = some j := by
    intro p hp hk
    exact Option.ne_none_iff_exists'.1 (henc p hp hk)
  obtain ⟨es, h1, h2⟩ := jsFields_spec fs [] henc1 hnd (by simp)
  refine ⟨es, ?_, fun k => by rw [forall₂_keys _ _ h2], forall₂_objGet _ _ h2 hnd⟩
  simp only [JsValueOf]
  rw [toJs_struct, h1]
  rfl

/-- The record with `Name` (annotated `n,omitempty`) empty and `Age` equal to
30 encodes to the object with the single entry `Age`: 30. -/
theorem JsValueOf_record_example :
    JsValueOf (some (.struct [(⟨"Name", some "n,omitempty", ""⟩, .string ""),
      (⟨"Age", none, ""⟩, .int .Int 30)])) = some (.object [("Age", .number 30)]) := by
  have h30 : float64OfInt 30 = 30 := by simp [float64OfInt, roundBits]
  have h1 : toJs (.int .Int 30) = some (.number 30) := by rw [toJs_int, h30]
  have h2 : jsFields [((⟨"Name", some "n,omitempty", ""⟩ : StructField), GoValue.string ""),
      (⟨"Age", none, ""⟩, .int .Int 30)] [] = some [("Age", .number 30)] :=
    (jsFields_omit _ _ _ _ (by rfl) (by decide)).trans
      ((jsFields_keep _ _ _ _ (by rfl) (by rfl) _ h1).trans (jsFields_nil _))
  simp only [JsValueOf]
  rw [toJs_struct, h2]
  rfl

/-! ## The decoder: the entry point and scalar destinations -/

theorem GoValueOf_ptr (jv : JsValue) (x : GoValue) :
    ∀ r, toGo (.ptr x) jv = r →
      GoValueOf jv (some (.ptr x)) =
        match r with
        | (d, .ok _) => (some d, none)
        | (d, .err e) => (some d, some e)
        | (d, .panic) => (some d, some ⟨.Undefined, .Invalid, true⟩) := by
  intro r h; subst h
  rw [GoValueOf.eq_def]
  have hc : (GoValue.Kind (.ptr x) != Kind.Ptr || GoValue.IsNil (.ptr x) == some true) = false :=
    rfl
  simp only [hc, recoverToGo]
  generalize toGo (.ptr x) jv = r
  obtain ⟨d, r⟩ := r
  cases r <;> rfl

/-- A scalar destination has no pointer or interface level. -/
theorem depth_of_isScalar (d : GoValue) (h : d.isScalar = true) : d.depth = 0 := by
  cases d <;> simp_all [GoValue.isScalar, GoValue.depth]

/-- C5: a Boolean, Number or String source decoded into a scalar destination of
an incompatible kind makes `GoValueOf` fail with the `InvalidAssignmentError`
that carries the kind of the source and the kind of the destination, and the
destination keeps its value. -/
theorem GoValueOf_mismatch (jv : JsValue) (d : GoValue)
    (hs : jv.Type = .Boolean ∨ jv.Type = .Number ∨ jv.Type = .String)
    (hd : d.isScalar = true) (hi : compatibleSpec jv.Type d.Kind = false) :
    GoValueOf jv (some (.ptr d)) = (some (.ptr d), some ⟨jv.Type, d.Kind, false⟩) := by
  have h0 := depth_of_isScalar d hd
  have key : toGo d jv = (d, .err ⟨jv.Type, d.Kind, false⟩) := by
    cases jv with
    | bool b =>
      rw [toGo_bool _ _ h0]
      cases d <;> simp_all [GoValue.isScalar, goBasic, Convert, GoValue.Type, JsValue.Type,
        compatibleSpec, GoValue.Kind]
    | number q =>
      rw [toGo_number _ _ h0]
      cases d with
      | int k n => cases k <;> simp_all [compatibleSpec, GoValue.Kind, IntKind.toKind, JsValue.Type]
      | uint k n => cases k <;> simp_all [compatibleSpec, GoValue.Kind, UintKind.toKind, JsValue.Type]
      | float k n => cases k <;> simp_all [compatibleSpec, GoValue.Kind, FloatKind.toKind, JsValue.Type]
      | _ => simp_all [GoValue.isScalar, goBasic, Convert, GoValue.Type, JsValue.Type,
          compatibleSpec, GoValue.Kind]
    | string s =>
      rw [toGo_string _ _ h0]
      cases d <;> simp_all [GoValue.isScalar, goBasic, Convert, GoValue.Type, JsValue.Type,
        compatibleSpec, GoValue.Kind]
    | _ => simp [JsValue.Type] at hs
  have hp : jv.present = true := by
    cases jv <;> simp_all [JsValue.present, JsValue.Type]
  rw [GoValueOf_ptr _ _ _ ((toGo_ptr _ _ hp).trans (goPointer_ptr _ _ _ key))]

/-- C5 (witness): the string `x` decoded into an `int` that holds 5 fails with
the error of kinds `String` and `Int`, and the `int` still holds 5. -/
theorem GoValueOf_mismatch_string_int :
    GoValueOf (.string "x") (some (.ptr (.int .Int 5))) =
      (some (.ptr (.int .Int 5)), some ⟨.String, .Int, false⟩) :=
  GoValueOf_mismatch (.string "x") (.int .Int 5) (Or.inr (Or.inr rfl)) rfl rfl

/-- C3 (evaluation): decoding the object with `a`: 1 and `b`: the string `x`
into a pointer to a non-nil empty `map[string]int` fails on `b`, and the map
keeps the entry `a`: 1 that was written before the failure. -/
theorem GoValueOf_map_partial :
    GoValueOf (.object [("a", .number 1), ("b", .string "x")])
        (some (.ptr (.map .string (.int .Int) []))) =
      (some (.ptr (.map .string (.int .Int) [(.string "a", .int .Int 1)])),
        some ⟨.String, .Int, false⟩) := by
  have hk : ∀ k : String, toGo (zeroOf .string) (.string k) =
      (.string "", .ok (some (.string k))) := fun k => toGo_string _ _ (by rfl)
  have hb : goMapEntries .string (.int .Int) (.object [("a", .number 1), ("b", .string "x")])
      ["b"] [(.string "a", .int .Int 1)] =
      ([(.string "a", .int .Int 1)], .err ⟨.String, .Int, false⟩) :=
    goMapEntries_cons _ _ _ _ _ _ (.string "x") (by rfl) _ (hk "b") _ (toGo_string _ _ (by rfl))
  have ha : goMapEntries .string (.int .Int) (.object [("a", .number 1), ("b", .string "x")])
      ["a", "b"] [] =
      ([(.string "a", .int .Int 1)], .err ⟨.String, .Int, false⟩) :=
    (goMapEntries_cons _ _ _ _ _ _ (.number 1) (by rfl) _ (hk "a") _
      (toGo_number _ _ (by rfl))).trans hb
  have hm := goMap_map .string (.int .Int) [] (.object [("a", .number 1), ("b", .string "x")])
    ["a", "b"] (by rfl) _ ha
  have hv := (toGo_object (.map .string (.int .Int) []) _ (by rfl)).trans
    ((goValue_map _ _ (by rfl)).trans hm)
  have hp := (toGo_ptr _ _ (by rfl)).trans (goPointer_ptr _ _ _ hv)
  exact GoValueOf_ptr _ _ _ hp

/-! ## The decoder: records -/

theorem goStructFields_cons_ok (val : JsValue) (sf : StructField) (f : GoValue)
    (rest fs1 : List (StructField × GoValue))
    (h : goStructFields val ((sf, f) :: rest) = .ok fs1) :
    ∃ f1 rest1, fs1 = (sf, f1) :: rest1 ∧ FieldDecoded val sf f f1 ∧
      goStructFields val rest = .ok rest1 := by
  by_cases hc : sf.CanInterface = true
  · cases hg : val.Get (nameOf sf) with
    | none => rw [goStructFields_fault _ _ _ _ hc hg] at h; cases h
    | some jf =>
      rw [goStructFields_field _ _ _ _ _ hc hg _ rfl _ rfl] at h
      rcases ht : toGo f jf with ⟨x, (_ | v) | e | _⟩ <;> rw [ht] at h <;> simp only at h
      · rcases hr : goStructFields val rest with rest1 | e | _ <;> rw [hr] at h <;>
          simp only at h
        · cases h
          exact ⟨x, rest1, rfl, Or.inr ⟨hc, jf, hg, Or.inl ht⟩, rfl⟩
        · cases h
        · cases h
      · rcases hr : goStructFields val rest with rest1 | e | _ <;> rw [hr] at h <;>
          simp only at h
        · cases h
          exact ⟨v, rest1, rfl, Or.inr ⟨hc, jf, hg, Or.inr ⟨x, ht⟩⟩, rfl⟩
        · cases h
        · cases h
      · cases h
      · cases h
  · have hc1 : sf.CanInterface = false := by simpa using hc
    rw [goStructFields_skip _ _ _ _ hc1 _ rfl] at h
    rcases hr : goStructFields val rest with rest1 | e | _ <;> rw [hr] at h <;>
      simp only at h
    · cases h
      exact ⟨f, rest1, rfl, Or.inl ⟨hc1, rfl⟩, rfl⟩
    · cases h
    · cases h

theorem goStructFields_cons_intro (val : JsValue) (sf : StructField) (f f1 : GoValue)
    (rest rest1 : List (StructField × GoValue)) (hf : FieldDecoded val sf f f1)
    (hr : goStructFields val rest = .ok rest1) :
    goStructFields val ((sf, f) :: rest) = .ok ((sf, f1) :: rest1) := by
  rcases hf with ⟨hc, h1⟩ | ⟨hc, jf, hg, ht | ⟨x, ht⟩⟩
  · subst h1
    rw [goStructFields_skip _ _ _ _ hc _ hr]
  · rw [goStructFields_field _ _ _ _ _ hc hg _ ht _ hr]
  · rw [goStructFields_field _ _ _ _ _ hc hg _ ht _ hr]

/-- The loop of `goStruct` succeeds exactly when it decodes every field, and
then the fields afterwards are the decoded ones, in the same order and under
the same declarations. -/
theorem goStructFields_ok_iff (val : JsValue) (fs fs1 : List (StructField × GoValue)) :
    goStructFields val fs = .ok fs1 ↔
      List.Forall₂ (fun p q => q.1 = p.1 ∧ FieldDecoded val p.1 p.2 q.2) fs fs1 := by
  induction fs generalizing fs1 with
  | nil =>
    rw [goStructFields_nil]
    constructor
    · intro h; cases h; exact List.Forall₂.nil
    · intro h; cases h; rfl
  | cons p rest ih =>
    obtain ⟨sf, f⟩ := p
    constructor
    · intro h
      obtain ⟨f1, rest1, h1, h2, h3⟩ := goStructFields_cons_ok _ _ _ _ _ h
      subst h1
      exact List.Forall₂.cons ⟨rfl, h2⟩ ((ih rest1).1 h3)
    · intro h
      cases h with
      | @cons _ q _ rest1 h1 h2 =>
        obtain ⟨sf1, f1⟩ := q
        obtain ⟨h3, h4⟩ := h1
        simp only at h3 h4
        subst h3
        exact goStructFields_cons_intro _ _ _ _ _ _ h4 ((ih rest1).2 h2)

theorem forall₂_get? {α β : Type} {R : α → β → Prop} {l1 : List α} {l2 : List β}
    (h : List.Forall₂ R l1 l2) :
    ∀ (i : Nat) (a : α), l1.get? i = some a → ∃ b, l2.get? i = some b ∧ R a b := by
  induction h with
  | nil => intro i a ha; simp at ha
  | cons h1 _ ih =>
    intro i a ha
    cases i with
    | zero =>
      simp only [List.get?_cons_zero, Option.some.injEq] at ha
      subst ha
      exact ⟨_, rfl, h1⟩
    | succ i => exact ih i a (by simpa using ha)

theorem zeroFields_fieldTypes_get? (fs : List (StructField × GoValue)) (i : Nat)
    (sf : StructField) (f : GoValue) (h : fs.get? i = some (sf, f)) :
    (zeroFields (fieldTypes fs)).get? i = some (sf, zeroOf f.Type) := by
  induction fs generalizing i with
  | nil => simp at h
  | cons p rest ih =>
    obtain ⟨sf0, f0⟩ := p
    cases i with
    | zero =>
      simp only [List.get?_cons_zero, Option.some.injEq, Prod.mk.injEq] at h
      obtain ⟨h1, h2⟩ := h
      subst h1 h2
      simp [fieldTypes, zeroFields]
    | succ i =>
      simp only [fieldTypes, zeroFields, List.get?_cons_succ]
      exact ih i (by simpa using h)

theorem GoValueOf_struct (jv : JsValue) (fs0 : List (StructField × GoValue))
    (hj : jv.Type = .Object) :
    ∀ r, goStructFields jv (zeroFields (fieldTypes fs0)) = r →
      GoValueOf jv (some (.ptr (.struct fs0))) =
        match r with
        | .ok fs1 => (some (.ptr (.struct fs1)), none)
        | .err e => (some (.ptr (.struct fs0)), some e)
        | .panic => (some (.ptr (.struct fs0)), some ⟨.Undefined, .Invalid, true⟩) := by
  intro r hr
  have hs := goStruct_struct fs0 jv _ hr
  have hv : toGo (.struct fs0) jv = goStruct (.struct fs0) jv := by
    cases jv with
    | array xs => exact (toGo_array _ _ (by rfl)).trans (goValue_struct _ _ (by rfl))
    | object es => exact (toGo_object _ _ (by rfl)).trans (goValue_struct _ _ (by rfl))
    | _ => simp [JsValue.Type] at hj
  have hp : jv.present = true := by cases jv <;> simp_all [JsValue.present, JsValue.Type]
  have h1 := (toGo_ptr _ _ hp).trans (goPointer_ptr _ _ _ (hv.trans hs))
  rw [GoValueOf_ptr _ _ _ h1]
  cases r <;> rfl

/-- C2 (counterexample): decoding the empty object into a record whose field
`Age` holds 7 returns no error and leaves 0 in `Age`, although the key of the
field is absent from the source. -/
theorem GoValueOf_absent_overwrites :
    (JsValue.object []).Get (nameOf ⟨"Age", none, ""⟩) = some .undefined ∧
    GoValueOf (.object []) (some (.ptr (.struct [(⟨"Age", none, ""⟩, .int .Int 7)]))) =
      (some (.ptr (.struct [(⟨"Age", none, ""⟩, .int .Int 0)])), none) ∧
    GoValue.int .Int 0 ≠ GoValue.int .Int 7 := by
  refine ⟨rfl, ?_, by simp⟩
  have h1 : goStructFields (.object []) [(⟨"Age", none, ""⟩, .int .Int 0)] =
      .ok [(⟨"Age", none, ""⟩, .int .Int 0)] :=
    goStructFields_field _ _ _ _ _ (by rfl) (by rfl) _ (toGo_undefined _) _ (goStructFields_nil _)
  exact GoValueOf_struct _ [(⟨"Age", none, ""⟩, .int .Int 7)] (by rfl) _ h1

/-- C2 (amended): for a record destination and an object source in which the
key of an exported field is absent or null, the field raises no error and
`toGo` produces no value for it, but the record is rebuilt from a fresh zero
value: either `GoValueOf` returns no error and the field holds the zero value
of its type afterwards, whatever it held before, or `GoValueOf` returns an
error (raised by another field) and the destination is what it was. -/
theorem GoValueOf_absent_field (fs0 : List (StructField × GoValue))
    (es : List (String × JsValue)) (i : Nat) (sf : StructField) (f : GoValue)
    (hi : fs0.get? i = some (sf, f)) (hc : sf.CanInterface = true)
    (ha : (objGet es (nameOf sf)).present = false) :
    toGo (zeroOf f.Type) (objGet es (nameOf sf)) = (zeroOf f.Type, .ok none) ∧
    ((∃ fs1, GoValueOf (.object es) (some (.ptr (.struct fs0))) =
        (some (.ptr (.struct fs1)), none) ∧ fs1.get? i = some (sf, zeroOf f.Type)) ∨
     (∃ e, GoValueOf (.object es) (some (.ptr (.struct fs0))) =
        (some (.ptr (.struct fs0)), some e))) := by
  refine ⟨toGo_absent _ _ ha, ?_⟩
  rcases hr : goStructFields (.object es) (zeroFields (fieldTypes fs0)) with fs1 | e | _
  · left
    refine ⟨fs1, GoValueOf_struct _ fs0 (by rfl) _ hr, ?_⟩
    have hz := zeroFields_fieldTypes_get? fs0 i sf f hi
    obtain ⟨q, hq, h1, h2⟩ := forall₂_get? ((goStructFields_ok_iff _ _ _).1 hr) i _ hz
    obtain ⟨sf1, f1⟩ := q
    simp only at h1 h2
    subst h1
    rw [hq]
    rcases h2 with ⟨hc1, _⟩ | ⟨_, jf, hg, ht | ⟨x, ht⟩⟩
    · rw [hc] at hc1; cases hc1
    · simp only [JsValue.Get, Option.some.injEq] at hg
      subst hg
      rw [toGo_absent _ _ ha] at ht
      simp only [Prod.mk.injEq, and_true] at ht
      rw [ht]
    · simp only [JsValue.Get, Option.some.injEq] at hg
      subst hg
      rw [toGo_absent _ _ ha] at ht
      simp at ht
  · right
    exact ⟨e, GoValueOf_struct _ fs0 (by rfl) _ hr⟩
  · right
    exact ⟨_, GoValueOf_struct _ fs0 (by rfl) _ hr⟩

/-- C2 (witness): in the record with `Name` holding `x` and `Age` holding 7,
decoded from the object with `Age`: 30 alone, the field `Name` is absent from
the source. -/
theorem GoValueOf_absent_field_example :
    toGo (zeroOf GoType.string) (objGet [("Age", .number 30)] "Name") =
      (zeroOf GoType.string, .ok none) ∧
    ((∃ fs1, GoValueOf (.object [("Age", .number 30)])
          (some (.ptr (.struct [(⟨"Name", none, ""⟩, .string "x"),
            (⟨"Age", none, ""⟩, .int .Int 7)]))) =
        (some (.ptr (.struct fs1)), none) ∧
        fs1.get? 0 = some (⟨"Name", none, ""⟩, zeroOf GoType.string)) ∨
     (∃ e, GoValueOf (.object [("Age", .number 30)])
          (some (.ptr (.struct [(⟨"Name", none, ""⟩, .string "x"),
            (⟨"Age", none, ""⟩, .int .Int 7)]))) =
        (some (.ptr (.struct [(⟨"Name", none, ""⟩, .string "x"),
            (⟨"Age", none, ""⟩, .int .Int 7)])), some e))) :=
  GoValueOf_absent_field
    [(⟨"Name", none, ""⟩, .string "x"), (⟨"Age", none, ""⟩, .int .Int 7)]
    [("Age", .number 30)] 0 ⟨"Name", none, ""⟩ (.string "x") rfl rfl rfl

/-! ## The decoder: the errors it raises -/

theorem errOk_ok {α : Type} (a : α) : ErrOk (Res.ok a) := by
  intro e h; cases h

theorem errOk_panic {α : Type} : ErrOk (Res.panic : Res α) := by
  intro e h; cases h

theorem errOk_err {α : Type} (e : InvalidAssignmentError) (h1 : e.Typ ≠ .Undefined)
    (h2 : e.recovered = false) : ErrOk (Res.err e : Res α) := by
  intro e1 h; cases h; exact ⟨h1, h2⟩

theorem errOk_cast {α β : Type} {e : InvalidAssignmentError} (h : ErrOk (Res.err e : Res α)) :
    ErrOk (Res.err e : Res β) := by
  intro e1 h1; cases h1; exact h e rfl

theorem goBasic_errOk (b i : GoValue) (t : JsType) (ht : t ≠ .Undefined) :
    ErrOk (goBasic b i t) := by
  unfold goBasic
  split
  · exact errOk_ok _
  · exact errOk_err _ ht rfl

theorem shape_of_Kind (rv : GoValue) :
    (∃ fs, rv = .struct fs) ∨ (∃ kt vt, rv = .mapNil kt vt) ∨ (∃ kt vt es, rv = .map kt vt es) ∨
    (∃ t, rv = .sliceNil t) ∨ (∃ t xs, rv = .slice t xs) ∨
    (rv.Kind ≠ .Struct ∧ rv.Kind ≠ .Map ∧ rv.Kind ≠ .Slice) := by
  cases rv with
  | int k n => cases k <;> simp [GoValue.Kind, IntKind.toKind]
  | uint k n => cases k <;> simp [GoValue.Kind, UintKind.toKind]
  | float k n => cases k <;> simp [GoValue.Kind, FloatKind.toKind]
  | _ => simp [GoValue.Kind]

mutual
theorem toGo_errOk (rv : GoValue) (jv : JsValue) : ErrOk (toGo rv jv).2 := by
  by_cases hp : jv.present = true
  · by_cases hd : rv.depth = 0
    · cases jv with
      | bool b => rw [toGo_bool _ _ hd]; exact goBasic_errOk _ _ _ (by decide)
      | number q => rw [toGo_number _ _ hd]; exact goBasic_errOk _ _ _ (by decide)
      | string s => rw [toGo_string _ _ hd]; exact goBasic_errOk _ _ _ (by decide)
      | array xs => rw [toGo_array _ _ hd]; exact goValue_errOk rv (.array xs) (by simp [JsValue.Type])
      | object es => rw [toGo_object _ _ hd]; exact goValue_errOk rv (.object es) (by simp [JsValue.Type])
      | null => simp [JsValue.present] at hp
      | undefined => simp [JsValue.present] at hp
    · cases rv with
      | ptrNil t => rw [toGo_ptrNil _ _ hp]; exact goPointer_ptrNil_errOk t jv
      | ptr x => rw [toGo_ptr _ _ hp]; exact goPointer_ptr_errOk x jv
      | iface e => rw [toGo_iface _ _ hp]; exact goInterface_errOk (.iface e) e jv
      | _ => exact absurd rfl hd
  · rw [toGo_absent _ _ (by simpa using hp)]; exact errOk_ok _
termination_by (jv.size, 2 * rv.depth + 3, 0)
decreasing_by
  all_goals first
    | (apply Prod.Lex.right; apply Prod.Lex.left; (try simp only [GoValue.depth]); omega)
theorem goPointer_ptrNil_errOk (t : GoType) (jv : JsValue) :
    ErrOk (goPointer (.ptrNil t) jv).2 := by
  have ih := toGo_errOk (zeroOf t) jv
  rcases ht : toGo (zeroOf t) jv with ⟨x, (_ | v) | e | _⟩ <;>
    rw [goPointer_ptrNil _ _ _ ht] <;> rw [ht] at ih
  · exact errOk_ok _
  · exact errOk_ok _
  · exact ih
  · exact errOk_panic
termination_by (jv.size, 2 * (t.depth + 1) + 2, 0)
decreasing_by
  all_goals first
    | (apply Prod.Lex.right; apply Prod.Lex.left; simp only [GoValue.depth, depth_zeroOf]; omega)
theorem goPointer_ptr_errOk (x0 : GoValue) (jv : JsValue) :
    ErrOk (goPointer (.ptr x0) jv).2 := by
  have ih := toGo_errOk x0 jv
  rcases ht : toGo x0 jv with ⟨x, (_ | v) | e | _⟩ <;>
    rw [goPointer_ptr _ _ _ ht] <;> rw [ht] at ih
  · exact errOk_ok _
  · exact errOk_ok _
  · exact ih
  · exact errOk_panic
termination_by (jv.size, 2 * (x0.depth + 1) + 2, 0)
decreasing_by
  all_goals first
    | (apply Prod.Lex.right; apply Prod.Lex.left; omega)
theorem goInterface_errOk (i e : GoValue) (jv : JsValue) :
    ErrOk (goInterface i e jv).2 := by
  have ih := toGo_errOk e jv
  rcases ht : toGo e jv with ⟨x, (_ | v) | er | _⟩ <;>
    rw [goInterface_eq _ _ _ _ ht] <;> rw [ht] at ih
  · exact errOk_ok _
  · exact errOk_ok _
  · exact ih
  · exact errOk_panic
termination_by (jv.size, 2 * e.depth + 4, 0)
decreasing_by
  all_goals first
    | (apply Prod.Lex.right; apply Prod.Lex.left; omega)
theorem goValue_errOk (rv : GoValue) (jv : JsValue) (hj : jv.Type ≠ .Undefined) :
    ErrOk (goValue rv jv).2 := by
  rcases shape_of_Kind rv with ⟨fs, h⟩ | ⟨kt, vt, h⟩ | ⟨kt, vt, es, h⟩ | ⟨t, h⟩ | ⟨t, xs, h⟩ |
    ⟨h1, h2, h3⟩
  · subst h; rw [goValue_struct _ _ (by rfl)]; exact goStruct_errOk fs jv
  · subst h; rw [goValue_map _ _ (by rfl)]; exact goMap_errOk _ jv (Or.inl ⟨kt, vt, rfl⟩)
  · subst h; rw [goValue_map _ _ (by rfl)]; exact goMap_errOk _ jv (Or.inr ⟨kt, vt, es, rfl⟩)
  · subst h; rw [goValue_slice _ _ (by rfl)]; exact goSlice_errOk _ jv (Or.inl ⟨t, rfl⟩)
  · subst h; rw [goValue_slice _ _ (by rfl)]; exact goSlice_errOk _ jv (Or.inr ⟨t, xs, rfl⟩)
  · rw [goValue_other _ _ h1 h2 h3]; exact errOk_err _ hj rfl
termination_by (jv.size, 2, 0)
decreasing_by
  all_goals first
    | (apply Prod.Lex.right; apply Prod.Lex.left; omega)
theorem goStruct_errOk (fs0 : List (StructField × GoValue)) (val : JsValue) :
    ErrOk (goStruct (.struct fs0) val).2 := by
  have ih := goStructFields_errOk val (zeroFields (fieldTypes fs0))
  rcases hr : goStructFields val (zeroFields (fieldTypes fs0)) with fs1 | e | _ <;>
    rw [goStruct_struct _ _ _ hr] <;> rw [hr] at ih
  · exact errOk_ok _
  · exact errOk_cast ih
  · exact errOk_panic
termination_by (val.size, 1, 0)
decreasing_by
  all_goals first
    | (apply Prod.Lex.right; apply Prod.Lex.left; omega)
theorem goStructFields_errOk (val : JsValue) (fs : List (StructField × GoValue)) :
    ErrOk (goStructFields val fs) := by
  match fs with
  | [] => rw [goStructFields_nil]; exact errOk_ok _
  | (sf, f) :: rest =>
    have ihr := goStructFields_errOk val rest
    by_cases hc : sf.CanInterface = true
    · cases hg : val.Get (nameOf sf) with
      | none => rw [goStructFields_fault _ _ _ _ hc hg]; exact errOk_panic
      | some jf =>
        have iht := toGo_errOk f jf
        rcases ht : toGo f jf with ⟨x, (_ | v) | e | _⟩ <;>
          rcases hr : goStructFields val rest with fs1 | e1 | _ <;>
          rw [goStructFields_field _ _ _ _ _ hc hg _ ht _ hr] <;> rw [ht] at iht <;>
          rw [hr] at ihr <;>
          first
            | exact errOk_ok _
            | exact errOk_panic
            | exact ihr
            | exact errOk_cast iht
    · have hc1 : sf.CanInterface = false := by simpa using hc
      rcases hr : goStructFields val rest with fs1 | e1 | _ <;>
        rw [goStructFields_skip _ _ _ _ hc1 _ hr] <;> rw [hr] at ihr
      · exact errOk_ok _
      · exact ihr
      · exact errOk_panic
termination_by (val.size, 0, fs.length)
decreasing_by
  all_goals simp_wf
  all_goals first
    | (apply Prod.Lex.left; exact Get_size hg)
    | (apply Prod.Lex.right; apply Prod.Lex.right; omega)
theorem goMap_errOk (m : GoValue) (jv : JsValue)
    (hm : (∃ kt vt, m = .mapNil kt vt) ∨ (∃ kt vt es, m = .map kt vt es)) :
    ErrOk (goMap m jv).2 := by
  cases hk : jv.keys with
  | none => rw [goMap_fault _ _ hk]; exact errOk_panic
  | some keys =>
    rcases hm with ⟨kt, vt, h⟩ | ⟨kt, vt, es0, h⟩
    · subst h
      have ih := goMapEntries_errOk kt vt jv keys []
      rcases hr : goMapEntries kt vt jv keys [] with ⟨es, _ | e | _⟩ <;>
        rw [goMap_mapNil _ _ _ _ hk _ hr] <;> rw [hr] at ih
      · exact errOk_ok _
      · exact errOk_cast ih
      · exact errOk_panic
    · subst h
      have ih := goMapEntries_errOk kt vt jv keys es0
      rcases hr : goMapEntries kt vt jv keys es0 with ⟨es, _ | e | _⟩ <;>
        rw [goMap_map _ _ _ _ _ hk _ hr] <;> rw [hr] at ih
      · exact errOk_ok _
      · exact errOk_cast ih
      · exact errOk_panic
termination_by (jv.size, 1, 0)
decreasing_by
  all_goals first
    | (apply Prod.Lex.right; apply Prod.Lex.left; omega)
theorem goMapEntries_errOk (kt vt : GoType) (jv : JsValue) (keys : List String)
    (es : List (GoValue × GoValue)) : ErrOk (goMapEntries kt vt jv keys es).2 := by
  match keys with
  | [] => rw [goMapEntries_nil]; exact errOk_ok _
  | jk :: rest =>
    cases hg : jv.Get jk with
    | none => rw [goMapEntries_fault _ _ _ _ _ _ hg]; exact errOk_panic
    | some jv1 =>
      have ihk := toGo_errOk (zeroOf kt) (.string jk)
      have ihv := toGo_errOk (zeroOf vt) jv1
      have ih1 := goMapEntries_errOk kt vt jv rest es
      rcases htk : toGo (zeroOf kt) (.string jk) with ⟨x, (_ | k) | e | _⟩ <;>
        rcases htv : toGo (zeroOf vt) jv1 with ⟨y, (_ | v) | e1 | _⟩ <;>
        rw [goMapEntries_cons _ _ _ _ _ _ _ hg _ htk _ htv] <;> rw [htk] at ihk <;>
        rw [htv] at ihv <;>
        first
          | exact ih1
          | exact goMapEntries_errOk kt vt jv rest (SetMapIndex es k v)
          | exact errOk_panic
          | exact errOk_cast ihk
          | exact errOk_cast ihv
termination_by (jv.size, 0, keys.length)
decreasing_by
  all_goals simp_wf
  all_goals first
    | (apply Prod.Lex.left; exact Get_size hg)
    | (apply Prod.Lex.left; have h5 := Get_size hg; simp only [JsValue.size]; omega)
    | (apply Prod.Lex.right; apply Prod.Lex.right; omega)
theorem goSlice_errOk (s : GoValue) (jv : JsValue)
    (hs : (∃ t, s = .sliceNil t) ∨ (∃ t xs, s = .slice t xs)) :
    ErrOk (goSlice s jv).2 := by
  cases hn : jv.Length with
  | none => rw [goSlice_fault _ _ hn]; exact errOk_panic
  | some z =>
    by_cases hz : z < 0
    · rcases hs with ⟨et, h⟩ | ⟨et, xs0, h⟩
      · subst h; rw [goSlice_sliceNil_neg _ _ _ hn hz]; exact errOk_panic
      · subst h; rw [goSlice_slice_neg _ _ _ _ hn hz]; exact errOk_ok _
    obtain ⟨n, hn⟩ : ∃ n : ℕ, jv.Length = some (n : ℤ) :=
      ⟨z.toNat, Length_toNat jv z hn (by omega)⟩
    rcases hs with ⟨et, h⟩ | ⟨et, xs0, h⟩
    · subst h
      have ih := goSliceElems_errOk et jv 0 n []
      rcases hr : goSliceElems et jv 0 n [] with xs | e | _ <;>
        rw [goSlice_sliceNil _ _ _ hn _ hr] <;> rw [hr] at ih
      · exact errOk_ok _
      · exact errOk_cast ih
      · exact errOk_panic
    · subst h
      have ih := goSliceElems_errOk et jv 0 n xs0
      rcases hr : goSliceElems et jv 0 n xs0 with xs | e | _ <;>
        rw [goSlice_slice _ _ _ _ hn _ hr] <;> rw [hr] at ih
      · exact errOk_ok _
      · exact errOk_cast ih
      · exact errOk_panic
termination_by (jv.size, 1, 0)
decreasing_by
  all_goals first
    | (apply Prod.Lex.right; apply Prod.Lex.left; omega)
theorem goSliceElems_errOk (et : GoType) (jv : JsValue) (i n : Nat) (s : List GoValue) :
    ErrOk (goSliceElems et jv i n s) := by
  by_cases h : i < n
  · cases hi : jv.Index i with
    | none => rw [goSliceElems_fault _ _ _ _ _ h hi]; exact errOk_panic
    | some je =>
      have iht := toGo_errOk (zeroOf et) je
      have ih1 := goSliceElems_errOk et jv (i + 1) n s
      rcases ht : toGo (zeroOf et) je with ⟨x, (_ | v) | e | _⟩ <;>
        rw [goSliceElems_step _ _ _ _ _ _ h hi _ ht] <;> rw [ht] at iht
      · exact ih1
      · exact goSliceElems_errOk et jv (i + 1) n (s ++ [v])
      · exact errOk_cast iht
      · exact errOk_panic
  · rw [goSliceElems_done _ _ _ _ _ h]; exact errOk_ok _
termination_by (jv.size, 0, n - i)
decreasing_by
  all_goals first
    | (apply Prod.Lex.left; exact Index_size hi)
    | (apply Prod.Lex.right; apply Prod.Lex.right; omega)
end

/-! ## The destination argument -/

/-- C4: for every source and every destination that is nil or not a pointer,
`GoValueOf` returns the destination error (message `must be a non-nil
pointer`) with the kind of the destination, the same for every source, and
leaves the destination as it is. For a non-nil pointer destination the error
returned, if any, is never the destination error. -/
theorem GoValueOf_destination (jv : JsValue) (i : Option GoValue) :
    (validDestination i = false →
      GoValueOf jv i = (i, some ⟨.Undefined, destinationKind i, false⟩) ∧
      (⟨.Undefined, destinationKind i, false⟩ : InvalidAssignmentError).Error =
        .mustBeNonNilPointer (destinationKind i)) ∧
    (validDestination i = true →
      ∀ e, (GoValueOf jv i).2 = some e → ∀ k, e.Error ≠ .mustBeNonNilPointer k) := by
  constructor
  · intro hv
    refine ⟨?_, rfl⟩
    cases i with
    | none => rfl
    | some rv =>
      cases rv with
      | ptr x => simp [validDestination] at hv
      | int k n => cases k <;> rfl
      | uint k n => cases k <;> rfl
      | float k n => cases k <;> rfl
      | _ => rfl
  · intro hv e he k
    match i, hv with
    | some (.ptr x), _ =>
      have herr := toGo_errOk (.ptr x) jv
      rcases ht : toGo (.ptr x) jv with ⟨d, a | e1 | _⟩ <;>
        rw [GoValueOf_ptr _ _ _ ht] at he <;> rw [ht] at herr <;> simp only at he
      · cases he
      · simp only [Option.some.injEq] at he
        subst he
        obtain ⟨h1, h2⟩ := herr e1 rfl
        simp [InvalidAssignmentError.Error, h1, h2]
      · simp only [Option.some.injEq] at he
        subst he
        simp [InvalidAssignmentError.Error]

/-- C4 (witness): decoding the number 1 into the `int` 3, which is not a
pointer, fails with the destination error of kind `Int` and leaves the 3. -/
theorem GoValueOf_destination_int :
    GoValueOf (.number 1) (some (.int .Int 3)) =
      (some (.int .Int 3), some ⟨.Undefined, .Int, false⟩) :=
  ((GoValueOf_destination (.number 1) (some (.int .Int 3))).1 rfl).1

/-! ## Round trip: numbers -/

theorem float64OfInt_small (n : ℤ) (h : n.natAbs < 2 ^ 53) : float64OfInt n = (n : ℚ) := by
  have hr : roundBits 53 n.natAbs = n.natAbs := by unfold roundBits; rw [if_pos h]
  unfold float64OfInt
  rw [hr]
  split
  · have h1 : (n.natAbs : ℤ) = -n := by omega
    have h2 := congrArg (Int.cast : ℤ → ℚ) h1
    rw [Int.cast_natCast, Int.cast_neg] at h2
    rw [h2]; ring
  · have h1 : (n.natAbs : ℤ) = n := by omega
    have h2 := congrArg (Int.cast : ℤ → ℚ) h1
    rw [Int.cast_natCast] at h2
    exact h2

theorem int64OfFloat64_intCast (n : ℤ) (h1 : -(2 ^ 63) ≤ n) (h2 : n < 2 ^ 63) :
    int64OfFloat64 (n : ℚ) = n := by
  unfold int64OfFloat64
  simp only [Rat.intCast_num, Rat.intCast_den, Nat.cast_one, Int.tdiv_one]
  rw [if_pos ⟨h1, h2⟩]

theorem uint64OfFloat64_natCast (n : ℕ) (h : n < 2 ^ 64) :
    uint64OfFloat64 ((n : ℤ) : ℚ) = n := by
  have h1 : (n : ℤ) < 2 ^ 64 := by exact_mod_cast h
  unfold uint64OfFloat64
  simp only [Rat.intCast_num, Rat.intCast_den, Nat.cast_one, Int.tdiv_one]
  rw [if_pos ⟨Int.natCast_nonneg n, h1⟩]
  exact Int.toNat_natCast n

theorem Convert_int (k : IntKind) (n : ℤ) (h : intHolds k n) :
    Convert (.float .Float64 (float64OfInt n)) (.int k) = some (.int k n) := by
  obtain ⟨h1, h2, h3⟩ := h
  have h4 : -(2 ^ 63) ≤ n := by omega
  have h5 : n < 2 ^ 63 := by omega
  rw [float64OfInt_small n h1]
  simp only [Convert, int64OfFloat64_intCast n h4 h5, Option.some.injEq, GoValue.int.injEq,
    true_and]
  cases k <;> simp only [IntKind.bits, wrapInt] at h2 h3 ⊢ <;> omega

theorem Convert_uint (k : UintKind) (n : ℕ) (h : uintHolds k n) :
    Convert (.float .Float64 (float64OfInt n)) (.uint k) = some (.uint k n) := by
  obtain ⟨h1, h2⟩ := h
  have h3 : (n : ℤ).natAbs < 2 ^ 53 := by simpa using h1
  rw [float64OfInt_small _ h3]
  have h4 : n < 2 ^ 64 := by omega
  simp only [Convert, uint64OfFloat64_natCast n h4, Option.some.injEq, GoValue.uint.injEq,
    true_and]
  exact Nat.mod_eq_of_lt h2
/-! ## Round trip: the values that survive it -/

mutual
theorem Type_zeroOf : (t : GoType) → (zeroOf t).Type = t
  | .bool => rfl
  | .int _ => rfl
  | .uint _ => rfl
  | .float _ => rfl
  | .string => rfl
  | .ptr _ => rfl
  | .iface => rfl
  | .slice _ => rfl
  | .array n t => by simp [zeroOf, GoValue.Type]
  | .map _ _ => rfl
  | .struct fs => by simp [zeroOf, GoValue.Type, fieldTypes_zeroFields fs]
theorem fieldTypes_zeroFields :
    (fs : List (StructField × GoType)) → fieldTypes (zeroFields fs) = fs
  | [] => rfl
  | (sf, t) :: rest => by
    simp [zeroFields, fieldTypes, Type_zeroOf t, fieldTypes_zeroFields rest]
end

theorem jsElems_of_forall₂ (xs : List GoValue) (js : List JsValue)
    (h : List.Forall₂ (fun x j => toJs x = some j) xs js) : jsElems xs = some js := by
  induction h with
  | nil => exact jsElems_nil
  | cons h1 _ ih => rw [jsElems_cons _ _ _ h1 _ ih]

theorem getD_append_length (pre : List JsValue) (j : JsValue) (js : List JsValue) :
    (pre ++ j :: js).getD pre.length .undefined = j := by
  induction pre with
  | nil => rfl
  | cons p rest ih => simpa using ih

/-- The loop of `goSlice` over an array whose remaining elements all decode to
a value appends the decoded values in order. -/
theorem goSliceElems_spec (t : GoType) (suf : List GoValue) (jsuf : List JsValue)
    (h : List.Forall₂ (fun x j => toGo (zeroOf t) j = (zeroOf t, .ok (some x))) suf jsuf) :
    ∀ (jpre : List JsValue) (acc : List GoValue),
      goSliceElems t (.array (jpre ++ jsuf)) jpre.length (jpre ++ jsuf).length acc =
        .ok (acc ++ suf) := by
  induction h with
  | nil =>
    intro jpre acc
    rw [goSliceElems_done _ _ _ _ _ (by simp)]
    simp
  | @cons x j xs js h1 _ ih =>
    intro jpre acc
    have hlt : jpre.length < (jpre ++ j :: js).length := by simp
    have hi : (JsValue.array (jpre ++ j :: js)).Index jpre.length = some j := by
      simp only [JsValue.Index, getD_append_length]
    rw [goSliceElems_step _ _ _ _ _ _ hlt hi _ h1]
    have h2 := ih (jpre ++ [j]) (acc ++ [x])
    simp only [List.append_assoc, List.singleton_append, List.length_append, List.length_singleton]
      at h2
    simp only [List.length_append] at h2 ⊢
    exact h2

theorem exists_forall₂_of_forall_mem {α β : Type} (R : α → β → Prop) (xs : List α)
    (h : ∀ x ∈ xs, ∃ y, R x y) : ∃ ys, List.Forall₂ R xs ys := by
  induction xs with
  | nil => exact ⟨[], List.Forall₂.nil⟩
  | cons x rest ih =>
    obtain ⟨y, hy⟩ := h x (List.mem_cons_self _ _)
    obtain ⟨ys, hys⟩ := ih fun x hx => h x (List.mem_cons_of_mem _ hx)
    exact ⟨y :: ys, List.Forall₂.cons hy hys⟩

theorem Trip_slice (t : GoType) (xs : List GoValue) (hx : ∀ x ∈ xs, Trip x)
    (hn : ∀ x ∈ xs, x.nonNull = true) (ht : ∀ x ∈ xs, x.Type = t) : Trip (.slice t xs) := by
  have h1 : ∀ x ∈ xs, ∃ j, toJs x = some j ∧
      toGo (zeroOf t) j = (zeroOf t, .ok (some x)) := by
    intro x hm
    obtain ⟨j, hj, h2, _⟩ := hx x hm
    have h3 := (h2 (hn x hm)).2
    rw [ht x hm] at h3
    exact ⟨j, hj, h3⟩
  obtain ⟨js, hjs⟩ := exists_forall₂_of_forall_mem _ xs h1
  have henc : jsElems xs = some js := jsElems_of_forall₂ _ _ (hjs.imp fun _ _ h => h.1)
  have hdec := goSliceElems_spec t xs js (hjs.imp fun _ _ h => h.2) [] []
  simp only [List.nil_append, List.length_nil] at hdec
  refine ⟨.array js, by rw [toJs_slice, henc]; rfl, ?_, by simp [GoValue.nonNull]⟩
  intro _
  refine ⟨rfl, ?_⟩
  show toGo (.sliceNil t) (.array js) = (.sliceNil t, .ok (some (.slice t xs)))
  rw [toGo_array _ _ (by rfl), goValue_slice _ _ (by rfl)]
  exact goSlice_sliceNil _ _ _ (by rfl) _ hdec

theorem jsEntries_spec (es : List (String × GoValue)) (jes : List (String × JsValue))
    (h : List.Forall₂ (fun p e => e.1 = p.1 ∧ toJs p.2 = some e.2) es jes) :
    ∀ m : List (String × JsValue), (es.map Prod.fst).Nodup →
      (∀ p ∈ es, p.1 ∉ m.map Prod.fst) →
      jsEntries (es.map stringEntry) m = some (m ++ jes) := by
  induction h with
  | nil => intro m _ _; rw [List.map_nil, jsEntries_nil]; simp
  | @cons p e ps js h1 _ ih =>
    intro m hnd hnew
    obtain ⟨k, x⟩ := p
    obtain ⟨k1, j⟩ := e
    simp only at h1
    obtain ⟨hk, hj⟩ := h1
    subst hk
    simp only [List.map_cons, List.nodup_cons] at hnd
    rw [List.map_cons, stringEntry, jsEntries_cons _ _ _ _ _ hj]
    simp only [GoValue.assertString]
    rw [objSet_of_not_mem _ _ _ (hnew (k1, x) (List.mem_cons_self _ _))]
    have hnew1 : ∀ p ∈ ps, p.1 ∉ (m ++ [(k1, j)]).map Prod.fst := by
      intro p hp
      simp only [List.map_append, List.map_cons, List.map_nil, List.mem_append,
        List.mem_singleton, not_or]
      refine ⟨hnew p (List.mem_cons_of_mem _ hp), ?_⟩
      intro e
      exact hnd.1 (List.mem_map.2 ⟨p, hp, e⟩)
    rw [ih _ hnd.2 hnew1]
    simp

theorem SetMapIndex_new (acc : List (String × GoValue)) (k : String) (v : GoValue)
    (h : k ∉ acc.map Prod.fst) :
    SetMapIndex (acc.map stringEntry) (.string k) v = acc.map stringEntry ++ [(.string k, v)] := by
  induction acc with
  | nil => rfl
  | cons p rest ih =>
    obtain ⟨k0, v0⟩ := p
    simp only [List.map_cons, List.mem_cons, not_or] at h
    have hk : GoValue.keyEq (.string k0) (.string k) = false := by
      simp only [GoValue.keyEq, beq_eq_false_iff_ne, ne_eq]
      exact fun e => h.1 e.symm
    show SetMapIndex ((.string k0, v0) :: rest.map stringEntry) (.string k) v = _
    simp only [SetMapIndex, hk, Bool.false_eq_true, if_false, ih h.2, List.map_cons,
      List.cons_append, stringEntry]

theorem objGet_cons_self (k : String) (j : JsValue) (rest : List (String × JsValue)) :
    objGet ((k, j) :: rest) k = j := by
  simp [objGet]

/-- The loop of `goMap` over an object whose remaining entries all decode to a
value adds the decoded entries in order, when the keys are pairwise distinct. -/
theorem goMapEntries_spec (vt : GoType) (suf : List (String × GoValue))
    (jsuf : List (String × JsValue))
    (h : List.Forall₂
      (fun p e => e.1 = p.1 ∧ toGo (zeroOf vt) e.2 = (zeroOf vt, .ok (some p.2))) suf jsuf) :
    ∀ (jpre : List (String × JsValue)) (pre : List (String × GoValue)),
      pre.map Prod.fst = jpre.map Prod.fst → ((jpre ++ jsuf).map Prod.fst).Nodup →
      goMapEntries .string vt (.object (jpre ++ jsuf)) (jsuf.map Prod.fst)
          (pre.map stringEntry) =
        ((pre ++ suf).map stringEntry, .ok ()) := by
  induction h with
  | nil =>
    intro jpre pre _ _
    rw [List.map_nil, goMapEntries_nil]
    simp
  | @cons p e ps js h1 _ ih =>
    intro jpre pre hpre hnd
    obtain ⟨k, x⟩ := p
    obtain ⟨k1, j⟩ := e
    simp only at h1
    obtain ⟨hk, hj⟩ := h1
    subst hk
    have hnd1 : k1 ∉ jpre.map Prod.fst := by
      simp only [List.map_append, List.map_cons] at hnd
      intro hm
      have := (List.nodup_append.1 hnd).2.2
      exact this hm (List.mem_cons_self _ _)
    have hget : (JsValue.object (jpre ++ (k1, j) :: js)).Get k1 = some j := by
      simp only [JsValue.Get, objGet_append_of_not_mem _ _ _ hnd1, objGet_cons_self]
    have hkey : toGo (zeroOf .string) (.string k1) =
        (zeroOf .string, .ok (some (.string k1))) := toGo_string _ _ (by rfl)
    rw [List.map_cons, goMapEntries_cons _ _ _ _ _ _ _ hget _ hkey _ hj]
    simp only []
    rw [SetMapIndex_new _ _ _ (by rw [hpre]; exact hnd1)]
    have h2 := ih (jpre ++ [(k1, j)]) (pre ++ [(k1, x)]) (by simp [hpre]) (by simpa using hnd)
    simp only [List.append_assoc, List.singleton_append, List.map_append, List.map_cons,
      List.map_nil] at h2 ⊢
    exact h2

theorem Trip_map (vt : GoType) (es : List (String × GoValue)) (hk : (es.map Prod.fst).Nodup)
    (hx : ∀ p ∈ es, Trip p.2) (hn : ∀ p ∈ es, p.2.nonNull = true)
    (ht : ∀ p ∈ es, p.2.Type = vt) :
    Trip (.map .string vt (es.map fun p => (.string p.1, p.2))) := by
  have h1 : ∀ p ∈ es, ∃ e : String × JsValue, e.1 = p.1 ∧ toJs p.2 = some e.2 ∧
      toGo (zeroOf vt) e.2 = (zeroOf vt, .ok (some p.2)) := by
    intro p hm
    obtain ⟨j, hj, h2, _⟩ := hx p hm
    have h3 := (h2 (hn p hm)).2
    rw [ht p hm] at h3
    exact ⟨(p.1, j), rfl, hj, h3⟩
  obtain ⟨jes, hjes⟩ := exists_forall₂_of_forall_mem _ es h1
  have henc : jsEntries (es.map stringEntry) [] = some ([] ++ jes) :=
    jsEntries_spec es jes (hjes.imp fun _ _ h => ⟨h.1, h.2.1⟩) [] hk (by simp)
  have hkeys : jes.map Prod.fst = es.map Prod.fst := by
    clear henc h1
    induction hjes with
    | nil => rfl
    | cons h _ ih =>
      simp only [List.map_cons, List.nodup_cons] at hk
      simp only [List.map_cons, h.1, List.cons.injEq, true_and]
      exact ih hk.2 (fun p hp => hx p (List.mem_cons_of_mem _ hp))
        (fun p hp => hn p (List.mem_cons_of_mem _ hp))
        (fun p hp => ht p (List.mem_cons_of_mem _ hp))
  have hdec := goMapEntries_spec vt es jes (hjes.imp fun _ _ h => ⟨h.1, h.2.2⟩) [] [] rfl
    (by simpa [hkeys] using hk)
  simp only [List.nil_append, List.map_nil] at hdec henc
  refine ⟨.object jes, ?_, ?_, by simp [GoValue.nonNull]⟩
  · rw [toJs_map]
    show Option.map JsValue.object (jsEntries (es.map stringEntry) []) = _
    rw [henc]; rfl
  · intro _
    refine ⟨rfl, ?_⟩
    show toGo (.mapNil .string vt) (.object jes) =
      (.mapNil .string vt, .ok (some (.map .string vt (es.map stringEntry))))
    rw [toGo_object _ _ (by rfl), goValue_map _ _ (by rfl)]
    exact goMap_mapNil _ _ _ _ (by rfl) _ hdec
theorem forall₂_zeroFields (val : JsValue) (fs : List (StructField × GoValue))
    (h : ∀ p ∈ fs, FieldDecoded val p.1 (zeroOf p.2.Type) p.2) :
    List.Forall₂ (fun p q => q.1 = p.1 ∧ FieldDecoded val p.1 p.2 q.2)
      (zeroFields (fieldTypes fs)) fs := by
  induction fs with
  | nil => exact List.Forall₂.nil
  | cons p rest ih =>
    obtain ⟨sf, f⟩ := p
    simp only [fieldTypes, zeroFields]
    exact List.Forall₂.cons ⟨rfl, h (sf, f) (List.mem_cons_self _ _)⟩
      (ih fun p hp => h p (List.mem_cons_of_mem _ hp))

theorem mem_keptFields (fs : List (StructField × GoValue)) (p : StructField × GoValue)
    (hp : p ∈ fs) (hc : p.1.CanInterface = true)
    (ho : (isEmptyValue p.2 && canOmitEmpty p.1) = false) : p ∈ keptFields fs := by
  simp only [keptFields, List.mem_filter]
  exact ⟨hp, by simp [kept, hc, ho]⟩

theorem Trip_struct (fs : List (StructField × GoValue)) (hx : ∀ p ∈ fs, Trip p.2)
    (hz : ∀ p ∈ fs, p.1.CanInterface = false → p.2 = zeroOf p.2.Type)
    (ho : ∀ p ∈ fs, (isEmptyValue p.2 && canOmitEmpty p.1) = false)
    (hd : ((exportedFields fs).map fun p => nameOf p.1).Nodup) : Trip (.struct fs) := by
  have hnd : ((keptFields fs).map fun p => nameOf p.1).Nodup :=
    List.Nodup.sublist ((keptFields_sublist fs).map _) hd
  have henc : ∀ p ∈ fs, kept p = true → ∃ j, toJs p.2 = some j := by
    intro p hp _
    obtain ⟨j, hj, _⟩ := hx p hp
    exact ⟨j, hj⟩
  obtain ⟨es, h1, h2⟩ := jsFields_spec fs [] henc hnd (by simp)
  have hget := forall₂_objGet _ _ h2 hnd
  have hfd : ∀ p ∈ fs, FieldDecoded (.object es) p.1 (zeroOf p.2.Type) p.2 := by
    intro p hp
    by_cases hc : p.1.CanInterface = true
    · right
      refine ⟨hc, objGet es (nameOf p.1), rfl, ?_⟩
      have hj := hget p (mem_keptFields fs p hp hc (ho p hp))
      obtain ⟨j, hj1, h3, h4⟩ := hx p hp
      rw [hj] at hj1
      simp only [Option.some.injEq] at hj1
      subst hj1
      by_cases hn : p.2.nonNull = true
      · exact Or.inr ⟨_, (h3 hn).2⟩
      · have hn1 : p.2.nonNull = false := by simpa using hn
        obtain ⟨h5, h6⟩ := h4 hn1
        left
        rw [h5, toGo_null]
        rw [← h6]
    · have hc1 : p.1.CanInterface = false := by simpa using hc
      exact Or.inl ⟨hc1, hz p hp hc1⟩
  have hdec : goStructFields (.object es) (zeroFields (fieldTypes fs)) = .ok fs :=
    (goStructFields_ok_iff _ _ _).2 (forall₂_zeroFields _ fs hfd)
  refine ⟨.object es, ?_, ?_, by simp [GoValue.nonNull]⟩
  · rw [toJs_struct, h1]; rfl
  · intro _
    refine ⟨rfl, ?_⟩
    show toGo (.struct (zeroFields (fieldTypes fs))) (.object es) =
      (.struct (zeroFields (fieldTypes fs)), .ok (some (.struct fs)))
    have hdec1 : goStructFields (.object es)
        (zeroFields (fieldTypes (zeroFields (fieldTypes fs)))) = .ok fs := by
      rw [fieldTypes_zeroFields]; exact hdec
    rw [toGo_object _ _ (by rfl), goValue_struct _ _ (by rfl)]
    exact goStruct_struct _ _ _ hdec1

theorem Trip_scalar_iface (x : GoValue) (j : JsValue) (hj : toJs x = some j)
    (hp : j.present = true) (hn : x.nonNull = true)
    (hd : toGo .ifaceNil j = (.ifaceNil, .ok (some (.iface x)))) : Trip (.iface x) := by
  refine ⟨j, by rw [toJs_iface, hj], ?_, ?_⟩
  · intro _; exact ⟨hp, hd⟩
  · intro h; simp [GoValue.nonNull, hn] at h

/-- Every value of the round-trip class survives the round trip. -/
theorem Trip_of_RoundTrips (v : GoValue) (h : RoundTrips v) : Trip v := by
  induction h with
  | bool b =>
    exact ⟨.bool b, toJs_bool b, fun _ => ⟨rfl, toGo_bool _ _ (by rfl)⟩,
      by simp [GoValue.nonNull]⟩
  | int k n h =>
    refine ⟨_, toJs_int k n, fun _ => ⟨rfl, ?_⟩, by simp [GoValue.nonNull]⟩
    show toGo (.int k 0) _ = _
    rw [toGo_number _ _ (by rfl)]
    simp only [goBasic, GoValue.Type, Convert_int k n h]
    rfl
  | uint k n h =>
    refine ⟨_, toJs_uint k n, fun _ => ⟨rfl, ?_⟩, by simp [GoValue.nonNull]⟩
    show toGo (.uint k 0) _ = _
    rw [toGo_number _ _ (by rfl)]
    simp only [goBasic, GoValue.Type, Convert_uint k n h]
    rfl
  | float64 q =>
    exact ⟨.number q, toJs_float _ q, fun _ => ⟨rfl, toGo_number _ _ (by rfl)⟩,
      by simp [GoValue.nonNull]⟩
  | float32 q h =>
    refine ⟨.number q, toJs_float _ q, fun _ => ⟨rfl, ?_⟩, by simp [GoValue.nonNull]⟩
    show toGo (.float .Float32 0) _ = _
    rw [toGo_number _ _ (by rfl)]
    simp only [goBasic, GoValue.Type, Convert, h]
    rfl
  | string s =>
    exact ⟨.string s, toJs_string s, fun _ => ⟨rfl, toGo_string _ _ (by rfl)⟩,
      by simp [GoValue.nonNull]⟩
  | ptrNil t =>
    exact ⟨.null, toJs_ptrNil t, by simp [GoValue.nonNull], fun _ => ⟨rfl, rfl⟩⟩
  | ptr x _ hn ih =>
    obtain ⟨j, hj, h1, _⟩ := ih
    obtain ⟨hp, hd⟩ := h1 hn
    refine ⟨j, by rw [toJs_ptr, hj], fun _ => ⟨hp, ?_⟩, ?_⟩
    · show toGo (.ptrNil x.Type) j = _
      rw [toGo_ptrNil _ _ hp]
      exact goPointer_ptrNil _ _ _ hd
    · intro h; simp [GoValue.nonNull, hn] at h
  | ifaceNil =>
    exact ⟨.null, toJs_ifaceNil, by simp [GoValue.nonNull], fun _ => ⟨rfl, rfl⟩⟩
  | ifaceBool b =>
    exact Trip_scalar_iface _ _ (toJs_bool b) rfl rfl (toGo_bool _ _ (by rfl))
  | ifaceFloat64 q =>
    exact Trip_scalar_iface _ _ (toJs_float _ q) rfl rfl (toGo_number _ _ (by rfl))
  | ifaceString s =>
    exact Trip_scalar_iface _ _ (toJs_string s) rfl rfl (toGo_string _ _ (by rfl))
  | sliceNil t =>
    exact ⟨.null, toJs_sliceNil t, by simp [GoValue.nonNull], fun _ => ⟨rfl, rfl⟩⟩
  | slice t xs _ hn ht ih => exact Trip_slice t xs ih hn ht
  | mapNil kt vt =>
    exact ⟨.null, toJs_mapNil kt vt, by simp [GoValue.nonNull], fun _ => ⟨rfl, rfl⟩⟩
  | map vt es hk _ hn ht ih => exact Trip_map vt es hk ih hn ht
  | struct fs _ hz ho hd ih => exact Trip_struct fs ih hz ho hd

/-- C1 (amended): every record of the round-trip class (`RoundTrips`: exported
fields with pairwise distinct external names, no field both empty and
omittable, the fields that are not exported zero, and values built from
booleans, strings, floats, integers of magnitude below 2^53, nil pointers and
pointers to a value of the class that does not encode to `null`, nil
interfaces and interfaces holding a boolean, a `float64` or a string, nil
slices and slices, nil maps and maps with string keys, whose elements are
values of the class that do not encode to `null`, and nested records of the
same form) has an encoding, and decoding that encoding into a pointer to a
fresh zero record of the same type returns no error and leaves the record. -/
theorem GoValueOf_JsValueOf (fs : List (StructField × GoValue))
    (h : RoundTrips (.struct fs)) :
    ∃ j, JsValueOf (some (.struct fs)) = some j ∧
      GoValueOf j (some (.ptr (zeroOf (GoValue.struct fs).Type))) =
        (some (.ptr (.struct fs)), none) := by
  obtain ⟨j, hj, h1, _⟩ := Trip_of_RoundTrips _ h
  obtain ⟨hp, hd⟩ := h1 rfl
  refine ⟨j, hj, ?_⟩
  exact GoValueOf_ptr _ _ _ ((toGo_ptr _ _ hp).trans (goPointer_ptr _ _ _ hd))
/-- C1 (counterexample): the record whose field `X` of type `interface{}` holds
the `int` 3 has no field both empty and omittable, it encodes to the object
with `X`: 3, and decoding that into a fresh zero record returns no error and
leaves the `float64` 3 in `X`: a record that is not the one encoded. And the
record whose field `P` of type `**int` points at a nil `*int` has no field
both empty and omittable, it encodes to the object with `P`: `null`, and
decoding that into a fresh zero record returns no error and leaves `P` nil. -/
theorem GoValueOf_JsValueOf_differs :
    ((∀ p ∈ [((⟨"X", none, ""⟩ : StructField), GoValue.iface (.int .Int 3))],
      (isEmptyValue p.2 && canOmitEmpty p.1) = false) ∧
    JsValueOf (some (.struct [(⟨"X", none, ""⟩, .iface (.int .Int 3))])) =
      some (.object [("X", .number 3)]) ∧
    GoValueOf (.object [("X", .number 3)])
        (some (.ptr (zeroOf (GoValue.struct [(⟨"X", none, ""⟩, .iface (.int .Int 3))]).Type))) =
      (some (.ptr (.struct [(⟨"X", none, ""⟩, .iface (.float .Float64 3))])), none) ∧
    GoValue.struct [(⟨"X", none, ""⟩, .iface (.float .Float64 3))] ≠
      GoValue.struct [(⟨"X", none, ""⟩, .iface (.int .Int 3))]) ∧
    ((∀ p ∈ [((⟨"P", none, ""⟩ : StructField), GoValue.ptr (.ptrNil (.int .Int)))],
      (isEmptyValue p.2 && canOmitEmpty p.1) = false) ∧
    JsValueOf (some (.struct [(⟨"P", none, ""⟩, .ptr (.ptrNil (.int .Int)))])) =
      some (.object [("P", .null)]) ∧
    GoValueOf (.object [("P", .null)])
        (some (.ptr (zeroOf
          (GoValue.struct [(⟨"P", none, ""⟩, .ptr (.ptrNil (.int .Int)))]).Type))) =
      (some (.ptr (.struct [(⟨"P", none, ""⟩, .ptrNil (.ptr (.int .Int)))])), none) ∧
    GoValue.struct [(⟨"P", none, ""⟩, .ptrNil (.ptr (.int .Int)))] ≠
      GoValue.struct [(⟨"P", none, ""⟩, .ptr (.ptrNil (.int .Int)))]) := by
  refine ⟨⟨?_, ?_, ?_, by simp⟩, ⟨?_, ?_, ?_, by simp⟩⟩
  · intro p hp
    simp only [List.mem_singleton] at hp
    subst hp
    rfl
  · have h3 : float64OfInt 3 = 3 := by
      rw [float64OfInt_small 3 (by decide)]; norm_num
    have h1 : toJs (.iface (.int .Int 3)) = some (.number 3) := by
      rw [toJs_iface, toJs_int, h3]
    have h2 : jsFields [((⟨"X", none, ""⟩ : StructField), GoValue.iface (.int .Int 3))] [] =
        some [("X", .number 3)] :=
      (jsFields_keep _ _ _ _ (by rfl) (by rfl) _ h1).trans (jsFields_nil _)
    simp only [JsValueOf]
    rw [toJs_struct, h2]
    rfl
  · have h1 : toGo .ifaceNil (.number 3) =
        (.ifaceNil, .ok (some (.iface (.float .Float64 3)))) := toGo_number _ _ (by rfl)
    have h2 : goStructFields (.object [("X", .number 3)]) [(⟨"X", none, ""⟩, .ifaceNil)] =
        .ok [(⟨"X", none, ""⟩, .iface (.float .Float64 3))] :=
      goStructFields_field _ _ _ _ _ (by rfl) (by rfl) _ h1 _ (goStructFields_nil _)
    exact GoValueOf_struct _ [(⟨"X", none, ""⟩, .ifaceNil)] (by rfl) _ h2
  · intro p hp
    simp only [List.mem_singleton] at hp
    subst hp
    rfl
  · have h1 : toJs (.ptr (.ptrNil (.int .Int))) = some .null :=
      (toJs_ptr _).trans (toJs_ptrNil _)
    have h2 : jsFields [((⟨"P", none, ""⟩ : StructField), GoValue.ptr (.ptrNil (.int .Int)))]
        [] = some [("P", .null)] :=
      (jsFields_keep _ _ _ _ (by rfl) (by rfl) _ h1).trans (jsFields_nil _)
    simp only [JsValueOf]
    rw [toJs_struct, h2]
    rfl
  · have h2 : goStructFields (.object [("P", .null)])
        [(⟨"P", none, ""⟩, .ptrNil (.ptr (.int .Int)))] =
        .ok [(⟨"P", none, ""⟩, .ptrNil (.ptr (.int .Int)))] :=
      goStructFields_field _ _ _ _ _ (by rfl) (by rfl) _ (toGo_null _) _
        (goStructFields_nil _)
    exact GoValueOf_struct _ [(⟨"P", none, ""⟩, .ptrNil (.ptr (.int .Int)))] (by rfl) _ h2

/-- C1 (witness): the record with `Name` (annotated `n,omitempty`) holding `x`,
`Age` holding 30 and `Tags` holding the slice of the string `a` is of the
round-trip class, so it survives encoding and decoding. -/
theorem GoValueOf_JsValueOf_example :
    ∃ j, JsValueOf (some (.struct [(⟨"Name", some "n,omitempty", ""⟩, .string "x"),
        (⟨"Age", none, ""⟩, .int .Int 30),
        (⟨"Tags", none, ""⟩, .slice .string [.string "a"])])) = some j ∧
      GoValueOf j (some (.ptr (zeroOf (GoValue.struct
        [(⟨"Name", some "n,omitempty", ""⟩, .string "x"),
        (⟨"Age", none, ""⟩, .int .Int 30),
        (⟨"Tags", none, ""⟩, .slice .string [.string "a"])]).Type))) =
      (some (.ptr (.struct [(⟨"Name", some "n,omitempty", ""⟩, .string "x"),
        (⟨"Age", none, ""⟩, .int .Int 30),
        (⟨"Tags", none, ""⟩, .slice .string [.string "a"])])), none) :=
  GoValueOf_JsValueOf _
    (RoundTrips.struct _
      (by
        intro p hp
        simp only [List.mem_cons, List.mem_singleton, List.not_mem_nil, or_false] at hp
        rcases hp with hp | hp | hp <;> subst hp
        · exact RoundTrips.string _
        · exact RoundTrips.int _ _ ⟨by decide, by decide, by decide⟩
        · refine RoundTrips.slice _ _ ?_ ?_ ?_ <;> intro x hx <;>
            simp only [List.mem_singleton] at hx <;> subst hx
          · exact RoundTrips.string _
          · rfl
          · rfl)
      (by
        intro p hp hc
        simp only [List.mem_cons, List.mem_singleton, List.not_mem_nil, or_false] at hp
        rcases hp with hp | hp | hp <;> subst hp <;> exact absurd hc (by decide))
      (by
        intro p hp
        simp only [List.mem_cons, List.mem_singleton, List.not_mem_nil, or_false] at hp
        rcases hp with hp | hp | hp <;> subst hp <;> rfl)
      (by decide))

/-! ## The encoder: slices and maps -/

/-- The loop of `jsSliceOrArray` gives one element for each element of the
slice, in the same order, when every element has an encoding. -/
theorem jsElems_spec (xs : List GoValue) (h : ∀ x ∈ xs, toJs x ≠ none) :
    ∃ js, jsElems xs = some js ∧ List.Forall₂ (fun x j => toJs x = some j) xs js := by
  induction xs with
  | nil => exact ⟨[], jsElems_nil, List.Forall₂.nil⟩
  | cons x rest ih =>
    obtain ⟨j, hj⟩ := Option.ne_none_iff_exists'.1 (h x (List.mem_cons_self _ _))
    obtain ⟨js, h1, h2⟩ := ih fun y hy => h y (List.mem_cons_of_mem _ hy)
    exact ⟨j :: js, jsElems_cons _ _ _ hj _ h1, List.Forall₂.cons hj h2⟩

/-- A value that is nil, or a pointer or interface that leads to nil, encodes
to `null`. -/
theorem toJs_of_not_nonNull : (y : GoValue) → y.nonNull = false → toJs y = some .null
  | .ptrNil t, _ => toJs_ptrNil t
  | .ptr e, h => (toJs_ptr e).trans (toJs_of_not_nonNull e (by simpa [GoValue.nonNull] using h))
  | .ifaceNil, _ => toJs_ifaceNil
  | .iface e, h => (toJs_iface e).trans (toJs_of_not_nonNull e (by simpa [GoValue.nonNull] using h))
  | .sliceNil t, _ => toJs_sliceNil t
  | .mapNil kt vt, _ => toJs_mapNil kt vt
  | .bool _, h => by simp [GoValue.nonNull] at h
  | .int _ _, h => by simp [GoValue.nonNull] at h
  | .uint _ _, h => by simp [GoValue.nonNull] at h
  | .float _ _, h => by simp [GoValue.nonNull] at h
  | .string _, h => by simp [GoValue.nonNull] at h
  | .slice _ _, h => by simp [GoValue.nonNull] at h
  | .array _ _, h => by simp [GoValue.nonNull] at h
  | .map _ _ _, h => by simp [GoValue.nonNull] at h
  | .struct _, h => by simp [GoValue.nonNull] at h

/-- C12: `JsValueOf` of a nil slice and of a nil map is `null`, of a non-nil
slice of length 0 it is the empty array and of a non-nil map with no entries
the empty object, and neither of these two is `null`. -/
theorem JsValueOf_nil_or_empty (t kt vt : GoType) :
    JsValueOf (some (.sliceNil t)) = some .null ∧
    JsValueOf (some (.mapNil kt vt)) = some .null ∧
    JsValueOf (some (.slice t [])) = some (.array []) ∧
    JsValueOf (some (.map kt vt [])) = some (.object []) ∧
    JsValue.array [] ≠ .null ∧ JsValue.object [] ≠ .null := by
  refine ⟨?_, ?_, ?_, ?_, by simp, by simp⟩
  · simp only [JsValueOf]; exact toJs_sliceNil t
  · simp only [JsValueOf]; exact toJs_mapNil kt vt
  · simp only [JsValueOf]; rw [toJs_slice, jsElems_nil]; rfl
  · simp only [JsValueOf]; rw [toJs_map, jsEntries_nil]; rfl

/-- C13 (evaluation): the non-nil slice of length 1 whose element is the array
of the `int` 1 has no encoding: `JsValueOf` faults on the element, as
`jsSliceOrArray` does on every array, and yields no array of length 1. -/
theorem JsValueOf_slice_array :
    JsValueOf (some (.slice (.array 1 (.int .Int)) [.array (.int .Int) [.int .Int 1]])) =
      none := by
  simp only [JsValueOf]
  rw [toJs_slice, jsElems_cons _ _ _ (toJs_array _ _) _ rfl]
  rfl

/-- Sequence encoding on the slices whose elements all have an encoding: for a
non-nil slice of length `n`, `JsValueOf` yields an array of exactly `n`
elements whose `i`-th element is the encoding of the `i`-th element of the
slice; an element that is a nil pointer, interface, slice or map gives `null`
at its own index. -/
theorem JsValueOf_slice (t : GoType) (xs : List GoValue) (h : ∀ x ∈ xs, toJs x ≠ none) :
    ∃ js, JsValueOf (some (.slice t xs)) = some (.array js) ∧ js.length = xs.length ∧
      (∀ i x, xs.get? i = some x → ∃ j, js.get? i = some j ∧ toJs x = some j) ∧
      (∀ i x, xs.get? i = some x → x.nonNull = false → js.get? i = some .null) := by
  obtain ⟨js, h1, h2⟩ := jsElems_spec xs h
  have h3 : ∀ i x, xs.get? i = some x → ∃ j, js.get? i = some j ∧ toJs x = some j :=
    fun i x hx => forall₂_get? h2 i x hx
  refine ⟨js, ?_, h2.length_eq.symm, h3, ?_⟩
  · simp only [JsValueOf]; rw [toJs_slice, h1]; rfl
  · intro i x hx hn
    obtain ⟨j, hj1, hj2⟩ := h3 i x hx
    rw [toJs_of_not_nonNull x hn] at hj2
    cases hj2
    exact hj1

/-- The slice of the pointers to 1, nil and to 2 encodes to an array of three
elements with `null` in the middle. -/
theorem JsValueOf_slice_example :
    ∃ js, JsValueOf (some (.slice (.ptr (.int .Int))
        [.ptr (.int .Int 1), .ptrNil (.int .Int), .ptr (.int .Int 2)])) = some (.array js) ∧
      js.length = 3 ∧
      (∀ i x, [GoValue.ptr (.int .Int 1), .ptrNil (.int .Int), .ptr (.int .Int 2)].get? i = some x →
        ∃ j, js.get? i = some j ∧ toJs x = some j) ∧
      (∀ i x, [GoValue.ptr (.int .Int 1), .ptrNil (.int .Int), .ptr (.int .Int 2)].get? i = some x →
        x.nonNull = false → js.get? i = some .null) :=
  JsValueOf_slice (.ptr (.int .Int)) [.ptr (.int .Int 1), .ptrNil (.int .Int), .ptr (.int .Int 2)]
    (by
      intro x hx
      simp only [List.mem_cons, List.mem_singleton, List.not_mem_nil, or_false] at hx
      rcases hx with hx | hx | hx <;> subst hx
      · rw [toJs_ptr, toJs_int]; simp
      · rw [toJs_ptrNil]; simp
      · rw [toJs_ptr, toJs_int]; simp)

/-! ## The decoder: arrays and objects as sources -/

/-- A destination without pointer or interface level that is no struct, map or
slice: an Array or Object source fails on it with the error that carries the
kind `Object` and the kind of the destination. -/
theorem toGo_object_other (jv : JsValue) (d : GoValue) (hj : jv.Type = .Object)
    (h0 : d.depth = 0) (h1 : d.Kind ≠ .Struct) (h2 : d.Kind ≠ .Map) (h3 : d.Kind ≠ .Slice) :
    toGo d jv = (d, .err ⟨.Object, d.Kind, false⟩) := by
  cases jv with
  | array xs => exact (toGo_array _ _ h0).trans (goValue_other _ _ h1 h2 h3)
  | object es => exact (toGo_object _ _ h0).trans (goValue_other _ _ h1 h2 h3)
  | _ => simp [JsValue.Type] at hj

/-- C14 (counterexample): decoding the array of the number 1 into a record
whose field `Age` holds 7 returns no error (the record is rebuilt with `Age`
zero), and decoding it into a nil `map[string]int` returns no error either and
gives the map from `0` to 1. -/
theorem GoValueOf_array_into_record :
    GoValueOf (.array [.number 1]) (some (.ptr (.struct [(⟨"Age", none, ""⟩, .int .Int 7)]))) =
      (some (.ptr (.struct [(⟨"Age", none, ""⟩, .int .Int 0)])), none) ∧
    GoValueOf (.array [.number 1]) (some (.ptr (.mapNil .string (.int .Int)))) =
      (some (.ptr (.map .string (.int .Int) [(.string "0", .int .Int 1)])), none) := by
  constructor
  · have h1 : goStructFields (.array [.number 1]) [(⟨"Age", none, ""⟩, .int .Int 0)] =
        .ok [(⟨"Age", none, ""⟩, .int .Int 0)] :=
      goStructFields_field _ _ _ _ _ (by rfl) (by rfl) _ (toGo_undefined _) _
        (goStructFields_nil _)
    exact GoValueOf_struct _ [(⟨"Age", none, ""⟩, .int .Int 7)] (by rfl) _ h1
  · have hk : toGo (zeroOf .string) (.string "0") = (.string "", .ok (some (.string "0"))) :=
      toGo_string _ _ (by rfl)
    have hv : toGo (zeroOf (.int .Int)) (.number 1) = (.int .Int 0, .ok (some (.int .Int 1))) :=
      toGo_number _ _ (by rfl)
    have he : goMapEntries .string (.int .Int) (.array [.number 1]) ["0"] [] =
        ([(.string "0", .int .Int 1)], .ok ()) :=
      (goMapEntries_cons _ _ _ _ _ _ (.number 1) (by rfl) _ hk _ hv).trans
        (goMapEntries_nil _ _ _ _)
    have hm := goMap_mapNil .string (.int .Int) (.array [.number 1]) ["0"] (by rfl) _ he
    have ht := (toGo_array (.mapNil .string (.int .Int)) _ (by rfl)).trans
      ((goValue_map _ _ (by rfl)).trans hm)
    have hp := (toGo_ptr _ _ (by rfl)).trans (goPointer_ptr _ _ _ ht)
    exact GoValueOf_ptr _ _ _ hp

/-- C14 (amended): for every Array source and every destination that is
neither a slice, a record nor a map (and neither a pointer nor a populated
interface), such as a scalar, a fixed-size array or a nil interface,
`GoValueOf` fails with the `InvalidAssignmentError` that carries the kind
`Object` and the kind of the destination, and the destination keeps its
value. -/
theorem GoValueOf_array_mismatch (xs : List JsValue) (d : GoValue) (h0 : d.depth = 0)
    (h1 : d.Kind ≠ .Struct) (h2 : d.Kind ≠ .Map) (h3 : d.Kind ≠ .Slice) :
    GoValueOf (.array xs) (some (.ptr d)) = (some (.ptr d), some ⟨.Object, d.Kind, false⟩) := by
  have key := toGo_object_other (.array xs) d rfl h0 h1 h2 h3
  exact GoValueOf_ptr _ _ _ ((toGo_ptr _ _ (by rfl)).trans (goPointer_ptr _ _ _ key))

/-- C14 (witness): the array of 1 and 2 decoded into an `int` that holds 5
fails with the error of kinds `Object` and `Int`, and the `int` still holds
5. -/
theorem GoValueOf_array_mismatch_int :
    GoValueOf (.array [.number 1, .number 2]) (some (.ptr (.int .Int 5))) =
      (some (.ptr (.int .Int 5)), some ⟨.Object, .Int, false⟩) :=
  GoValueOf_array_mismatch [.number 1, .number 2] (.int .Int 5) rfl (by decide) (by decide)
    (by decide)

/-- C15 (counterexample): decoding the object with the single entry `a`: 1
into a nil slice of `int` returns no error and leaves a non-nil empty slice,
into a slice that holds 7 it returns no error and leaves the slice as it was,
and decoding the object with `length`: 2, `0`: 5 and `1`: 6 into a nil slice
of `int` returns no error and leaves the slice of 5 and 6. -/
theorem GoValueOf_object_into_slice :
    GoValueOf (.object [("a", .number 1)]) (some (.ptr (.sliceNil (.int .Int)))) =
      (some (.ptr (.slice (.int .Int) [])), none) ∧
    GoValueOf (.object [("a", .number 1)]) (some (.ptr (.slice (.int .Int) [.int .Int 7]))) =
      (some (.ptr (.slice (.int .Int) [.int .Int 7])), none) ∧
    GoValueOf (.object [("length", .number 2), ("0", .number 5), ("1", .number 6)])
        (some (.ptr (.sliceNil (.int .Int)))) =
      (some (.ptr (.slice (.int .Int) [.int .Int 5, .int .Int 6])), none) := by
  refine ⟨?_, ?_, ?_⟩
  · have hs := goSlice_sliceNil (.int .Int) (.object [("a", .number 1)]) 0 (by rfl) _
      (goSliceElems_done _ _ 0 0 [] (by decide))
    have ht := (toGo_object (.sliceNil (.int .Int)) _ (by rfl)).trans
      ((goValue_slice _ _ (by rfl)).trans hs)
    have hp := (toGo_ptr _ _ (by rfl)).trans (goPointer_ptr _ _ _ ht)
    exact GoValueOf_ptr _ _ _ hp
  · have hs := goSlice_slice (.int .Int) [.int .Int 7] (.object [("a", .number 1)]) 0 (by rfl) _
      (goSliceElems_done _ _ 0 0 _ (by decide))
    have ht := (toGo_object (.slice (.int .Int) [.int .Int 7]) _ (by rfl)).trans
      ((goValue_slice _ _ (by rfl)).trans hs)
    have hp := (toGo_ptr _ _ (by rfl)).trans (goPointer_ptr _ _ _ ht)
    exact GoValueOf_ptr _ _ _ hp
  · have h2 : goSliceElems (.int .Int)
        (.object [("length", .number 2), ("0", .number 5), ("1", .number 6)]) 2 2
        [.int .Int 5, .int .Int 6] = .ok [.int .Int 5, .int .Int 6] :=
      goSliceElems_done _ _ 2 2 _ (by decide)
    have h1 : goSliceElems (.int .Int)
        (.object [("length", .number 2), ("0", .number 5), ("1", .number 6)]) 1 2
        [.int .Int 5] = .ok [.int .Int 5, .int .Int 6] :=
      (goSliceElems_step _ _ 1 2 _ (.number 6) (by decide) (by rfl) _
        (toGo_number _ _ (by rfl))).trans h2
    have h0 : goSliceElems (.int .Int)
        (.object [("length", .number 2), ("0", .number 5), ("1", .number 6)]) 0 2
        [] = .ok [.int .Int 5, .int .Int 6] :=
      (goSliceElems_step _ _ 0 2 _ (.number 5) (by decide) (by rfl) _
        (toGo_number _ _ (by rfl))).trans h1
    have hs := goSlice_sliceNil (.int .Int)
      (.object [("length", .number 2), ("0", .number 5), ("1", .number 6)]) 2 (by rfl) _ h0
    have ht := (toGo_object (.sliceNil (.int .Int)) _ (by rfl)).trans
      ((goValue_slice _ _ (by rfl)).trans hs)
    have hp := (toGo_ptr _ _ (by rfl)).trans (goPointer_ptr _ _ _ ht)
    exact GoValueOf_ptr _ _ _ hp

/-- C15 (amended): for every Object source and every destination that is
neither a record, a map nor a slice (and neither a pointer nor a populated
interface), such as an `int`, a `bool`, a `string` or a nil interface,
`GoValueOf` fails with the `InvalidAssignmentError` that carries the kind
`Object` and the kind of the destination, and the destination keeps its
value. -/
theorem GoValueOf_object_mismatch (es : List (String × JsValue)) (d : GoValue)
    (h0 : d.depth = 0) (h1 : d.Kind ≠ .Struct) (h2 : d.Kind ≠ .Map) (h3 : d.Kind ≠ .Slice) :
    GoValueOf (.object es) (some (.ptr d)) = (some (.ptr d), some ⟨.Object, d.Kind, false⟩) := by
  have key := toGo_object_other (.object es) d rfl h0 h1 h2 h3
  exact GoValueOf_ptr _ _ _ ((toGo_ptr _ _ (by rfl)).trans (goPointer_ptr _ _ _ key))

/-- C15 (witness): the object with `a`: 1 decoded into a `string` that holds
`x` fails with the error of kinds `Object` and `String`, and the `string` still
holds `x`. -/
theorem GoValueOf_object_mismatch_string :
    GoValueOf (.object [("a", .number 1)]) (some (.ptr (.string "x"))) =
      (some (.ptr (.string "x")), some ⟨.Object, .String, false⟩) :=
  GoValueOf_object_mismatch [("a", .number 1)] (.string "x") rfl (by decide) (by decide)
    (by decide)

/-! ## The decoder: one field of a record -/

/-- For an object source, the field of an exported field of a record
destination after a call without error is what the body of the loop made of
the zero value from the entry under the external name of the field; a call
with an error leaves the destination as it was. -/
theorem GoValueOf_struct_field (fs0 : List (StructField × GoValue))
    (es : List (String × JsValue)) (i : Nat) (sf : StructField) (f : GoValue)
    (hi : fs0.get? i = some (sf, f)) (hc : sf.CanInterface = true) :
    (∃ fs1, GoValueOf (.object es) (some (.ptr (.struct fs0))) =
        (some (.ptr (.struct fs1)), none) ∧
      fs1.get? i = some (sf, decodedField (toGo (zeroOf f.Type) (objGet es (nameOf sf)))) ∧
      ∃ r, (toGo (zeroOf f.Type) (objGet es (nameOf sf))).2 = .ok r) ∨
    (∃ e, GoValueOf (.object es) (some (.ptr (.struct fs0))) =
        (some (.ptr (.struct fs0)), some e)) := by
  rcases hr : goStructFields (.object es) (zeroFields (fieldTypes fs0)) with fs1 | e | _
  · left
    refine ⟨fs1, GoValueOf_struct _ fs0 (by rfl) _ hr, ?_⟩
    have hz := zeroFields_fieldTypes_get? fs0 i sf f hi
    obtain ⟨q, hq, h1, h2⟩ := forall₂_get? ((goStructFields_ok_iff _ _ _).1 hr) i _ hz
    obtain ⟨sf1, f1⟩ := q
    simp only at h1 h2
    subst h1
    rw [hq]
    rcases h2 with ⟨hc1, _⟩ | ⟨_, jf, hg, ht | ⟨x, ht⟩⟩
    · rw [hc] at hc1; cases hc1
    · simp only [JsValue.Get, Option.some.injEq] at hg
      subst hg
      rw [ht]
      exact ⟨rfl, _, rfl⟩
    · simp only [JsValue.Get, Option.some.injEq] at hg
      subst hg
      rw [ht]
      exact ⟨rfl, _, rfl⟩
  · right
    exact ⟨e, GoValueOf_struct _ fs0 (by rfl) _ hr⟩
  · right
    exact ⟨_, GoValueOf_struct _ fs0 (by rfl) _ hr⟩

/-- The loop of `goStruct` on an object source stops with the failure of the
first field, in declaration order, whose entry fails to decode. -/
theorem goStructFields_failure (es : List (String × JsValue)) :
    ∀ fs : List (StructField × GoValue),
      (goStructFields (.object es) (zeroFields (fieldTypes fs))).failure =
        fs.findSome? (fieldFailure es)
  | [] => by
    simp only [fieldTypes, zeroFields, List.findSome?_nil]
    rw [goStructFields_nil]
    rfl
  | (sf, f) :: rest => by
    have ih := goStructFields_failure es rest
    simp only [fieldTypes, zeroFields, List.findSome?_cons]
    by_cases hc : sf.CanInterface = true
    · have hg : (JsValue.object es).Get (nameOf sf) = some (objGet es (nameOf sf)) := rfl
      have hf : fieldFailure es (sf, f) =
          (toGo (zeroOf f.Type) (objGet es (nameOf sf))).2.failure := by
        unfold fieldFailure; rw [if_pos hc]
      rw [goStructFields_field _ _ _ _ _ hc hg _ rfl _ rfl, hf, ← ih]
      rcases toGo (zeroOf f.Type) (objGet es (nameOf sf)) with ⟨x, (_ | v) | e | _⟩
      · cases goStructFields (.object es) (zeroFields (fieldTypes rest)) <;> rfl
      · cases goStructFields (.object es) (zeroFields (fieldTypes rest)) <;> rfl
      · rfl
      · rfl
    · have hc1 : sf.CanInterface = false := by simpa using hc
      have hf : fieldFailure es (sf, f) = none := by
        unfold fieldFailure; rw [if_neg hc]
      rw [goStructFields_skip _ _ _ _ hc1 _ rfl, hf, ← ih]
      cases goStructFields (.object es) (zeroFields (fieldTypes rest)) <;> rfl

/-- The loop of `goStruct` reads an object source only under the external
names of the exported fields. -/
theorem goStructFields_congr (es es1 : List (String × JsValue)) :
    ∀ fs : List (StructField × GoValue),
      (∀ p ∈ fs, p.1.CanInterface = true →
        objGet es1 (nameOf p.1) = objGet es (nameOf p.1)) →
      goStructFields (.object es1) (zeroFields (fieldTypes fs)) =
        goStructFields (.object es) (zeroFields (fieldTypes fs))
  | [], _ => by
    simp only [fieldTypes, zeroFields]
    rw [goStructFields_nil, goStructFields_nil]
  | (sf, f) :: rest, h => by
    have ih := goStructFields_congr es es1 rest fun p hp => h p (List.mem_cons_of_mem _ hp)
    simp only [fieldTypes, zeroFields]
    by_cases hc : sf.CanInterface = true
    · have hg : (JsValue.object es).Get (nameOf sf) = some (objGet es (nameOf sf)) := rfl
      have hg1 : (JsValue.object es1).Get (nameOf sf) = some (objGet es (nameOf sf)) := by
        rw [← h (sf, f) (List.mem_cons_self _ _) hc]; rfl
      rw [goStructFields_field _ _ _ _ _ hc hg _ rfl _ rfl,
        goStructFields_field _ _ _ _ _ hc hg1 _ rfl _ rfl, ih]
    · have hc1 : sf.CanInterface = false := by simpa using hc
      rw [goStructFields_skip _ _ _ _ hc1 _ rfl, goStructFields_skip _ _ _ _ hc1 _ rfl, ih]

/-- C17: for an object source and a record destination, the error that
`GoValueOf` returns is the failure of the first exported field, in declaration
order, whose entry (looked up under the external name of the field) fails to
decode, and none when no field fails; so it returns an error exactly when some
field fails. The entries under other keys have no effect: two objects that
agree under the external names of the exported fields give the same result. -/
theorem GoValueOf_record_failure (es : List (String × JsValue))
    (fs0 : List (StructField × GoValue)) :
    (GoValueOf (.object es) (some (.ptr (.struct fs0)))).2 = fs0.findSome? (fieldFailure es) ∧
    ((GoValueOf (.object es) (some (.ptr (.struct fs0)))).2 ≠ none ↔
      ∃ p ∈ fs0, fieldFailure es p ≠ none) ∧
    ∀ es1 : List (String × JsValue),
      (∀ p ∈ fs0, p.1.CanInterface = true →
        objGet es1 (nameOf p.1) = objGet es (nameOf p.1)) →
      GoValueOf (.object es1) (some (.ptr (.struct fs0))) =
        GoValueOf (.object es) (some (.ptr (.struct fs0))) := by
  have h1 : (GoValueOf (.object es) (some (.ptr (.struct fs0)))).2 =
      fs0.findSome? (fieldFailure es) := by
    rw [GoValueOf_struct _ fs0 (by rfl) _ rfl, ← goStructFields_failure]
    cases goStructFields (.object es) (zeroFields (fieldTypes fs0)) <;> rfl
  refine ⟨h1, ?_, ?_⟩
  · rw [h1]
    constructor
    · intro h
      obtain ⟨e, he⟩ := Option.ne_none_iff_exists'.1 h
      obtain ⟨p, hp, hpe⟩ := List.exists_of_findSome?_eq_some he
      exact ⟨p, hp, by rw [hpe]; simp⟩
    · rintro ⟨p, hp, hpe⟩ h
      exact hpe (List.findSome?_eq_none_iff.1 h p hp)
  · intro es1 h
    rw [GoValueOf_struct _ fs0 (by rfl) _ rfl, GoValueOf_struct _ fs0 (by rfl) _ rfl,
      goStructFields_congr es es1 fs0 h]

/-- C17 (witness): the record with `Name` (a string) and `Age` (an int) decoded
from the object with `Name`: 1, `Age`: the string `x` and `Extra`: `true`. -/
theorem GoValueOf_record_failure_example :
    (GoValueOf (.object [("Name", .number 1), ("Age", .string "x"), ("Extra", .bool true)])
      (some (.ptr (.struct [(⟨"Name", none, ""⟩, .string "a"),
        (⟨"Age", none, ""⟩, .int .Int 7)])))).2 =
      [((⟨"Name", none, ""⟩ : StructField), GoValue.string "a"),
        (⟨"Age", none, ""⟩, .int .Int 7)].findSome?
        (fieldFailure [("Name", .number 1), ("Age", .string "x"), ("Extra", .bool true)]) ∧
    ((GoValueOf (.object [("Name", .number 1), ("Age", .string "x"), ("Extra", .bool true)])
      (some (.ptr (.struct [(⟨"Name", none, ""⟩, .string "a"),
        (⟨"Age", none, ""⟩, .int .Int 7)])))).2 ≠ none ↔
      ∃ p ∈ [((⟨"Name", none, ""⟩ : StructField), GoValue.string "a"),
        (⟨"Age", none, ""⟩, .int .Int 7)],
        fieldFailure [("Name", .number 1), ("Age", .string "x"), ("Extra", .bool true)] p ≠
          none) ∧
    ∀ es1 : List (String × JsValue),
      (∀ p ∈ [((⟨"Name", none, ""⟩ : StructField), GoValue.string "a"),
          (⟨"Age", none, ""⟩, .int .Int 7)], p.1.CanInterface = true →
        objGet es1 (nameOf p.1) =
          objGet [("Name", .number 1), ("Age", .string "x"), ("Extra", .bool true)]
            (nameOf p.1)) →
      GoValueOf (.object es1) (some (.ptr (.struct [(⟨"Name", none, ""⟩, .string "a"),
        (⟨"Age", none, ""⟩, .int .Int 7)]))) =
        GoValueOf (.object [("Name", .number 1), ("Age", .string "x"), ("Extra", .bool true)])
          (some (.ptr (.struct [(⟨"Name", none, ""⟩, .string "a"),
            (⟨"Age", none, ""⟩, .int .Int 7)]))) :=
  GoValueOf_record_failure [("Name", .number 1), ("Age", .string "x"), ("Extra", .bool true)]
    [(⟨"Name", none, ""⟩, .string "a"), (⟨"Age", none, ""⟩, .int .Int 7)]

/-- A nil slice decodes the empty array to a non-nil slice without elements. -/
theorem toGo_sliceNil_empty (t : GoType) :
    toGo (.sliceNil t) (.array []) = (.sliceNil t, .ok (some (.slice t []))) := by
  have hs := goSlice_sliceNil t (.array []) 0 (by rfl) _ (goSliceElems_done _ _ 0 0 [] (by decide))
  exact (toGo_array (.sliceNil t) _ (by rfl)).trans ((goValue_slice _ _ (by rfl)).trans hs)

/-- A nil map decodes the empty object to a non-nil map without entries. -/
theorem toGo_mapNil_empty (kt vt : GoType) :
    toGo (.mapNil kt vt) (.object []) = (.mapNil kt vt, .ok (some (.map kt vt []))) := by
  have hm := goMap_mapNil kt vt (.object []) [] (by rfl) _ (goMapEntries_nil _ _ _ _)
  exact (toGo_object (.mapNil kt vt) _ (by rfl)).trans ((goValue_map _ _ (by rfl)).trans hm)

/-- C16 (counterexample): the record with the nil slice `S` and the `int` `A`,
decoded from the object with `S`: the empty array and `A`: the string `x`:
`GoValueOf` returns an error and `S` is still nil. -/
theorem GoValueOf_nil_field_error :
    GoValueOf (.object [("S", .array []), ("A", .string "x")])
        (some (.ptr (.struct [(⟨"S", none, ""⟩, .sliceNil (.int .Int)),
          (⟨"A", none, ""⟩, .int .Int 0)]))) =
      (some (.ptr (.struct [(⟨"S", none, ""⟩, .sliceNil (.int .Int)),
          (⟨"A", none, ""⟩, .int .Int 0)])), some ⟨.String, .Int, false⟩) := by
  have ha : goStructFields (.object [("S", .array []), ("A", .string "x")])
      [(⟨"A", none, ""⟩, .int .Int 0)] = .err ⟨.String, .Int, false⟩ :=
    goStructFields_field _ _ _ _ (.string "x") (by rfl) (by rfl) _ (toGo_string _ _ (by rfl)) _
      (goStructFields_nil _)
  have hs : goStructFields (.object [("S", .array []), ("A", .string "x")])
      [(⟨"S", none, ""⟩, .sliceNil (.int .Int)), (⟨"A", none, ""⟩, .int .Int 0)] =
      .err ⟨.String, .Int, false⟩ :=
    goStructFields_field _ _ _ _ (.array []) (by rfl) (by rfl) _ (toGo_sliceNil_empty _) _ ha
  exact GoValueOf_struct _ [(⟨"S", none, ""⟩, .sliceNil (.int .Int)),
    (⟨"A", none, ""⟩, .int .Int 0)] (by rfl) _ hs

/-- C16 (amended): in a record destination, an exported slice or map field
that is nil is decoded from an object source as follows. When its entry is
`null` or absent the field raises no error and is nil after the call, whether
the call returns an error or not. When its entry is the empty array (slice
field) or the empty object (map field) the field raises no error and produces
a non-nil value of length 0 of its type: either `GoValueOf` returns no error
and the field holds that value, or `GoValueOf` returns an error (raised by
another field) and the destination is what it was. -/
theorem GoValueOf_nil_field (fs0 : List (StructField × GoValue))
    (es : List (String × JsValue)) (i : Nat) (sf : StructField) (f : GoValue)
    (hi : fs0.get? i = some (sf, f)) (hc : sf.CanInterface = true)
    (hn : f.IsNil = some true) (hk : f.Kind = .Slice ∨ f.Kind = .Map) :
    ((objGet es (nameOf sf)).present = false →
      (toGo (zeroOf f.Type) (objGet es (nameOf sf))).2 = .ok none ∧
      ∃ fs1 e, GoValueOf (.object es) (some (.ptr (.struct fs0))) =
        (some (.ptr (.struct fs1)), e) ∧ fs1.get? i = some (sf, f)) ∧
    ((f.Kind = .Slice ∧ objGet es (nameOf sf) = .array []) ∨
        (f.Kind = .Map ∧ objGet es (nameOf sf) = .object []) →
      ∃ v, (toGo (zeroOf f.Type) (objGet es (nameOf sf))).2 = .ok (some v) ∧
        v.Type = f.Type ∧ v.IsNil = some false ∧ v.Len = 0 ∧
        ((∃ fs1, GoValueOf (.object es) (some (.ptr (.struct fs0))) =
            (some (.ptr (.struct fs1)), none) ∧ fs1.get? i = some (sf, v)) ∨
         (∃ e, GoValueOf (.object es) (some (.ptr (.struct fs0))) =
            (some (.ptr (.struct fs0)), some e)))) := by
  have hz : zeroOf f.Type = f := by
    cases f <;> simp_all [GoValue.IsNil, GoValue.Kind, GoValue.Type, zeroOf]
  have key := GoValueOf_struct_field fs0 es i sf f hi hc
  rw [hz] at key ⊢
  constructor
  · intro ha
    rw [toGo_absent _ _ ha] at key ⊢
    refine ⟨rfl, ?_⟩
    rcases key with ⟨fs1, h1, h2, _⟩ | ⟨e, h1⟩
    · exact ⟨fs1, none, h1, h2⟩
    · exact ⟨fs0, some e, h1, hi⟩
  · intro hv
    have hv1 : ∃ v, toGo f (objGet es (nameOf sf)) = (f, .ok (some v)) ∧
        v.Type = f.Type ∧ v.IsNil = some false ∧ v.Len = 0 := by
      rcases hv with ⟨hs, he⟩ | ⟨hm, he⟩
      · rw [he]
        cases f <;> simp_all [GoValue.IsNil, GoValue.Kind]
        exact ⟨_, toGo_sliceNil_empty _, rfl, rfl, rfl⟩
      · rw [he]
        cases f <;> simp_all [GoValue.IsNil, GoValue.Kind]
        exact ⟨_, toGo_mapNil_empty _ _, rfl, rfl, rfl⟩
    obtain ⟨v, h1, h2, h3, h4⟩ := hv1
    rw [h1] at key ⊢
    refine ⟨v, rfl, h2, h3, h4, ?_⟩
    rcases key with ⟨fs1, h5, h6, _⟩ | ⟨e, h5⟩
    · exact Or.inl ⟨fs1, h5, h6⟩
    · exact Or.inr ⟨e, h5⟩

/-- C16 (witness): the record whose single field `S` is a nil slice of `int`,
decoded from the object with `S`: the empty array. -/
theorem GoValueOf_nil_field_example :
    ((objGet [("S", JsValue.array [])] (nameOf ⟨"S", none, ""⟩)).present = false →
      (toGo (zeroOf (GoValue.sliceNil (.int .Int)).Type)
        (objGet [("S", JsValue.array [])] (nameOf ⟨"S", none, ""⟩))).2 = .ok none ∧
      ∃ fs1 e, GoValueOf (.object [("S", .array [])])
          (some (.ptr (.struct [(⟨"S", none, ""⟩, .sliceNil (.int .Int))]))) =
        (some (.ptr (.struct fs1)), e) ∧
        fs1.get? 0 = some (⟨"S", none, ""⟩, .sliceNil (.int .Int))) ∧
    (((GoValue.sliceNil (.int .Int)).Kind = .Slice ∧
        objGet [("S", JsValue.array [])] (nameOf ⟨"S", none, ""⟩) = .array []) ∨
        ((GoValue.sliceNil (.int .Int)).Kind = .Map ∧
          objGet [("S", JsValue.array [])] (nameOf ⟨"S", none, ""⟩) = .object []) →
      ∃ v, (toGo (zeroOf (GoValue.sliceNil (.int .Int)).Type)
          (objGet [("S", JsValue.array [])] (nameOf ⟨"S", none, ""⟩))).2 = .ok (some v) ∧
        v.Type = (GoValue.sliceNil (.int .Int)).Type ∧ v.IsNil = some false ∧ v.Len = 0 ∧
        ((∃ fs1, GoValueOf (.object [("S", .array [])])
              (some (.ptr (.struct [(⟨"S", none, ""⟩, .sliceNil (.int .Int))]))) =
            (some (.ptr (.struct fs1)), none) ∧ fs1.get? 0 = some (⟨"S", none, ""⟩, v)) ∨
         (∃ e, GoValueOf (.object [("S", .array [])])
              (some (.ptr (.struct [(⟨"S", none, ""⟩, .sliceNil (.int .Int))]))) =
            (some (.ptr (.struct [(⟨"S", none, ""⟩, .sliceNil (.int .Int))])), some e)))) :=
  GoValueOf_nil_field [(⟨"S", none, ""⟩, .sliceNil (.int .Int))] [("S", .array [])] 0
    ⟨"S", none, ""⟩ (.sliceNil (.int .Int)) rfl rfl rfl (Or.inl rfl)

/-! ## Key and name fidelity -/

/-- On the annotation `ext,omitempty`, where `ext` has no comma, the source
`nameOf` returns `ext`. -/
theorem nameOf_ext (sf : StructField) (tag ext : String) (ht : sf.Tag = some tag)
    (hd : tag.data = ext.data ++ ',' :: "omitempty".data) (hn : ',' ∉ ext.data) :
    nameOf sf = ext := by
  obtain ⟨name, tg, pkg⟩ := sf
  simp only at ht
  subst ht
  have he : ¬ (tag == "") = true := by
    rw [string_beq_iff, hd]
    simp
  simp only [nameOf, StructTag.Get, Option.getD_some, Split, he, Bool.false_eq_true, if_false, hd,
    splitChars_append ',' _ _ hn, splitChars_of_not_mem ',' _ omitempty_no_comma]
  simp

theorem objGet_objSet_of_ne (es : List (String × JsValue)) (k k1 : String) (j : JsValue)
    (h : k1 ≠ k) : objGet (objSet es k j) k1 = objGet es k1 := by
  induction es with
  | nil => simp [objSet, objGet, h.symm]
  | cons p rest ih =>
    obtain ⟨k0, v0⟩ := p
    by_cases h0 : k0 = k
    · subst h0
      simp [objSet, objGet, h.symm]
    · by_cases h1 : k0 = k1
      · subst h1
        simp [objSet, objGet, h0]
      · simp [objSet, objGet, h0, h1, ih]

/-- C11 (counterexample): the record whose field `name`, annotated
`n,omitempty` and holding `x`, is not exported encodes to the empty object,
which has no key `n`; and the record with `Name` annotated `n,omitempty` and
`Other` annotated `Name` encodes to an object that has the key `Name`. -/
theorem JsValueOf_alias_missing :
    JsValueOf (some (.struct [(⟨"name", some "n,omitempty", "main"⟩, .string "x")])) =
      some (.object []) ∧
    JsValueOf (some (.struct [(⟨"Name", some "n,omitempty", ""⟩, .string "x"),
        (⟨"Other", some "Name", ""⟩, .string "y")])) =
      some (.object [("n", .string "x"), ("Name", .string "y")]) := by
  constructor
  · simp only [JsValueOf]
    rw [toJs_struct, jsFields_skip _ _ _ _ (by rfl), jsFields_nil]
    rfl
  · simp only [JsValueOf]
    rw [toJs_struct, jsFields_keep _ _ _ _ (by rfl) (by rfl) _ (toJs_string _)]
    simp only []
    rw [jsFields_keep _ _ _ _ (by rfl) (by rfl) _ (toJs_string _)]
    simp only []
    rw [jsFields_nil]
    rfl

/-- C11 (amended): let an exported field of a record carry the annotation
`ext,omitempty`, where `ext` has no comma, is not empty and differs from the
declared name. Then `nameOf` resolves the field to `ext`. When the field is not
empty, the exported fields have pairwise distinct external names none of which
is the declared name, and the kept fields have an encoding, `JsValueOf` yields
an object that holds the encoding of the field under the key `ext` and has no
key equal to the declared name. And for an object source, whatever is stored
under the declared name, either `GoValueOf` returns no error and the field
holds what the entry under `ext` decodes to, or it returns an error and the
destination is what it was. -/
theorem alias_fidelity (fs : List (StructField × GoValue)) (i : Nat) (sf : StructField)
    (f : GoValue) (tag ext : String) (hi : fs.get? i = some (sf, f))
    (hc : sf.CanInterface = true) (ht : sf.Tag = some tag)
    (hd : tag.data = ext.data ++ ',' :: "omitempty".data) (hn : ',' ∉ ext.data)
    (_he : ext ≠ "") (hne : ext ≠ sf.Name) :
    nameOf sf = ext ∧
    (isEmptyValue f = false →
      ((exportedFields fs).map fun p => nameOf p.1).Nodup →
      (∀ p ∈ exportedFields fs, nameOf p.1 ≠ sf.Name) →
      (∀ p ∈ fs, kept p = true → toJs p.2 ≠ none) →
      ∃ es, JsValueOf (some (.struct fs)) = some (.object es) ∧
        ext ∈ es.map Prod.fst ∧ toJs f = some (objGet es ext) ∧
        sf.Name ∉ es.map Prod.fst) ∧
    (∀ (es : List (String × JsValue)) (j : JsValue),
      (∃ fs1, GoValueOf (.object (objSet es sf.Name j)) (some (.ptr (.struct fs))) =
          (some (.ptr (.struct fs1)), none) ∧
        fs1.get? i = some (sf, decodedField (toGo (zeroOf f.Type) (objGet es ext)))) ∨
      (∃ e, GoValueOf (.object (objSet es sf.Name j)) (some (.ptr (.struct fs))) =
          (some (.ptr (.struct fs)), some e))) := by
  have hname := nameOf_ext sf tag ext ht hd hn
  refine ⟨hname, ?_, ?_⟩
  · intro hf hnd hdecl henc
    have hnd1 : ((keptFields fs).map fun p => nameOf p.1).Nodup :=
      List.Nodup.sublist ((keptFields_sublist fs).map _) hnd
    have henc1 : ∀ p ∈ fs, kept p = true → ∃ j, toJs p.2 = some j := by
      intro p hp hk
      exact Option.ne_none_iff_exists'.1 (henc p hp hk)
    obtain ⟨es, h1, h2⟩ := jsFields_spec fs [] henc1 hnd1 (by simp)
    have hkeys := forall₂_keys _ _ h2
    have hmem : (sf, f) ∈ keptFields fs := by
      rw [keptFields, List.mem_filter]
      exact ⟨List.get?_mem hi, by simp [kept, hc, hf]⟩
    refine ⟨es, ?_, ?_, ?_, ?_⟩
    · simp only [JsValueOf]
      rw [toJs_struct, h1]
      rfl
    · rw [hkeys, ← hname]
      exact List.mem_map.2 ⟨(sf, f), hmem, rfl⟩
    · rw [← hname]
      exact forall₂_objGet _ _ h2 hnd1 (sf, f) hmem
    · rw [hkeys]
      intro hm
      obtain ⟨p, hp, hpn⟩ := List.mem_map.1 hm
      exact hdecl p ((keptFields_sublist fs).subset hp) hpn
  · intro es j
    have key := GoValueOf_struct_field fs (objSet es sf.Name j) i sf f hi hc
    rw [hname, objGet_objSet_of_ne _ _ _ _ hne] at key
    rcases key with ⟨fs1, h1, h2, _⟩ | ⟨e, h1⟩
    · exact Or.inl ⟨fs1, h1, h2⟩
    · exact Or.inr ⟨e, h1⟩

/-- C11 (witness): the record whose single field `Name` is annotated
`n,omitempty` and holds `x`. -/
theorem alias_fidelity_example :
    nameOf ⟨"Name", some "n,omitempty", ""⟩ = "n" ∧
    (isEmptyValue (.string "x") = false →
      ((exportedFields [(⟨"Name", some "n,omitempty", ""⟩, GoValue.string "x")]).map
        fun p => nameOf p.1).Nodup →
      (∀ p ∈ exportedFields [(⟨"Name", some "n,omitempty", ""⟩, GoValue.string "x")],
        nameOf p.1 ≠ "Name") →
      (∀ p ∈ [((⟨"Name", some "n,omitempty", ""⟩ : StructField), GoValue.string "x")],
        kept p = true → toJs p.2 ≠ none) →
      ∃ es, JsValueOf (some (.struct [(⟨"Name", some "n,omitempty", ""⟩, .string "x")])) =
          some (.object es) ∧
        "n" ∈ es.map Prod.fst ∧ toJs (.string "x") = some (objGet es "n") ∧
        "Name" ∉ es.map Prod.fst) ∧
    (∀ (es : List (String × JsValue)) (j : JsValue),
      (∃ fs1, GoValueOf (.object (objSet es "Name" j))
            (some (.ptr (.struct [(⟨"Name", some "n,omitempty", ""⟩, .string "x")]))) =
          (some (.ptr (.struct fs1)), none) ∧
        fs1.get? 0 = some (⟨"Name", some "n,omitempty", ""⟩,
          decodedField (toGo (zeroOf (GoValue.string "x").Type) (objGet es "n")))) ∨
      (∃ e, GoValueOf (.object (objSet es "Name" j))
            (some (.ptr (.struct [(⟨"Name", some "n,omitempty", ""⟩, .string "x")]))) =
          (some (.ptr (.struct [(⟨"Name", some "n,omitempty", ""⟩, .string "x")])),
            some e))) :=
  alias_fidelity [(⟨"Name", some "n,omitempty", ""⟩, .string "x")] 0
    ⟨"Name", some "n,omitempty", ""⟩ (.string "x") "n,omitempty" "n" rfl rfl rfl rfl
    (by decide) (by decide) (by decide)

/-! ## The decoder: what it produces -/

/-- The source `goValue` returns a value whenever it returns no error. -/
theorem goValue_ok_some (rv : GoValue) (jv : JsValue) (r : Option GoValue)
    (h : (goValue rv jv).2 = .ok r) : ∃ v, r = some v := by
  rcases shape_of_Kind rv with ⟨fs, h1⟩ | ⟨kt, vt, h1⟩ | ⟨kt, vt, es, h1⟩ | ⟨t, h1⟩ |
    ⟨t, xs, h1⟩ | ⟨h1, h2, h3⟩
  · subst h1
    rw [goValue_struct _ _ (by rfl), goStruct_struct _ _ _ rfl] at h
    revert h
    generalize goStructFields jv (zeroFields (fieldTypes fs)) = g
    intro h
    rcases g with fs1 | e | _ <;> simp only at h
    · cases h; exact ⟨_, rfl⟩
    · cases h
    · cases h
  · subst h1
    rw [goValue_map _ _ (by rfl)] at h
    cases hk : jv.keys with
    | none => rw [goMap_fault _ _ hk] at h; cases h
    | some keys =>
      rw [goMap_mapNil _ _ _ _ hk _ rfl] at h
      revert h
      generalize goMapEntries kt vt jv keys [] = g
      intro h
      rcases g with ⟨es, _ | e | _⟩ <;> simp only at h
      · cases h; exact ⟨_, rfl⟩
      · cases h
      · cases h
  · subst h1
    rw [goValue_map _ _ (by rfl)] at h
    cases hk : jv.keys with
    | none => rw [goMap_fault _ _ hk] at h; cases h
    | some keys =>
      rw [goMap_map _ _ _ _ _ hk _ rfl] at h
      revert h
      generalize goMapEntries kt vt jv keys es = g
      intro h
      rcases g with ⟨es1, _ | e | _⟩ <;> simp only at h
      · cases h; exact ⟨_, rfl⟩
      · cases h
      · cases h
  · subst h1
    rw [goValue_slice _ _ (by rfl)] at h
    cases hn : jv.Length with
    | none => rw [goSlice_fault _ _ hn] at h; cases h
    | some z =>
      by_cases hz : z < 0
      · rw [goSlice_sliceNil_neg _ _ _ hn hz] at h; cases h
      obtain ⟨n, hn⟩ : ∃ n : ℕ, jv.Length = some (n : ℤ) :=
        ⟨z.toNat, Length_toNat jv z hn (by omega)⟩
      rw [goSlice_sliceNil _ _ _ hn _ rfl] at h
      revert h
      generalize goSliceElems t jv 0 n [] = g
      intro h
      rcases g with xs | e | _ <;> simp only at h
      · cases h; exact ⟨_, rfl⟩
      · cases h
      · cases h
  · subst h1
    rw [goValue_slice _ _ (by rfl)] at h
    cases hn : jv.Length with
    | none => rw [goSlice_fault _ _ hn] at h; cases h
    | some z =>
      by_cases hz : z < 0
      · rw [goSlice_slice_neg _ _ _ _ hn hz] at h; cases h; exact ⟨_, rfl⟩
      obtain ⟨n, hn⟩ : ∃ n : ℕ, jv.Length = some (n : ℤ) :=
        ⟨z.toNat, Length_toNat jv z hn (by omega)⟩
      rw [goSlice_slice _ _ _ _ hn _ rfl] at h
      revert h
      generalize goSliceElems t jv 0 n xs = g
      intro h
      rcases g with xs1 | e | _ <;> simp only at h
      · cases h; exact ⟨_, rfl⟩
      · cases h
      · cases h
  · rw [goValue_other _ _ h1 h2 h3] at h
    cases h

theorem goBasic_ok_some (b i : GoValue) (t : JsType) (r : Option GoValue)
    (h : goBasic b i t = .ok r) : ∃ v, r = some v := by
  unfold goBasic at h
  split at h
  · cases h; exact ⟨_, rfl⟩
  · cases h

/-- On a source that is neither `null` nor `undefined` the source `toGo`
returns a value whenever it returns no error. -/
theorem toGo_ok_some (rv : GoValue) (jv : JsValue) (hp : jv.present = true)
    (r : Option GoValue) (h : (toGo rv jv).2 = .ok r) : ∃ v, r = some v := by
  by_cases hd : rv.depth = 0
  · cases jv with
    | null => simp [JsValue.present] at hp
    | undefined => simp [JsValue.present] at hp
    | bool b => rw [toGo_bool _ _ hd] at h; exact goBasic_ok_some _ _ _ _ h
    | number q => rw [toGo_number _ _ hd] at h; exact goBasic_ok_some _ _ _ _ h
    | string s => rw [toGo_string _ _ hd] at h; exact goBasic_ok_some _ _ _ _ h
    | array xs => rw [toGo_array _ _ hd] at h; exact goValue_ok_some _ _ _ h
    | object es => rw [toGo_object _ _ hd] at h; exact goValue_ok_some _ _ _ h
  · cases rv with
    | ptrNil t =>
      rw [toGo_ptrNil _ _ hp, goPointer_ptrNil _ _ _ rfl] at h
      revert h
      generalize toGo (zeroOf t) jv = g
      intro h
      rcases g with ⟨x, (_ | v) | e | _⟩ <;> simp only at h
      · cases h; exact ⟨_, rfl⟩
      · cases h; exact ⟨_, rfl⟩
      · cases h
      · cases h
    | ptr x0 =>
      rw [toGo_ptr _ _ hp, goPointer_ptr _ _ _ rfl] at h
      revert h
      generalize toGo x0 jv = g
      intro h
      rcases g with ⟨x, (_ | v) | e | _⟩ <;> simp only at h
      · cases h; exact ⟨_, rfl⟩
      · cases h; exact ⟨_, rfl⟩
      · cases h
      · cases h
    | iface e0 =>
      rw [toGo_iface _ _ hp, goInterface_eq _ _ _ _ rfl] at h
      revert h
      generalize toGo e0 jv = g
      intro h
      rcases g with ⟨x, (_ | v) | e | _⟩ <;> simp only at h
      · cases h; exact ⟨_, rfl⟩
      · cases h; exact ⟨_, rfl⟩
      · cases h
      · cases h
    | _ => exact absurd rfl hd

theorem produced_of_absent (et : GoType) (je : JsValue) (h : je.present = false) :
    produced et je = none := by
  unfold produced
  rw [toGo_absent _ _ h]

theorem produced_of_present (et : GoType) (je : JsValue) (h : je.present = true)
    (r : Option GoValue) (hr : (toGo (zeroOf et) je).2 = .ok r) :
    ∃ v, (toGo (zeroOf et) je).2 = .ok (some v) ∧ produced et je = some v := by
  obtain ⟨v, hv⟩ := toGo_ok_some _ _ h r hr
  subst hv
  refine ⟨v, hr, ?_⟩
  unfold produced
  rw [hr]

/-- The loop of `goSlice` over an array whose remaining elements all decode
without error appends what they produce, in order. -/
theorem goSliceElems_append (et : GoType) (jsuf : List JsValue)
    (h : ∀ je ∈ jsuf, ∃ r, (toGo (zeroOf et) je).2 = .ok r) :
    ∀ (jpre : List JsValue) (acc : List GoValue),
      goSliceElems et (.array (jpre ++ jsuf)) jpre.length (jpre ++ jsuf).length acc =
        .ok (acc ++ jsuf.filterMap (produced et)) := by
  induction jsuf with
  | nil =>
    intro jpre acc
    rw [goSliceElems_done _ _ _ _ _ (by simp)]
    simp
  | cons j js ih =>
    intro jpre acc
    have hlt : jpre.length < (jpre ++ j :: js).length := by simp
    have hi : (JsValue.array (jpre ++ j :: js)).Index jpre.length = some j := by
      simp only [JsValue.Index, getD_append_length]
    obtain ⟨r, hr⟩ := h j (List.mem_cons_self _ _)
    have ih1 := ih (fun je hje => h je (List.mem_cons_of_mem _ hje)) (jpre ++ [j])
    simp only [List.append_assoc, List.singleton_append, List.length_append,
      List.length_singleton] at ih1
    rcases ht : toGo (zeroOf et) j with ⟨x, r1⟩
    rw [ht] at hr
    simp only at hr
    subst hr
    rw [goSliceElems_step _ _ _ _ _ _ hlt hi _ ht]
    simp only [List.length_append] at ih1 ⊢
    cases r with
    | none =>
      have hp : produced et j = none := by unfold produced; rw [ht]
      simp only
      rw [List.filterMap_cons_none hp]
      exact ih1 acc
    | some v =>
      have hp : produced et j = some v := by unfold produced; rw [ht]
      simp only
      rw [List.filterMap_cons_some hp, ih1 (acc ++ [v])]
      simp

/-- A slice destination decodes an array whose elements all decode without
error to the elements it holds followed by what the elements of the array
produce, in order. -/
theorem toGo_slice_append (et : GoType) (a : List JsValue) (s : GoValue)
    (ht : s.Type = .slice et) (hok : ∀ je ∈ a, ∃ r, (toGo (zeroOf et) je).2 = .ok r) :
    toGo s (.array a) = (s, .ok (some (.slice et (s.elems ++ a.filterMap (produced et))))) := by
  have hl := goSliceElems_append et a hok []
  simp only [List.nil_append, List.length_nil] at hl
  cases s with
  | sliceNil t =>
    simp only [GoValue.Type, GoType.slice.injEq] at ht
    subst ht
    rw [toGo_array _ _ (by rfl), goValue_slice _ _ (by rfl)]
    exact goSlice_sliceNil _ _ _ (by rfl) _ (hl [])
  | slice t xs0 =>
    simp only [GoValue.Type, GoType.slice.injEq] at ht
    subst ht
    rw [toGo_array _ _ (by rfl), goValue_slice _ _ (by rfl)]
    exact goSlice_slice _ _ _ _ (by rfl) _ (hl xs0)
  | _ => simp [GoValue.Type] at ht

theorem forall₂_produced (et : GoType) (a : List JsValue)
    (hok : ∀ je ∈ a, ∃ r, (toGo (zeroOf et) je).2 = .ok r) :
    List.Forall₂ (fun je v => (toGo (zeroOf et) je).2 = .ok (some v))
      (a.filter JsValue.present) (a.filterMap (produced et)) := by
  induction a with
  | nil => exact List.Forall₂.nil
  | cons j js ih =>
    have ih1 := ih fun je hje => hok je (List.mem_cons_of_mem _ hje)
    by_cases hp : j.present = true
    · obtain ⟨r, hr⟩ := hok j (List.mem_cons_self _ _)
      obtain ⟨v, hv, hpv⟩ := produced_of_present et j hp r hr
      rw [List.filter_cons_of_pos hp, List.filterMap_cons_some hpv]
      exact List.Forall₂.cons hv ih1
    · have hp1 : j.present = false := by simpa using hp
      rw [List.filter_cons_of_neg hp, List.filterMap_cons_none (produced_of_absent et j hp1)]
      exact ih1

/-- C18 (counterexample): the array whose single element is `null` is not
empty, and decoding it into a slice that holds 7 returns no error and leaves
the slice as it was, so that decoding it a second time gives the same result
as decoding it once. -/
theorem GoValueOf_slice_null_twice :
    GoValueOf (.array [.null]) (some (.ptr (.slice (.int .Int) [.int .Int 7]))) =
      (some (.ptr (.slice (.int .Int) [.int .Int 7])), none) := by
  have h1 : goSliceElems (.int .Int) (.array [.null]) 0 1 [.int .Int 7] = .ok [.int .Int 7] :=
    (goSliceElems_step _ _ 0 1 _ .null (by decide) (by rfl) _ (toGo_null _)).trans
      (goSliceElems_done _ _ 1 1 _ (by decide))
  have hs := goSlice_slice (.int .Int) [.int .Int 7] (.array [.null]) 1 (by rfl) _ h1
  have ht := (toGo_array (.slice (.int .Int) [.int .Int 7]) _ (by rfl)).trans
    ((goValue_slice _ _ (by rfl)).trans hs)
  have hp := (toGo_ptr _ _ (by rfl)).trans (goPointer_ptr _ _ _ ht)
  exact GoValueOf_ptr _ _ _ hp

/-- C18 (amended): for an array source whose elements all decode without error
into the element type and a slice destination, `GoValueOf` returns no error
and the destination holds afterwards the elements it held before (none for a
nil slice) followed by the decodings of the elements of the array that are
neither `null` nor `undefined`, in their order; its length is the length
before plus the number of those elements. When the array has such an element,
decoding it a second time into the same variable appends the decodings again,
which is not the result of decoding it once. -/
theorem GoValueOf_slice_append (et : GoType) (a : List JsValue) (s : GoValue)
    (ht : s.Type = .slice et) (hok : ∀ je ∈ a, ∃ r, (toGo (zeroOf et) je).2 = .ok r) :
    GoValueOf (.array a) (some (.ptr s)) =
      (some (.ptr (.slice et (s.elems ++ a.filterMap (produced et)))), none) ∧
    List.Forall₂ (fun je v => (toGo (zeroOf et) je).2 = .ok (some v))
      (a.filter JsValue.present) (a.filterMap (produced et)) ∧
    (GoValue.slice et (s.elems ++ a.filterMap (produced et))).Len =
      s.Len + (a.filter JsValue.present).length ∧
    ((∃ je ∈ a, je.present = true) →
      GoValueOf (.array a) (some (.ptr (.slice et (s.elems ++ a.filterMap (produced et))))) =
        (some (.ptr (.slice et
          ((s.elems ++ a.filterMap (produced et)) ++ a.filterMap (produced et)))), none) ∧
      GoValue.slice et ((s.elems ++ a.filterMap (produced et)) ++ a.filterMap (produced et)) ≠
        GoValue.slice et (s.elems ++ a.filterMap (produced et))) := by
  have hf := forall₂_produced et a hok
  have hdec : ∀ d : GoValue, d.Type = .slice et →
      GoValueOf (.array a) (some (.ptr d)) =
        (some (.ptr (.slice et (d.elems ++ a.filterMap (produced et)))), none) := by
    intro d hd
    have h1 := toGo_slice_append et a d hd hok
    exact GoValueOf_ptr _ _ _ ((toGo_ptr _ _ (by rfl)).trans (goPointer_ptr _ _ _ h1))
  have hlen : s.elems.length = s.Len := by
    cases s <;> simp_all [GoValue.Type, GoValue.elems, GoValue.Len]
  refine ⟨hdec s ht, hf, ?_, ?_⟩
  · simp only [GoValue.Len, List.length_append, hlen, hf.length_eq]
  · rintro ⟨je, hje, hp⟩
    refine ⟨hdec _ rfl, ?_⟩
    intro h
    have hl := congrArg GoValue.Len h
    simp only [GoValue.Len, List.length_append] at hl
    have hpos : 0 < (a.filter JsValue.present).length :=
      List.length_pos_of_mem (List.mem_filter.2 ⟨hje, hp⟩)
    rw [← hf.length_eq] at hl
    omega

/-- C18 (witness): the array of 1, `null` and 2 decoded into the slice of `int`
that holds 7. -/
theorem GoValueOf_slice_append_example :
    GoValueOf (.array [.number 1, .null, .number 2])
        (some (.ptr (.slice (.int .Int) [.int .Int 7]))) =
      (some (.ptr (.slice (.int .Int) ((GoValue.slice (.int .Int) [.int .Int 7]).elems ++
        [JsValue.number 1, .null, .number 2].filterMap (produced (.int .Int))))), none) ∧
    List.Forall₂ (fun je v => (toGo (zeroOf (.int .Int)) je).2 = .ok (some v))
      ([JsValue.number 1, .null, .number 2].filter JsValue.present)
      ([JsValue.number 1, .null, .number 2].filterMap (produced (.int .Int))) ∧
    (GoValue.slice (.int .Int) ((GoValue.slice (.int .Int) [.int .Int 7]).elems ++
        [JsValue.number 1, .null, .number 2].filterMap (produced (.int .Int)))).Len =
      (GoValue.slice (.int .Int) [.int .Int 7]).Len +
        ([JsValue.number 1, .null, .number 2].filter JsValue.present).length ∧
    ((∃ je ∈ [JsValue.number 1, .null, .number 2], je.present = true) →
      GoValueOf (.array [.number 1, .null, .number 2])
          (some (.ptr (.slice (.int .Int) ((GoValue.slice (.int .Int) [.int .Int 7]).elems ++
            [JsValue.number 1, .null, .number 2].filterMap (produced (.int .Int)))))) =
        (some (.ptr (.slice (.int .Int)
          (((GoValue.slice (.int .Int) [.int .Int 7]).elems ++
            [JsValue.number 1, .null, .number 2].filterMap (produced (.int .Int))) ++
            [JsValue.number 1, .null, .number 2].filterMap (produced (.int .Int))))), none) ∧
      GoValue.slice (.int .Int) (((GoValue.slice (.int .Int) [.int .Int 7]).elems ++
          [JsValue.number 1, .null, .number 2].filterMap (produced (.int .Int))) ++
          [JsValue.number 1, .null, .number 2].filterMap (produced (.int .Int))) ≠
        GoValue.slice (.int .Int) ((GoValue.slice (.int .Int) [.int .Int 7]).elems ++
          [JsValue.number 1, .null, .number 2].filterMap (produced (.int .Int)))) :=
  GoValueOf_slice_append (.int .Int) [.number 1, .null, .number 2]
    (.slice (.int .Int) [.int .Int 7]) rfl
    (by
      intro je hje
      simp only [List.mem_cons, List.mem_singleton, List.not_mem_nil, or_false] at hje
      rcases hje with hje | hje | hje <;> subst hje
      · exact ⟨_, congrArg Prod.snd (toGo_number (zeroOf (.int .Int)) 1 (by rfl))⟩
      · exact ⟨_, congrArg Prod.snd (toGo_null _)⟩
      · exact ⟨_, congrArg Prod.snd (toGo_number (zeroOf (.int .Int)) 2 (by rfl))⟩)

/-! ## The decoder: it keeps the type of the destination -/

theorem Convert_type (v : GoValue) (t : GoType) (w : GoValue) (h : Convert v t = some w) :
    w.Type = t := by
  unfold Convert at h
  split at h <;> simp only [Option.some.injEq, reduceCtorEq] at h <;> subst h <;> rfl

theorem goBasic_type (b i : GoValue) (t : JsType) (v : GoValue)
    (h : goBasic b i t = .ok (some v)) : v.Type = b.Type := by
  unfold goBasic at h
  split at h
  · rename_i val hc
    simp only [Res.ok.injEq, Option.some.injEq] at h
    subst h
    exact Convert_type _ _ _ hc
  · cases h

/-- A map or slice destination keeps its type, and so does what `goValue`
produces for it. -/
theorem goValue_type_flat (rv : GoValue) (jv : JsValue)
    (hs : ∀ fs, rv ≠ .struct fs) :
    (goValue rv jv).1.Type = rv.Type ∧
      ∀ v, (goValue rv jv).2 = .ok (some v) → v.Type = rv.Type := by
  rcases shape_of_Kind rv with ⟨fs, h1⟩ | ⟨kt, vt, h1⟩ | ⟨kt, vt, es, h1⟩ | ⟨t, h1⟩ |
    ⟨t, xs, h1⟩ | ⟨h1, h2, h3⟩
  · exact absurd h1 (hs fs)
  · subst h1
    rw [goValue_map _ _ (by rfl)]
    cases hk : jv.keys with
    | none => rw [goMap_fault _ _ hk]; exact ⟨rfl, fun v h => by cases h⟩
    | some keys =>
      rw [goMap_mapNil _ _ _ _ hk _ rfl]
      rcases goMapEntries kt vt jv keys [] with ⟨es, _ | e | _⟩
      · exact ⟨rfl, fun v h => by cases h; rfl⟩
      · exact ⟨rfl, fun v h => by cases h⟩
      · exact ⟨rfl, fun v h => by cases h⟩
  · subst h1
    rw [goValue_map _ _ (by rfl)]
    cases hk : jv.keys with
    | none => rw [goMap_fault _ _ hk]; exact ⟨rfl, fun v h => by cases h⟩
    | some keys =>
      rw [goMap_map _ _ _ _ _ hk _ rfl]
      rcases goMapEntries kt vt jv keys es with ⟨es1, _ | e | _⟩
      · exact ⟨rfl, fun v h => by cases h; rfl⟩
      · exact ⟨rfl, fun v h => by cases h⟩
      · exact ⟨rfl, fun v h => by cases h⟩
  · subst h1
    rw [goValue_slice _ _ (by rfl)]
    cases hn : jv.Length with
    | none => rw [goSlice_fault _ _ hn]; exact ⟨rfl, fun v h => by cases h⟩
    | some z =>
      by_cases hz : z < 0
      · rw [goSlice_sliceNil_neg _ _ _ hn hz]; exact ⟨rfl, fun v h => by cases h⟩
      obtain ⟨n, hn⟩ : ∃ n : ℕ, jv.Length = some (n : ℤ) :=
        ⟨z.toNat, Length_toNat jv z hn (by omega)⟩
      rw [goSlice_sliceNil _ _ _ hn _ rfl]
      rcases goSliceElems t jv 0 n [] with xs | e | _
      · exact ⟨rfl, fun v h => by cases h; rfl⟩
      · exact ⟨rfl, fun v h => by cases h⟩
      · exact ⟨rfl, fun v h => by cases h⟩
  · subst h1
    rw [goValue_slice _ _ (by rfl)]
    cases hn : jv.Length with
    | none => rw [goSlice_fault _ _ hn]; exact ⟨rfl, fun v h => by cases h⟩
    | some z =>
      by_cases hz : z < 0
      · rw [goSlice_slice_neg _ _ _ _ hn hz]; exact ⟨rfl, fun v h => by cases h; rfl⟩
      obtain ⟨n, hn⟩ : ∃ n : ℕ, jv.Length = some (n : ℤ) :=
        ⟨z.toNat, Length_toNat jv z hn (by omega)⟩
      rw [goSlice_slice _ _ _ _ hn _ rfl]
      rcases goSliceElems t jv 0 n xs with xs1 | e | _
      · exact ⟨rfl, fun v h => by cases h; rfl⟩
      · exact ⟨rfl, fun v h => by cases h⟩
      · exact ⟨rfl, fun v h => by cases h⟩
  · rw [goValue_other _ _ h1 h2 h3]
    exact ⟨rfl, fun v h => by cases h⟩

mutual
/-- The source `toGo` keeps the type of the location it decodes into, and what
it produces has that type. -/
theorem toGo_type (rv : GoValue) (jv : JsValue) :
    (toGo rv jv).1.Type = rv.Type ∧ ∀ v, (toGo rv jv).2 = .ok (some v) → v.Type = rv.Type := by
  by_cases hp : jv.present = true
  · by_cases hd : rv.depth = 0
    · have hv : (goValue rv jv).1.Type = rv.Type ∧
          ∀ v, (goValue rv jv).2 = .ok (some v) → v.Type = rv.Type := by
        by_cases hs : ∀ fs, rv ≠ .struct fs
        · exact goValue_type_flat rv jv hs
        · simp only [ne_eq, not_forall, not_not] at hs
          obtain ⟨fs, hfs⟩ := hs
          subst hfs
          rw [goValue_struct _ _ (by rfl), goStruct_struct _ _ _ rfl]
          have ih := goStructFields_type jv (zeroFields (fieldTypes fs))
          rcases hr : goStructFields jv (zeroFields (fieldTypes fs)) with fs1 | e | _
          · refine ⟨rfl, fun v h => ?_⟩
            simp only [Res.ok.injEq, Option.some.injEq] at h
            subst h
            simp only [GoValue.Type, GoType.struct.injEq]
            rw [ih fs1 hr, fieldTypes_zeroFields]
          · exact ⟨rfl, fun v h => by cases h⟩
          · exact ⟨rfl, fun v h => by cases h⟩
      cases jv with
      | bool b => rw [toGo_bool _ _ hd]; exact ⟨rfl, fun v h => goBasic_type _ _ _ _ h⟩
      | number q => rw [toGo_number _ _ hd]; exact ⟨rfl, fun v h => goBasic_type _ _ _ _ h⟩
      | string s => rw [toGo_string _ _ hd]; exact ⟨rfl, fun v h => goBasic_type _ _ _ _ h⟩
      | array xs => rw [toGo_array _ _ hd]; exact hv
      | object es => rw [toGo_object _ _ hd]; exact hv
      | null => simp [JsValue.present] at hp
      | undefined => simp [JsValue.present] at hp
    · cases rv with
      | ptrNil t =>
        rw [toGo_ptrNil _ _ hp]
        have ih := toGo_type (zeroOf t) jv
        rw [Type_zeroOf] at ih
        rcases ht : toGo (zeroOf t) jv with ⟨x, (_ | v) | e | _⟩ <;>
          rw [goPointer_ptrNil _ _ _ ht] <;> rw [ht] at ih
        · refine ⟨rfl, fun v h => ?_⟩
          simp only [Res.ok.injEq, Option.some.injEq] at h
          subst h
          simp only [GoValue.Type, ih.1]
        · refine ⟨rfl, fun w h => ?_⟩
          simp only [Res.ok.injEq, Option.some.injEq] at h
          subst h
          simp only [GoValue.Type, ih.2 v rfl]
        · exact ⟨rfl, fun v h => by cases h⟩
        · exact ⟨rfl, fun v h => by cases h⟩
      | ptr x0 =>
        rw [toGo_ptr _ _ hp]
        have ih := toGo_type x0 jv
        rcases ht : toGo x0 jv with ⟨x, (_ | v) | e | _⟩ <;>
          rw [goPointer_ptr _ _ _ ht] <;> rw [ht] at ih
        · refine ⟨by simp only [GoValue.Type, ih.1], fun v h => ?_⟩
          simp only [Res.ok.injEq, Option.some.injEq] at h
          subst h
          simp only [GoValue.Type, ih.1]
        · refine ⟨by simp only [GoValue.Type, ih.2 v rfl], fun w h => ?_⟩
          simp only [Res.ok.injEq, Option.some.injEq] at h
          subst h
          simp only [GoValue.Type, ih.2 v rfl]
        · exact ⟨by simp only [GoValue.Type, ih.1], fun v h => by cases h⟩
        · exact ⟨by simp only [GoValue.Type, ih.1], fun v h => by cases h⟩
      | iface e0 =>
        rw [toGo_iface _ _ hp, goInterface_eq _ _ _ _ rfl]
        rcases toGo e0 jv with ⟨x, (_ | v) | e | _⟩
        · exact ⟨rfl, fun v h => by cases h; rfl⟩
        · exact ⟨rfl, fun v h => by cases h; rfl⟩
        · exact ⟨rfl, fun v h => by cases h⟩
        · exact ⟨rfl, fun v h => by cases h⟩
      | _ => exact absurd rfl hd
  · rw [toGo_absent _ _ (by simpa using hp)]
    exact ⟨rfl, fun v h => by cases h⟩
termination_by (jv.size, 2 * rv.depth + 3, 0)
decreasing_by
  all_goals first
    | (apply Prod.Lex.right; apply Prod.Lex.left; (try simp only [GoValue.depth, depth_zeroOf]); omega)
/-- The loop of `goStruct` keeps the declarations and the types of the
fields. -/
theorem goStructFields_type (val : JsValue) (fs : List (StructField × GoValue)) :
    ∀ fs1, goStructFields val fs = .ok fs1 → fieldTypes fs1 = fieldTypes fs := by
  match fs with
  | [] =>
    intro fs1 h
    rw [goStructFields_nil] at h
    cases h
    rfl
  | (sf, f) :: rest =>
    intro fs1 h
    have ihr := goStructFields_type val rest
    obtain ⟨f1, rest1, h1, h2, h3⟩ := goStructFields_cons_ok _ _ _ _ _ h
    subst h1
    simp only [fieldTypes, List.cons.injEq, Prod.mk.injEq, true_and]
    refine ⟨?_, ihr rest1 h3⟩
    rcases h2 with ⟨_, h4⟩ | ⟨_, jf, hg, ht | ⟨x, ht⟩⟩
    · rw [h4]
    · have iht := toGo_type f jf
      rw [ht] at iht
      exact iht.1
    · have iht := toGo_type f jf
      rw [ht] at iht
      exact iht.2 f1 rfl
termination_by (val.size, 0, fs.length)
decreasing_by
  all_goals simp_wf
  all_goals first
    | (apply Prod.Lex.left; exact Get_size hg)
    | (apply Prod.Lex.right; apply Prod.Lex.right; omega)
end

/-- C19: for an interface destination that holds a concrete value `e` and a
source that is neither `null` nor `undefined` and that decodes into `e`
without error, `GoValueOf` returns no error and the interface holds afterwards
a value of the type of `e`. A nil interface takes the scalar of the source
itself: a `bool` from a boolean, a `float64` from a number, a `string` from a
string. -/
theorem GoValueOf_populated_iface (e : GoValue) (jv : JsValue) (r : Option GoValue)
    (hp : jv.present = true) (hok : (toGo e jv).2 = .ok r) :
    (∃ v, GoValueOf jv (some (.ptr (.iface e))) = (some (.ptr (.iface v)), none) ∧
      v.Type = e.Type) ∧
    (∀ b, jv = .bool b →
      GoValueOf jv (some (.ptr .ifaceNil)) = (some (.ptr (.iface (.bool b))), none)) ∧
    (∀ q, jv = .number q →
      GoValueOf jv (some (.ptr .ifaceNil)) =
        (some (.ptr (.iface (.float .Float64 q))), none)) ∧
    (∀ s, jv = .string s →
      GoValueOf jv (some (.ptr .ifaceNil)) = (some (.ptr (.iface (.string s))), none)) := by
  refine ⟨?_, ?_, ?_, ?_⟩
  · have ht := toGo_type e jv
    rcases hte : toGo e jv with ⟨x, r1⟩
    rw [hte] at hok ht
    simp only at hok
    subst hok
    cases r with
    | none =>
      have hi := (toGo_iface e jv hp).trans (goInterface_eq _ _ _ _ hte)
      have hq := (toGo_ptr _ _ hp).trans (goPointer_ptr _ _ _ hi)
      exact ⟨x, GoValueOf_ptr _ _ _ hq, ht.1⟩
    | some v =>
      have hi := (toGo_iface e jv hp).trans (goInterface_eq _ _ _ _ hte)
      have hq := (toGo_ptr _ _ hp).trans (goPointer_ptr _ _ _ hi)
      exact ⟨v, GoValueOf_ptr _ _ _ hq, ht.2 v rfl⟩
  · intro b hb
    subst hb
    have hi : toGo .ifaceNil (.bool b) = (.ifaceNil, .ok (some (.iface (.bool b)))) :=
      toGo_bool _ _ (by rfl)
    exact GoValueOf_ptr _ _ _ ((toGo_ptr _ _ (by rfl)).trans (goPointer_ptr _ _ _ hi))
  · intro q hq
    subst hq
    have hi : toGo .ifaceNil (.number q) =
        (.ifaceNil, .ok (some (.iface (.float .Float64 q)))) :=
      toGo_number _ _ (by rfl)
    exact GoValueOf_ptr _ _ _ ((toGo_ptr _ _ (by rfl)).trans (goPointer_ptr _ _ _ hi))
  · intro s hs
    subst hs
    have hi : toGo .ifaceNil (.string s) = (.ifaceNil, .ok (some (.iface (.string s)))) :=
      toGo_string _ _ (by rfl)
    exact GoValueOf_ptr _ _ _ ((toGo_ptr _ _ (by rfl)).trans (goPointer_ptr _ _ _ hi))

/-- C19 (witness): the interface that holds the `int` 3, decoded from the
number 5, holds the `int` 5 afterwards, and a nil interface decoded from it
holds the `float64` 5. -/
theorem GoValueOf_populated_iface_int :
    ((∃ v, GoValueOf (.number 5) (some (.ptr (.iface (.int .Int 3)))) =
        (some (.ptr (.iface v)), none) ∧ v.Type = (GoValue.int .Int 3).Type) ∧
    (∀ b, JsValue.number 5 = .bool b →
      GoValueOf (.number 5) (some (.ptr .ifaceNil)) =
        (some (.ptr (.iface (.bool b))), none)) ∧
    (∀ q, JsValue.number 5 = .number q →
      GoValueOf (.number 5) (some (.ptr .ifaceNil)) =
        (some (.ptr (.iface (.float .Float64 q))), none)) ∧
    (∀ s, JsValue.number 5 = .string s →
      GoValueOf (.number 5) (some (.ptr .ifaceNil)) =
        (some (.ptr (.iface (.string s))), none))) ∧
    GoValueOf (.number 5) (some (.ptr (.iface (.int .Int 3)))) =
      (some (.ptr (.iface (.int .Int 5))), none) := by
  have h5 : toGo (.int .Int 3) (.number 5) = (.int .Int 3, .ok (some (.int .Int 5))) :=
    toGo_number _ _ (by rfl)
  refine ⟨GoValueOf_populated_iface (.int .Int 3) (.number 5) (some (.int .Int 5)) rfl
    (congrArg Prod.snd h5), ?_⟩
  have hi := (toGo_iface (.int .Int 3) (.number 5) (by rfl)).trans (goInterface_eq _ _ _ _ h5)
  exact GoValueOf_ptr _ _ _ ((toGo_ptr _ _ (by rfl)).trans (goPointer_ptr _ _ _ hi))

/-! ## Round trip: records with omitted fields -/

theorem Convert_int_exact (k : IntKind) (n : ℤ)
    (h : -(2 ^ (k.bits - 1)) ≤ n ∧ n < 2 ^ (k.bits - 1)) :
    Convert (.float .Float64 (n : ℚ)) (.int k) = some (.int k n) := by
  obtain ⟨h2, h3⟩ := h
  have h4 : -(2 ^ 63) ≤ n := by cases k <;> simp only [IntKind.bits] at h2 <;> omega
  have h5 : n < 2 ^ 63 := by cases k <;> simp only [IntKind.bits] at h3 <;> omega
  simp only [Convert, int64OfFloat64_intCast n h4 h5, Option.some.injEq, GoValue.int.injEq,
    true_and]
  cases k <;> simp only [IntKind.bits, wrapInt] at h2 h3 ⊢ <;> omega

theorem Convert_uint_exact (k : UintKind) (n : ℕ) (h : n < 2 ^ k.bits) :
    Convert (.float .Float64 ((n : ℤ) : ℚ)) (.uint k) = some (.uint k n) := by
  have h4 : n < 2 ^ 64 := by cases k <;> simp only [UintKind.bits] at h <;> omega
  simp only [Convert, uint64OfFloat64_natCast n h4, Option.some.injEq, GoValue.uint.injEq,
    true_and]
  exact Nat.mod_eq_of_lt h

/-- An exported field that `jsStruct` gives no key has an external name that
is not among the keys, when the external names are pairwise distinct. -/
theorem nameOf_not_mem_kept (fs : List (StructField × GoValue)) (p : StructField × GoValue)
    (hp : p ∈ fs) (hc : p.1.CanInterface = true) (hk : kept p = false)
    (hd : ((exportedFields fs).map fun p => nameOf p.1).Nodup) :
    nameOf p.1 ∉ (keptFields fs).map fun p => nameOf p.1 := by
  intro hm
  obtain ⟨q, hq, hqn⟩ := List.mem_map.1 hm
  have hqe : q ∈ exportedFields fs := (keptFields_sublist fs).subset hq
  have hpe : p ∈ exportedFields fs := by
    rw [exportedFields, List.mem_filter]; exact ⟨hp, hc⟩
  have hqp : q = p := List.inj_on_of_nodup_map hd hqe hpe hqn
  subst hqp
  rw [keptFields, List.mem_filter] at hq
  rw [hq.2] at hk
  cases hk

/-- A record whose exported fields survive the round trip, whose other fields
and omitted fields are zero and whose external names are pairwise distinct
encodes to an object from which the loop of `goStruct` rebuilds its fields. -/
theorem struct_round_trip (fs : List (StructField × GoValue))
    (hx : ∀ p ∈ fs, p.1.CanInterface = true → Trip p.2)
    (hz : ∀ p ∈ fs, kept p = false → p.2 = zeroOf p.2.Type)
    (hd : ((exportedFields fs).map fun p => nameOf p.1).Nodup) :
    ∃ es, toJs (.struct fs) = some (.object es) ∧
      goStructFields (.object es) (zeroFields (fieldTypes fs)) = .ok fs := by
  have hnd : ((keptFields fs).map fun p => nameOf p.1).Nodup :=
    List.Nodup.sublist ((keptFields_sublist fs).map _) hd
  have henc : ∀ p ∈ fs, kept p = true → ∃ j, toJs p.2 = some j := by
    intro p hp hk
    have hc : p.1.CanInterface = true := by
      simp only [kept, Bool.and_eq_true] at hk
      exact hk.1
    obtain ⟨j, hj, _⟩ := hx p hp hc
    exact ⟨j, hj⟩
  obtain ⟨es, h1, h2⟩ := jsFields_spec fs [] henc hnd (by simp)
  have hget := forall₂_objGet _ _ h2 hnd
  have hkeys := forall₂_keys _ _ h2
  have hfd : ∀ p ∈ fs, FieldDecoded (.object es) p.1 (zeroOf p.2.Type) p.2 := by
    intro p hp
    by_cases hc : p.1.CanInterface = true
    · right
      refine ⟨hc, objGet es (nameOf p.1), rfl, ?_⟩
      by_cases hk : kept p = true
      · have hj := hget p (by rw [keptFields, List.mem_filter]; exact ⟨hp, hk⟩)
        obtain ⟨j, hj1, h3, h4⟩ := hx p hp hc
        rw [hj] at hj1
        simp only [Option.some.injEq] at hj1
        subst hj1
        by_cases hn : p.2.nonNull = true
        · exact Or.inr ⟨_, (h3 hn).2⟩
        · have hn1 : p.2.nonNull = false := by simpa using hn
          obtain ⟨h5, h6⟩ := h4 hn1
          left
          rw [h5, toGo_null]
          rw [← h6]
      · have hk1 : kept p = false := by simpa using hk
        have hnm := nameOf_not_mem_kept fs p hp hc hk1 hd
        rw [← hkeys] at hnm
        left
        rw [objGet_of_not_mem _ _ hnm, toGo_undefined]
        rw [← hz p hp hk1]
    · have hc1 : p.1.CanInterface = false := by simpa using hc
      exact Or.inl ⟨hc1, hz p hp (by simp [kept, hc1])⟩
  refine ⟨es, ?_, (goStructFields_ok_iff _ _ _).2 (forall₂_zeroFields _ fs hfd)⟩
  rw [toJs_struct, h1]; rfl

/-- An empty value of the restricted round trip is the zero value of its
type. -/
theorem Restricted_empty (v : GoValue) (h : Restricted v) (he : isEmptyValue v = true) :
    v = zeroOf v.Type := by
  cases h with
  | bool b =>
    simp only [isEmptyValue, GoValue.Kind, GoValue.asBool, Bool.not_eq_true'] at he
    subst he; rfl
  | string s =>
    simp only [isEmptyValue, GoValue.Kind, GoValue.Len, beq_iff_eq] at he
    have hl := (utf8ByteSize_eq_zero s).1 he
    have hs : s = "" := by
      cases s with
      | mk d =>
        simp only [String.length] at hl
        rw [List.length_eq_zero] at hl
        subst hl; rfl
    subst hs; rfl
  | int k n hr hx =>
    have h0 : n = 0 := by
      cases k <;> simpa [isEmptyValue, GoValue.Kind, IntKind.toKind, GoValue.asInt] using he
    subst h0; rfl
  | uint k n hr hx =>
    have h0 : n = 0 := by
      cases k <;> simpa [isEmptyValue, GoValue.Kind, UintKind.toKind, GoValue.asUint] using he
    subst h0; rfl
  | struct fs hx hz hd =>
    simp [isEmptyValue, GoValue.Kind] at he

theorem Restricted_nonNull (v : GoValue) (h : Restricted v) : v.nonNull = true := by
  cases h <;> rfl

/-- Every value of the restricted round trip survives the round trip. -/
theorem Trip_of_Restricted (v : GoValue) (h : Restricted v) : Trip v := by
  induction h with
  | bool b =>
    exact ⟨.bool b, toJs_bool b, fun _ => ⟨rfl, toGo_bool _ _ (by rfl)⟩,
      by simp [GoValue.nonNull]⟩
  | string s =>
    exact ⟨.string s, toJs_string s, fun _ => ⟨rfl, toGo_string _ _ (by rfl)⟩,
      by simp [GoValue.nonNull]⟩
  | int k n hr he =>
    refine ⟨_, toJs_int k n, fun _ => ⟨rfl, ?_⟩, by simp [GoValue.nonNull]⟩
    show toGo (.int k 0) _ = _
    rw [toGo_number _ _ (by rfl), he]
    simp only [goBasic, GoValue.Type, Convert_int_exact k n hr]
    rfl
  | uint k n hr he =>
    refine ⟨_, toJs_uint k n, fun _ => ⟨rfl, ?_⟩, by simp [GoValue.nonNull]⟩
    show toGo (.uint k 0) _ = _
    rw [toGo_number _ _ (by rfl), he]
    simp only [goBasic, GoValue.Type, Convert_uint_exact k n hr]
    rfl
  | struct fs hx hz hd ih =>
    have hz1 : ∀ p ∈ fs, kept p = false → p.2 = zeroOf p.2.Type := by
      intro p hp hk
      by_cases hc : p.1.CanInterface = true
      · have he : isEmptyValue p.2 = true := by
          simp only [kept, hc, Bool.true_and, Bool.not_eq_false', Bool.and_eq_true] at hk
          exact hk.1
        exact Restricted_empty p.2 (hx p hp hc) he
      · exact hz p hp (by simpa using hc)
    obtain ⟨es, h1, h2⟩ := struct_round_trip fs ih hz1 hd
    refine ⟨.object es, h1, ?_, by simp [GoValue.nonNull]⟩
    intro _
    refine ⟨rfl, ?_⟩
    show toGo (.struct (zeroFields (fieldTypes fs))) (.object es) =
      (.struct (zeroFields (fieldTypes fs)), .ok (some (.struct fs)))
    have hdec1 : goStructFields (.object es)
        (zeroFields (fieldTypes (zeroFields (fieldTypes fs)))) = .ok fs := by
      rw [fieldTypes_zeroFields]; exact h2
    rw [toGo_object _ _ (by rfl), goValue_struct _ _ (by rfl)]
    exact goStruct_struct _ _ _ hdec1

/-- C20 (counterexample): the record with the field `secret`, which is not
exported and holds 5, and the exported field `Name` holding `x` encodes to the
object with `Name` alone, and decoding that into a variable that holds the
record itself returns no error and leaves 0 in `secret`: not the record that
was encoded. -/
theorem GoValueOf_JsValueOf_unexported :
    JsValueOf (some (.struct [(⟨"secret", none, "main"⟩, .int .Int 5),
        (⟨"Name", none, ""⟩, .string "x")])) = some (.object [("Name", .string "x")]) ∧
    GoValueOf (.object [("Name", .string "x")])
        (some (.ptr (.struct [(⟨"secret", none, "main"⟩, .int .Int 5),
          (⟨"Name", none, ""⟩, .string "x")]))) =
      (some (.ptr (.struct [(⟨"secret", none, "main"⟩, .int .Int 0),
          (⟨"Name", none, ""⟩, .string "x")])), none) ∧
    GoValue.struct [(⟨"secret", none, "main"⟩, .int .Int 0), (⟨"Name", none, ""⟩, .string "x")] ≠
      GoValue.struct [(⟨"secret", none, "main"⟩, .int .Int 5),
        (⟨"Name", none, ""⟩, .string "x")] := by
  refine ⟨?_, ?_, by simp⟩
  · have h2 : jsFields [((⟨"secret", none, "main"⟩ : StructField), GoValue.int .Int 5),
        (⟨"Name", none, ""⟩, .string "x")] [] = some [("Name", .string "x")] :=
      (jsFields_skip _ _ _ _ (by rfl)).trans
        ((jsFields_keep _ _ _ _ (by rfl) (by rfl) _ (toJs_string _)).trans (jsFields_nil _))
    simp only [JsValueOf]
    rw [toJs_struct, h2]
    rfl
  · have h1 : goStructFields (.object [("Name", .string "x")])
        [(⟨"Name", none, ""⟩, .string "")] = .ok [(⟨"Name", none, ""⟩, .string "x")] :=
      goStructFields_field _ _ _ _ (.string "x") (by rfl) (by rfl) _
        (toGo_string _ _ (by rfl)) _ (goStructFields_nil _)
    have h2 : goStructFields (.object [("Name", .string "x")])
        [(⟨"secret", none, "main"⟩, .int .Int 0), (⟨"Name", none, ""⟩, .string "")] =
        .ok [(⟨"secret", none, "main"⟩, .int .Int 0), (⟨"Name", none, ""⟩, .string "x")] :=
      goStructFields_skip _ _ _ _ (by rfl) _ h1
    exact GoValueOf_struct _ [(⟨"secret", none, "main"⟩, .int .Int 5),
      (⟨"Name", none, ""⟩, .string "x")] (by rfl) _ h2

/-- C20 (amended): every record of the restricted class (`Restricted`: the
exported fields have pairwise distinct external names and hold booleans,
strings, integers within the range of their kind that a number holds exactly,
or nested records of the same form, and the fields that are not exported are
zero), whether or not some of its fields are empty and omittable, has an
encoding, and decoding that encoding into a variable of the same type returns
no error and leaves the record, whatever the variable held before. -/
theorem GoValueOf_JsValueOf_restricted (fs fs2 : List (StructField × GoValue))
    (h : Restricted (.struct fs)) (ht : (GoValue.struct fs2).Type = (GoValue.struct fs).Type) :
    ∃ j, JsValueOf (some (.struct fs)) = some j ∧
      GoValueOf j (some (.ptr (.struct fs2))) = (some (.ptr (.struct fs)), none) := by
  cases h with
  | struct _ hx hz hd =>
    have hz1 : ∀ p ∈ fs, kept p = false → p.2 = zeroOf p.2.Type := by
      intro p hp hk
      by_cases hc : p.1.CanInterface = true
      · have he : isEmptyValue p.2 = true := by
          simp only [kept, hc, Bool.true_and, Bool.not_eq_false', Bool.and_eq_true] at hk
          exact hk.1
        exact Restricted_empty p.2 (hx p hp hc) he
      · exact hz p hp (by simpa using hc)
    obtain ⟨es, h1, h2⟩ := struct_round_trip fs
      (fun p hp hc => Trip_of_Restricted p.2 (hx p hp hc)) hz1 hd
    simp only [GoValue.Type, GoType.struct.injEq] at ht
    refine ⟨.object es, h1, ?_⟩
    have h3 : goStructFields (.object es) (zeroFields (fieldTypes fs2)) = .ok fs := by
      rw [ht]; exact h2
    exact GoValueOf_struct _ fs2 (by rfl) _ h3

/-- C20 (witness): the record with `Name` (annotated `n,omitempty`) empty,
`Age` holding 30 and the nested record `In` with `On` holding `true` is of the
restricted class, and it comes back from its encoding into a variable that
held other values. -/
theorem GoValueOf_JsValueOf_restricted_example :
    ∃ j, JsValueOf (some (.struct [(⟨"Name", some "n,omitempty", ""⟩, .string ""),
        (⟨"Age", none, ""⟩, .int .Int 30),
        (⟨"In", none, ""⟩, .struct [(⟨"On", none, ""⟩, .bool true)])])) = some j ∧
      GoValueOf j (some (.ptr (.struct [(⟨"Name", some "n,omitempty", ""⟩, .string "old"),
        (⟨"Age", none, ""⟩, .int .Int 7),
        (⟨"In", none, ""⟩, .struct [(⟨"On", none, ""⟩, .bool false)])]))) =
      (some (.ptr (.struct [(⟨"Name", some "n,omitempty", ""⟩, .string ""),
        (⟨"Age", none, ""⟩, .int .Int 30),
        (⟨"In", none, ""⟩, .struct [(⟨"On", none, ""⟩, .bool true)])])), none) :=
  GoValueOf_JsValueOf_restricted _ _
    (Restricted.struct _
      (by
        intro p hp _
        simp only [List.mem_cons, List.mem_singleton, List.not_mem_nil, or_false] at hp
        rcases hp with hp | hp | hp <;> subst hp
        · exact Restricted.string _
        · exact Restricted.int _ _ ⟨by decide, by decide⟩
            (by rw [float64OfInt_small 30 (by decide)])
        · exact Restricted.struct _
            (by
              intro p hp _
              simp only [List.mem_singleton] at hp
              subst hp
              exact Restricted.bool _)
            (by
              intro p hp hc
              simp only [List.mem_singleton] at hp
              subst hp
              exact absurd hc (by decide))
            (by decide))
      (by
        intro p hp hc
        simp only [List.mem_cons, List.mem_singleton, List.not_mem_nil, or_false] at hp
        rcases hp with hp | hp | hp <;> subst hp <;> exact absurd hc (by decide))
      (by decide))
    rfl

end WasmUtils
